import Mathlib

/-!
# PSO item reader: decoding engine and view state machine

A shallow embedding of the C++ sources (`Defs`, `MemoryReader`, `pso/ItemDb`,
`pso/Item`, `pso/ItemReader`, `pso/ItemReaderBaseState`, `pso/ItemReaderStates`,
`pso/ProcessWatcher`, `AppStateDefs`, `main`).

Conventions of the embedding

* unsigned machine integers are natural numbers reduced modulo `2 ^ width` at
  the places where the C++ type truncates; `int` is a 32-bit two's complement
  integer, `Address` (`uintptr_t`) has 64 bits;
* a C++ function that may throw returns `Except Exn`;
* the host byte order, which the sources test at run time in
  `get_machine_endianness`, is an explicit argument `host`;
* the contents of the hand-written item table and the IEEE arithmetic of the
  mag feed timer are not embedded; they are fields of `Extern`.
-/

namespace PsoItemReader

/-! ## Machine integers -/

/-- Value of a C++ `int` (32-bit two's complement) holding the low 32 bits of `n`. -/
def to_int32 (n : Nat) : Int :=
  if n % 4294967296 < 2147483648 then ((n % 4294967296 : Nat) : Int)
  else ((n % 4294967296 : Nat) : Int) - 4294967296

/-- Value of an `int8_t` holding the low 8 bits of `n`. -/
def to_int8 (n : Nat) : Int :=
  if n % 256 < 128 then ((n % 256 : Nat) : Int) else ((n % 256 : Nat) : Int) - 256

/-- The type `Address` of `Defs.hpp`: `uintptr_t`, an unsigned 64-bit integer. -/
abbrev Address := Nat

/-- Addition on `Address`, wrapping at 64 bits. -/
def addr_add (a k : Nat) : Address := (a + k) % 18446744073709551616

/-- The constant `k_no_address` of `Defs.hpp`. -/
def k_no_address : Address := 0

/-! ## Exceptions -/

/-- The exception classes thrown by the sources. -/
inductive Exn
  | runtime_error
  | invalid_argument
  | PermissionError
  deriving DecidableEq, Repr

/-! ## Endianness (`Defs.hpp`, `Defs.cpp`) -/

/-- The enumeration `EndiannessEnum`. -/
inductive EndiannessEnum
  | k_big_endian
  | k_little_endian
  deriving DecidableEq, Repr

open EndiannessEnum

/-- The function `get_machine_endianness`: it inspects the first byte in memory of
the 16-bit value 1, which is what distinguishes the two kinds of host. -/
def get_machine_endianness (host : EndiannessEnum) : EndiannessEnum := host

/-- The instance `revt<uint16_t>`: both halves are bytes and are not reversed
further. In each instance `high` and `low` have the smaller type, so the
assignments truncate; the result has the bigger type. -/
def revt_u16 (a : Nat) : Nat :=
  let high := (a >>> 8) % 256
  let low := a % 256
  ((low <<< 8) ||| high) % 65536

/-- The instance `revt<uint32_t>`. -/
def revt_u32 (a : Nat) : Nat :=
  let high := (a >>> 16) % 65536
  let low := a % 65536
  let high := revt_u16 high
  let low := revt_u16 low
  ((low <<< 16) ||| high) % 4294967296

/-- The instance `revt<uint64_t>`. -/
def revt_u64 (a : Nat) : Nat :=
  let high := (a >>> 32) % 4294967296
  let low := a &&& 4294967295
  let high := revt_u32 high
  let low := revt_u32 low
  ((low <<< 32) ||| high) % 18446744073709551616

/-- The function `process_endian_u16`. -/
def process_endian_u16 (host : EndiannessEnum) (u : Nat) (endn : EndiannessEnum) : Nat :=
  if endn = get_machine_endianness host then u else revt_u16 u

/-- The function `process_endian_u32`. -/
def process_endian_u32 (host : EndiannessEnum) (u : Nat) (endn : EndiannessEnum) : Nat :=
  if endn = get_machine_endianness host then u else revt_u32 u

/-- The function `process_endian_u64`. -/
def process_endian_u64 (host : EndiannessEnum) (u : Nat) (endn : EndiannessEnum) : Nat :=
  if endn = get_machine_endianness host then u else revt_u64 u

/-! ## Memory readers (`MemoryReader.hpp`, `MemoryReader.cpp`) -/

/-- The abstract class `MemoryReader`: `read addr n` either throws or yields the
bytes copied into the caller's buffer of `n` bytes. -/
structure MemoryReader where
  read : Address → Nat → Except Exn (List Nat)

/-- Byte `i` of a filled buffer; a position the reader left out reads as 0. -/
def buffer_byte (buf : List Nat) (i : Nat) : Nat := buf.getD i 0 % 256

/-- Value of a sequence of bytes, least significant byte first. -/
def le_value : List Nat → Nat
  | [] => 0
  | b :: bs => b % 256 + 256 * le_value bs

/-- Value of the unsigned object of `n` bytes that occupies the buffer, as the
host sees it through `reinterpret_cast`. -/
def object_value (host : EndiannessEnum) (n : Nat) (buf : List Nat) : Nat :=
  match host with
  | k_little_endian => le_value ((List.range n).map (buffer_byte buf))
  | k_big_endian => le_value ((List.range n).map (buffer_byte buf)).reverse

/-- The template `MemoryReader::read_datum<T>` for an unsigned `T` of `n` bytes. -/
def MemoryReader.read_datum (host : EndiannessEnum) (n : Nat) (memory : MemoryReader)
    (addr : Address) : Except Exn Nat := do
  let buf ← memory.read addr n
  pure (object_value host n buf)

/-- The method `read_u8`; a single byte has no byte order. -/
def MemoryReader.read_u8 (memory : MemoryReader) (addr : Address) : Except Exn Nat := do
  let buf ← memory.read addr 1
  pure (buffer_byte buf 0)

/-- The method `read_i8`. -/
def MemoryReader.read_i8 (memory : MemoryReader) (addr : Address) : Except Exn Int := do
  let buf ← memory.read addr 1
  pure (to_int8 (buffer_byte buf 0))

/-- The method `read_u16`. -/
def MemoryReader.read_u16 (host : EndiannessEnum) (memory : MemoryReader) (addr : Address) :
    Except Exn Nat :=
  memory.read_datum host 2 addr

/-- The method `read_u32`. -/
def MemoryReader.read_u32 (host : EndiannessEnum) (memory : MemoryReader) (addr : Address) :
    Except Exn Nat :=
  memory.read_datum host 4 addr

/-- The method `read_u64`. -/
def MemoryReader.read_u64 (host : EndiannessEnum) (memory : MemoryReader) (addr : Address) :
    Except Exn Nat :=
  memory.read_datum host 8 addr

/-- The method `read_i32`. -/
def MemoryReader.read_i32 (host : EndiannessEnum) (memory : MemoryReader) (addr : Address) :
    Except Exn Int := do
  let u ← memory.read_datum host 4 addr
  pure (to_int32 u)

/-! ## Item table interface (`pso/ItemReader.hpp`, `pso/ItemDb.hpp`, `pso/ItemDb.cpp`) -/

/-- The enumeration `Rarity`. -/
inductive Rarity
  | uber
  | rare
  | interest
  | common
  | esrank
  deriving DecidableEq, Repr

/-- The enumeration `TechType`. -/
inductive TechType
  | foie | zonde | barta
  | gifioe | gizonde | gibarta
  | rafoie | razonde | rabarta
  | grants | megid
  | resta | anti | reverser
  | shifta | deband | jellen | zalure | ryuker
  deriving DecidableEq, Repr

/-- The enumeration `WeaponSpecial`, an `enum class` over `uint8_t`: a value is its
underlying byte, so that `static_cast` from a code is the constructor. -/
structure WeaponSpecial where
  code : Nat
  deriving DecidableEq, Repr

namespace WeaponSpecial

def none : WeaponSpecial := ⟨0⟩
def draw : WeaponSpecial := ⟨1⟩
def drain : WeaponSpecial := ⟨2⟩
def fill : WeaponSpecial := ⟨3⟩
def gush : WeaponSpecial := ⟨4⟩
def heart : WeaponSpecial := ⟨5⟩
def mind : WeaponSpecial := ⟨6⟩
def soul : WeaponSpecial := ⟨7⟩
def geist : WeaponSpecial := ⟨8⟩
def masters : WeaponSpecial := ⟨9⟩
def lords : WeaponSpecial := ⟨10⟩
def kings : WeaponSpecial := ⟨11⟩
def charge : WeaponSpecial := ⟨12⟩
def spirit : WeaponSpecial := ⟨13⟩
def berserk : WeaponSpecial := ⟨14⟩
def ice : WeaponSpecial := ⟨15⟩
def frost : WeaponSpecial := ⟨16⟩
def freeze : WeaponSpecial := ⟨17⟩
def blizzard : WeaponSpecial := ⟨18⟩
def bind : WeaponSpecial := ⟨19⟩
def hold : WeaponSpecial := ⟨20⟩
def seize : WeaponSpecial := ⟨21⟩
def arrest : WeaponSpecial := ⟨22⟩
def heat : WeaponSpecial := ⟨23⟩
def fire : WeaponSpecial := ⟨24⟩
def flame : WeaponSpecial := ⟨25⟩
def burning : WeaponSpecial := ⟨26⟩
def shock : WeaponSpecial := ⟨27⟩
def thunder : WeaponSpecial := ⟨28⟩
def storm : WeaponSpecial := ⟨29⟩
def tempest : WeaponSpecial := ⟨30⟩
def dim : WeaponSpecial := ⟨31⟩
def shadow : WeaponSpecial := ⟨32⟩
def dark : WeaponSpecial := ⟨33⟩
def hell : WeaponSpecial := ⟨34⟩
def panic : WeaponSpecial := ⟨35⟩
def riot : WeaponSpecial := ⟨36⟩
def havoc : WeaponSpecial := ⟨37⟩
def chaos : WeaponSpecial := ⟨38⟩
def devils : WeaponSpecial := ⟨39⟩
def demons : WeaponSpecial := ⟨40⟩

/-- The enumerators in declaration order; the position of each is its value. -/
def enumerators : List WeaponSpecial :=
  [none,
   draw, drain, fill, gush,
   heart, mind, soul, geist,
   masters, lords, kings,
   charge, spirit, berserk,
   ice, frost, freeze, blizzard,
   bind, hold, seize, arrest,
   heat, fire, flame, burning,
   shock, thunder, storm, tempest,
   dim, shadow, dark, hell,
   panic, riot, havoc, chaos,
   devils, demons]

end WeaponSpecial

/-- The structure `ItemInfo`. -/
structure ItemInfo where
  name : String := "<unknown item>"
  rarity : Rarity := Rarity.common
  has_kill_counter : Bool := false
  deriving DecidableEq, Repr

/-- The structure `DefenseItemInfo`; `k_uninit` is -1. -/
structure DefenseItemInfo where
  max_dfp : Int := -1
  min_dfp : Int := -1
  max_evp : Int := -1
  min_evp : Int := -1
  deriving DecidableEq, Repr

/-- What the embedding takes from outside: the two maps that `ItemDb::ItemDb`
fills from the hand-written table, and the IEEE computation
`int(std::round(x / 30.f))` on the bits of the 32-bit float `x`. -/
structure Extern where
  m_info_map : Nat → Option ItemInfo
  m_def_map : Nat → Option DefenseItemInfo
  round_div30 : Nat → Int

/-- The function `is_esrank`. -/
def is_esrank (fullcode : Nat) : Bool :=
  let fullcode := (fullcode >>> 8) &&& 0xFF
  (decide (fullcode ≥ 0x70) && decide (fullcode < 0x89)) ||
    (decide (fullcode ≥ 0xA5) && decide (fullcode < 0xAA))

/-- The function `prepare_code`; `lowu8` is the first byte of the 32-bit object
in the memory of the host. -/
def prepare_code (host : EndiannessEnum) (fullcode : Nat) : Nat :=
  let lowu8 := match host with
    | k_little_endian => fullcode % 256
    | k_big_endian => (fullcode >>> 24) % 256
  let fullcode := if is_esrank fullcode || decide (lowu8 = 0x02) then fullcode &&& 0xFFFF
    else fullcode
  let fullcode := process_endian_u32 host fullcode k_big_endian
  fullcode >>> 8

/-- The function `get_item_info`. -/
def get_item_info (host : EndiannessEnum) (env : Extern) (fullcode : Nat) : ItemInfo :=
  let fullcode := prepare_code host fullcode
  match env.m_info_map fullcode with
  | Option.none => {}
  | some nfo => nfo

/-- The function `get_defense_item_info`. -/
def get_defense_item_info (host : EndiannessEnum) (env : Extern) (fullcode : Nat) :
    DefenseItemInfo :=
  let fullcode := prepare_code host fullcode
  match env.m_def_map fullcode with
  | Option.none => {}
  | some nfo => nfo

/-- The function `get_tech_type`. -/
def get_tech_type (tech_code : Int) : Except Exn TechType :=
  match tech_code with
  | 0x00 => pure TechType.foie
  | 0x01 => pure TechType.gifioe
  | 0x02 => pure TechType.rafoie
  | 0x03 => pure TechType.barta
  | 0x04 => pure TechType.gibarta
  | 0x05 => pure TechType.rabarta
  | 0x06 => pure TechType.zonde
  | 0x07 => pure TechType.gizonde
  | 0x08 => pure TechType.razonde
  | 0x09 => pure TechType.grants
  | 0x12 => pure TechType.megid
  | 0x0A => pure TechType.deband
  | 0x0D => pure TechType.shifta
  | 0x0B => pure TechType.jellen
  | 0x0C => pure TechType.zalure
  | 0x0F => pure TechType.resta
  | 0x10 => pure TechType.anti
  | 0x0E => pure TechType.ryuker
  | 0x11 => pure TechType.reverser
  | _ => throw Exn.runtime_error

/-- The function `to_string(TechType)`. -/
def TechType.to_string : TechType → String
  | foie => "Foie"
  | zonde => "Zonde"
  | barta => "Barta"
  | gifioe => "Gifoie"
  | gizonde => "Gizonde"
  | gibarta => "Gibarta"
  | rafoie => "Rafoie"
  | razonde => "Razonde"
  | rabarta => "Rabarta"
  | grants => "Grants"
  | megid => "Megid"
  | resta => "Resta"
  | anti => "Anti"
  | reverser => "Reverser"
  | shifta => "Shifta"
  | deband => "Deband"
  | jellen => "Jellen"
  | zalure => "Zalure"
  | ryuker => "Ryuker"

/-! ## Item classes (`pso/ItemReader.hpp`, `pso/Item.hpp`) -/

/-- The constant `k_item_code_offset`. -/
def k_item_code_offset : Address := 0xF2

/-- The data members of `WeaponBase`. -/
structure WeaponBase where
  grind : Int := 0
  special : WeaponSpecial := WeaponSpecial.none
  tekked : Bool := true
  wrapped : Bool := false
  deriving DecidableEq, Repr

/-- The data members of `DefenseItem`; `mins_maxes` is a pointer, null at first. -/
structure DefenseItem where
  evp : Int := 0
  dfp : Int := 0
  mins_maxes : Option DefenseItemInfo := Option.none
  deriving DecidableEq, Repr

/-- The data members of `Meseta`. -/
structure Meseta where
  quantity : Int := 0
  deriving DecidableEq, Repr

/-- The data members of `Tool`. -/
structure Tool where
  quantity : Int := 0
  deriving DecidableEq, Repr

/-- The data members of `Tech`. -/
structure Tech where
  type : TechType := TechType.resta
  level : Int := 0
  deriving DecidableEq, Repr

/-- The data members of `Weapon`; `m_attributes` has `k_num_attrs` = 5 elements. -/
structure Weapon extends WeaponBase where
  m_attr_count : Int := 0
  m_attributes : List Int := [0, 0, 0, 0, 0]
  deriving DecidableEq, Repr

/-- The data members of `EsWeapon`; `custom_name` has `k_max_name` = 9 characters. -/
structure EsWeapon extends WeaponBase where
  custom_name : List Nat := [0, 0, 0, 0, 0, 0, 0, 0, 0]
  deriving DecidableEq, Repr

/-- The data members of `Frame`. -/
structure Frame extends DefenseItem where
  slot_count : Int := 0
  deriving DecidableEq, Repr

/-- The data members of `Barrier`. -/
structure Barrier extends DefenseItem
  deriving DecidableEq, Repr

/-- The data members of `Mag`; both arrays have `k_stat_count` = 4 elements of
type `uint8_t`. -/
structure Mag where
  levels : List Nat := [0, 0, 0, 0]
  percentages : List Nat := [0, 0, 0, 0]
  seconds_until_feeding : Int := 0
  in_bank : Bool := false
  deriving DecidableEq, Repr

/-- The dynamic type of an item together with the members of the derived class. -/
inductive ItemClass
  | Weapon (w : Weapon)
  | EsWeapon (w : EsWeapon)
  | Frame (f : Frame)
  | Barrier (b : Barrier)
  | Unit
  | Mag (m : Mag)
  | Tool (t : Tool)
  | Tech (t : Tech)
  | Meseta (m : Meseta)
  | TotallyUnknownItem
  deriving DecidableEq, Repr

/-- The class `Item`: the members of the base class and the derived part.
`k_has_no_kill_counter` is -1 and `k_unknown_item` the default name. -/
structure Item where
  rarity : Rarity := Rarity.common
  kills : Int := -1
  fullcode : Nat := 0
  name : String := "<unknown item>"
  derived : ItemClass
  deriving DecidableEq, Repr

/-- The type `AddressList`. -/
abbrev AddressList := List Address

/-- The type `ItemList`. -/
abbrev ItemList := List Item

/-! ## Field loaders (`pso/Item.cpp`) -/

/-- The function `to_weapon_special`. -/
def to_weapon_special (code : Nat) : Except Exn WeaponSpecial :=
  if code > WeaponSpecial.demons.code then throw Exn.invalid_argument
  else pure ⟨code⟩

/-- The method `WeaponBase::load_grind_and_special`. -/
def WeaponBase.load_grind_and_special (self : WeaponBase) (grindaddr specaddr : Address)
    (memory : MemoryReader) : Except Exn WeaponBase := do
  let wraptekspec_datum ← memory.read_u8 specaddr
  let special ← to_weapon_special (wraptekspec_datum % 64)
  let self := { self with special := special }
  let self :=
    if wraptekspec_datum > 0xBF then { self with wrapped := true, tekked := false }
    else if wraptekspec_datum > 0x7F then { self with tekked := false }
    else if wraptekspec_datum > 0x3F then { self with wrapped := true }
    else self
  let grind ← memory.read_u8 grindaddr
  pure { self with grind := (grind : Int) }

/-- The method `WeaponBase::load_from_`. -/
def WeaponBase.load_from_ (self : WeaponBase) (addr : Address) (memory : MemoryReader) :
    Except Exn WeaponBase :=
  self.load_grind_and_special (addr_add addr 0x1F5) (addr_add addr 0x1F6) memory

/-- The method `WeaponBase::load_from_bank_`. -/
def WeaponBase.load_from_bank_ (self : WeaponBase) (addr : Address) (memory : MemoryReader) :
    Except Exn WeaponBase :=
  self.load_grind_and_special (addr_add addr 0x3) (addr_add addr 0x4) memory

/-- The constant `WeaponBase::k_stats_offset`. -/
def WeaponBase.k_stats_offset : Nat := 0x1C8

/-- A store `arr[i] = v` into a `std::array`. A store outside the array is
undefined behaviour in C++; here it leaves the array as it is. -/
def array_store (arr : List Int) (i : Int) (v : Int) : List Int :=
  if 0 ≤ i ∧ i < (arr.length : Int) then arr.set i.toNat v else arr

/-- One round of the loop of `Weapon::load_attributes`, for `idx` in 0, 2, 4. -/
def Weapon.load_attributes_round (attributes : List Nat) (self : Weapon) (idx : Nat) : Weapon :=
  if buffer_byte attributes idx ≥ 6 then self
  else
    let attr := to_int8 (buffer_byte attributes (idx + 1))
    let self := { self with
      m_attributes := array_store self.m_attributes ((buffer_byte attributes idx : Int) - 1) attr }
    if attr ≠ 0 then { self with m_attr_count := self.m_attr_count + 1 } else self

/-- The method `Weapon::load_attributes`. -/
def Weapon.load_attributes (self : Weapon) (attraddr : Address) (memory : MemoryReader) :
    Except Exn Weapon := do
  let self := { self with m_attr_count := 0 }
  let attributes ← memory.read attraddr 6
  pure ([0, 2, 4].foldl (Weapon.load_attributes_round attributes) self)

/-- The method `Weapon::load_from_`. -/
def Weapon.load_from_ (self : Weapon) (addr : Address) (memory : MemoryReader) :
    Except Exn Weapon := do
  let base ← self.toWeaponBase.load_from_ addr memory
  let self := { self with toWeaponBase := base }
  self.load_attributes (addr_add addr WeaponBase.k_stats_offset) memory

/-- The method `Weapon::load_from_bank_`. -/
def Weapon.load_from_bank_ (self : Weapon) (addr : Address) (memory : MemoryReader) :
    Except Exn Weapon := do
  let base ← self.toWeaponBase.load_from_bank_ addr memory
  let self := { self with toWeaponBase := base }
  self.load_attributes (addr_add addr 6) memory

/-- The lambda `add_char` of `parse_esrank_name`: the state is the array `rv`
and the position `itr` in it. -/
def add_char (st : List Nat × Nat) (t : Nat) : List Nat × Nat :=
  let t := t ||| ('A'.toNat - 1)
  if t ≥ 'A'.toNat ∧ t ≤ 'Z'.toNat then (st.1.set st.2 t, st.2 + 1) else st

/-- One round of the loop of `parse_esrank_name` over the word `n`; the state is
`rv`, `itr` and `first_time`. -/
def parse_esrank_name_round (st : (List Nat × Nat) × Bool) (n : Nat) : (List Nat × Nat) × Bool :=
  let n := (((n &&& 0xFF) <<< 8) ||| (n >>> 8)) % 65536
  let out := st.1
  let out := if !st.2 then add_char out ((n >>> 10) &&& 0x1F) else out
  let out := add_char out ((n >>> 5) &&& 0x1F)
  let out := add_char out (n &&& 0x1F)
  (out, false)

/-- The function `parse_esrank_name`. -/
def parse_esrank_name (host : EndiannessEnum) (addr : Address) (memory : MemoryReader) :
    Except Exn (List Nat) := do
  let buf ← memory.read addr 6
  let namedata := [object_value host 2 buf, object_value host 2 (buf.drop 2),
    object_value host 2 (buf.drop 4)]
  let rv := [0, 0, 0, 0, 0, 0, 0, 0, 0]
  pure (namedata.foldl parse_esrank_name_round ((rv, 0), true)).1.1

/-- The constant `EsWeapon::k_name_offset`. -/
def EsWeapon.k_name_offset : Nat := WeaponBase.k_stats_offset

/-- The method `EsWeapon::load_from_`. -/
def EsWeapon.load_from_ (host : EndiannessEnum) (self : EsWeapon) (addr : Address)
    (memory : MemoryReader) : Except Exn EsWeapon := do
  let base ← self.toWeaponBase.load_from_ addr memory
  let custom_name ← parse_esrank_name host (addr_add addr EsWeapon.k_name_offset) memory
  pure { self with toWeaponBase := base, custom_name := custom_name }

/-- The method `EsWeapon::load_from_bank_`. -/
def EsWeapon.load_from_bank_ (host : EndiannessEnum) (self : EsWeapon) (addr : Address)
    (memory : MemoryReader) : Except Exn EsWeapon := do
  let base ← self.toWeaponBase.load_from_bank_ addr memory
  let custom_name ← parse_esrank_name host (addr_add addr 6) memory
  pure { self with toWeaponBase := base, custom_name := custom_name }

/-- The method `DefenseItem::load_def_stats`; `fullcode` is the member of the
base class `Item`. -/
def DefenseItem.load_def_stats (host : EndiannessEnum) (env : Extern) (fullcode : Nat)
    (self : DefenseItem) (evp_addr dfp_addr : Address) (memory : MemoryReader) :
    Except Exn DefenseItem := do
  let dfp ← memory.read_u8 evp_addr
  let evp ← memory.read_u8 dfp_addr
  let nfo := get_defense_item_info host env fullcode
  pure { self with dfp := (dfp : Int), evp := (evp : Int), mins_maxes := some nfo }

/-- The method `Frame::load_from_`. -/
def Frame.load_from_ (host : EndiannessEnum) (env : Extern) (fullcode : Nat) (self : Frame)
    (addr : Address) (memory : MemoryReader) : Except Exn Frame := do
  let slot_count ← memory.read_u8 (addr_add addr 0x1B8)
  let self := { self with slot_count := (slot_count : Int) }
  let d ← self.toDefenseItem.load_def_stats host env fullcode (addr_add addr 0x1BA)
    (addr_add addr 0x1B9) memory
  pure { self with toDefenseItem := d }

/-- The method `Frame::load_from_bank_`. -/
def Frame.load_from_bank_ (host : EndiannessEnum) (env : Extern) (fullcode : Nat) (self : Frame)
    (addr : Address) (memory : MemoryReader) : Except Exn Frame := do
  let slot_count ← memory.read_u8 (addr_add addr 5)
  let self := { self with slot_count := (slot_count : Int) }
  let d ← self.toDefenseItem.load_def_stats host env fullcode (addr_add addr 8)
    (addr_add addr 6) memory
  pure { self with toDefenseItem := d }

/-- The method `Barrier::load_from_`. -/
def Barrier.load_from_ (host : EndiannessEnum) (env : Extern) (fullcode : Nat) (self : Barrier)
    (addr : Address) (memory : MemoryReader) : Except Exn Barrier := do
  let d ← self.toDefenseItem.load_def_stats host env fullcode (addr_add addr 0x1E5)
    (addr_add addr 0x1E4) memory
  pure { self with toDefenseItem := d }

/-- The method `Barrier::load_from_bank_`. -/
def Barrier.load_from_bank_ (host : EndiannessEnum) (env : Extern) (fullcode : Nat)
    (self : Barrier) (addr : Address) (memory : MemoryReader) : Except Exn Barrier := do
  let d ← self.toDefenseItem.load_def_stats host env fullcode (addr_add addr 8)
    (addr_add addr 6) memory
  pure { self with toDefenseItem := d }

/-- The constant `Tool::k_count_offset`. -/
def Tool.k_count_offset : Nat := 0x104

/-- The method `Tool::load_from_`: the exclusive or is taken on 64 bits and the
assignment to the `int` member keeps its low 32 bits. -/
def Tool.load_from_ (host : EndiannessEnum) (self : Tool) (addr : Address)
    (memory : MemoryReader) : Except Exn Tool := do
  let count ← memory.read_u32 host (addr_add addr Tool.k_count_offset)
  pure { self with quantity := to_int32 (count ^^^ addr_add addr Tool.k_count_offset) }

/-- The method `Tool::load_from_bank_`. -/
def Tool.load_from_bank_ (self : Tool) (addr : Address) (memory : MemoryReader) :
    Except Exn Tool := do
  let q ← memory.read_u8 (addr_add addr 20)
  pure { self with quantity := (q : Int) }

/-- The method `Tech::load_level_and_type`; the second component is the argument
of `set_name`. -/
def Tech.load_level_and_type (host : EndiannessEnum) (self : Tech) (memory : MemoryReader)
    (leveladdr typeaddr : Address) : Except Exn (Tech × String) := do
  let w ← memory.read_u32 host leveladdr
  let self := { self with level := to_int32 (((w >>> 16) &&& 0xFF) + 1) }
  let code ← memory.read_u8 typeaddr
  let type ← get_tech_type (code : Int)
  let self := { self with type := type }
  pure (self, type.to_string)

/-- The method `Tech::load_from_`. -/
def Tech.load_from_ (host : EndiannessEnum) (self : Tech) (addr : Address)
    (memory : MemoryReader) : Except Exn (Tech × String) :=
  self.load_level_and_type host memory (addr_add addr k_item_code_offset) (addr_add addr 0x108)

/-- The method `Tech::load_from_bank_`. -/
def Tech.load_from_bank_ (host : EndiannessEnum) (self : Tech) (addr : Address)
    (memory : MemoryReader) : Except Exn (Tech × String) :=
  self.load_level_and_type host memory addr (addr_add addr 4)

/-- The method `Meseta::set_quantity`. -/
def Meseta.set_quantity (self : Meseta) (i : Int) : Meseta := { self with quantity := i }

/-- The method `Meseta::load_from_`. -/
def Meseta.load_from_ (host : EndiannessEnum) (self : Meseta) (addr : Address)
    (memory : MemoryReader) : Except Exn Meseta := do
  let q ← memory.read_u32 host (addr_add addr 0x100)
  pure { self with quantity := to_int32 q }

/-- The method `Meseta::load_from_bank_`. -/
def Meseta.load_from_bank_ (host : EndiannessEnum) (self : Meseta) (addr : Address)
    (memory : MemoryReader) : Except Exn Meseta := do
  let q ← memory.read_u32 host (addr_add addr 12)
  pure { self with quantity := to_int32 q }

/-- The method `Mag::load_stats`: the eight bytes read are four `uint16_t` words;
the elements of `levels` and `percentages` are `uint8_t`. -/
def Mag.load_stats (host : EndiannessEnum) (self : Mag) (addr : Address)
    (memory : MemoryReader) : Except Exn Mag := do
  let buf ← memory.read addr 8
  let rawstats := [object_value host 2 buf, object_value host 2 (buf.drop 2),
    object_value host 2 (buf.drop 4), object_value host 2 (buf.drop 6)]
  pure { self with
    levels := rawstats.map (fun w => (w / 100) % 256),
    percentages := rawstats.map (fun w => (w % 100) % 256) }

/-- The method `Mag::load_from_`. -/
def Mag.load_from_ (host : EndiannessEnum) (env : Extern) (self : Mag) (addr : Address)
    (memory : MemoryReader) : Except Exn Mag := do
  let self ← self.load_stats host (addr_add addr 0x1C0) memory
  let timer ← memory.read_datum host 4 (addr_add addr 0x1B4)
  pure { self with seconds_until_feeding := env.round_div30 timer }

/-- The method `Mag::load_from_bank_`. -/
def Mag.load_from_bank_ (host : EndiannessEnum) (self : Mag) (addr : Address)
    (memory : MemoryReader) : Except Exn Mag := do
  let self ← self.load_stats host (addr_add addr 4) memory
  pure { self with in_bank := true }

/-! ## The decoding engine (`pso/ItemReader.cpp`) -/

/-- The constant `k_bank_ptr_addr`. -/
def k_bank_ptr_addr : Address := 0x00A95DE0 + 0x18

/-- The method `Item::set_fullcode_and_kills`; `k_kill_counter_offset` is 0xE8. -/
def Item.set_fullcode_and_kills (host : EndiannessEnum) (env : Extern) (self : Item)
    (fullcode : Nat) (addr : Address) (memory : MemoryReader) : Except Exn Item := do
  let nfo := get_item_info host env fullcode
  let self := { self with name := nfo.name }
  let self ←
    if nfo.has_kill_counter then do
      let kills ← memory.read_u16 host (addr_add addr 0xE8)
      pure { self with kills := (kills : Int) }
    else pure self
  pure { self with rarity := nfo.rarity, fullcode := fullcode }

/-- The virtual method `load_from_`, dispatched on the dynamic type. -/
def Item.load_from_ (host : EndiannessEnum) (env : Extern) (self : Item) (addr : Address)
    (memory : MemoryReader) : Except Exn Item :=
  match self.derived with
  | ItemClass.Weapon w => do
    let w ← w.load_from_ addr memory
    pure { self with derived := ItemClass.Weapon w }
  | ItemClass.EsWeapon w => do
    let w ← w.load_from_ host addr memory
    pure { self with derived := ItemClass.EsWeapon w }
  | ItemClass.Frame f => do
    let f ← f.load_from_ host env self.fullcode addr memory
    pure { self with derived := ItemClass.Frame f }
  | ItemClass.Barrier b => do
    let b ← b.load_from_ host env self.fullcode addr memory
    pure { self with derived := ItemClass.Barrier b }
  | ItemClass.Unit => pure self
  | ItemClass.Mag m => do
    let m ← m.load_from_ host env addr memory
    pure { self with derived := ItemClass.Mag m }
  | ItemClass.Tool t => do
    let t ← t.load_from_ host addr memory
    pure { self with derived := ItemClass.Tool t }
  | ItemClass.Tech t => do
    let r ← t.load_from_ host addr memory
    pure { self with derived := ItemClass.Tech r.1, name := r.2 }
  | ItemClass.Meseta m => do
    let m ← m.load_from_ host addr memory
    pure { self with derived := ItemClass.Meseta m }
  | ItemClass.TotallyUnknownItem => pure self

/-- The virtual method `load_from_bank_`, dispatched on the dynamic type. -/
def Item.load_from_bank_ (host : EndiannessEnum) (env : Extern) (self : Item) (addr : Address)
    (memory : MemoryReader) : Except Exn Item :=
  match self.derived with
  | ItemClass.Weapon w => do
    let w ← w.load_from_bank_ addr memory
    pure { self with derived := ItemClass.Weapon w }
  | ItemClass.EsWeapon w => do
    let w ← w.load_from_bank_ host addr memory
    pure { self with derived := ItemClass.EsWeapon w }
  | ItemClass.Frame f => do
    let f ← f.load_from_bank_ host env self.fullcode addr memory
    pure { self with derived := ItemClass.Frame f }
  | ItemClass.Barrier b => do
    let b ← b.load_from_bank_ host env self.fullcode addr memory
    pure { self with derived := ItemClass.Barrier b }
  | ItemClass.Unit => pure self
  | ItemClass.Mag m => do
    let m ← m.load_from_bank_ host addr memory
    pure { self with derived := ItemClass.Mag m }
  | ItemClass.Tool t => do
    let t ← t.load_from_bank_ addr memory
    pure { self with derived := ItemClass.Tool t }
  | ItemClass.Tech t => do
    let r ← t.load_from_bank_ host addr memory
    pure { self with derived := ItemClass.Tech r.1, name := r.2 }
  | ItemClass.Meseta m => do
    let m ← m.load_from_bank_ host addr memory
    pure { self with derived := ItemClass.Meseta m }
  | ItemClass.TotallyUnknownItem => pure self

/-- The method `Item::load_from`. -/
def Item.load_from (host : EndiannessEnum) (env : Extern) (self : Item) (addr : Address)
    (memory : MemoryReader) : Except Exn Item := do
  let w ← memory.read_u32 host (addr_add addr k_item_code_offset)
  let fullcode := w &&& 0xFFFFFF
  let self ← self.set_fullcode_and_kills host env fullcode addr memory
  self.load_from_ host env addr memory

/-- The method `Item::load_from_bank`. -/
def Item.load_from_bank (host : EndiannessEnum) (env : Extern) (self : Item) (addr : Address)
    (memory : MemoryReader) : Except Exn Item := do
  let w ← memory.read_u32 host addr
  let self ← self.set_fullcode_and_kills host env (w &&& 0xFFFFFF) addr memory
  self.load_from_bank_ host env addr memory

/-- The function `make_item`: a default-constructed object of the class chosen. -/
def make_item (host : EndiannessEnum) (memory : MemoryReader) (addr : Address) :
    Except Exn Item := do
  let w ← memory.read_u32 host addr
  let fullcode := w &&& 0xFFFFFF
  let low := fullcode &&& 0xFF
  let high := (fullcode >>> 8) &&& 0xFF
  match low with
  | 0 =>
    if is_esrank fullcode then pure { derived := ItemClass.EsWeapon {} }
    else pure { derived := ItemClass.Weapon {} }
  | 1 =>
    match high with
    | 1 => pure { derived := ItemClass.Frame {} }
    | 2 => pure { derived := ItemClass.Barrier {} }
    | 3 => pure { derived := ItemClass.Unit }
    | _ => pure { derived := ItemClass.TotallyUnknownItem }
  | 2 => pure { derived := ItemClass.Mag {} }
  | 3 =>
    if high = 2 then pure { derived := ItemClass.Tech {} }
    else pure { derived := ItemClass.Tool {} }
  | 4 => pure { derived := ItemClass.Meseta {} }
  | _ => pure { derived := ItemClass.TotallyUnknownItem }

/-- The type `LoadItemFunc`: a pointer to `Item::load_from` or `Item::load_from_bank`. -/
abbrev LoadItemFunc := Item → Address → MemoryReader → Except Exn Item

/-- The body of the loop of `load_gen`: the item that is pushed for `addr` and
then loaded. -/
def load_gen_body (loadf : LoadItemFunc) (host : EndiannessEnum) (memory : MemoryReader)
    (fullcode_offset : Address) (addr : Address) : Except Exn Item := do
  let item ← make_item host memory (addr_add addr fullcode_offset)
  loadf item addr memory

/-- The loop of `load_gen` over the addresses not yet visited; `rv` is the list
built so far. -/
def load_gen_loop (loadf : LoadItemFunc) (host : EndiannessEnum) (memory : MemoryReader)
    (fullcode_offset : Address) : AddressList → ItemList → Except Exn ItemList
  | [], rv => pure rv
  | addr :: rest, rv => do
    let item ← load_gen_body loadf host memory fullcode_offset addr
    load_gen_loop loadf host memory fullcode_offset rest (rv ++ [item])

/-- The template `load_gen<loadf>`. -/
def load_gen (loadf : LoadItemFunc) (host : EndiannessEnum) (memory : MemoryReader)
    (addresses : AddressList) (fullcode_offset : Address) : Except Exn ItemList :=
  load_gen_loop loadf host memory fullcode_offset addresses []

/-- The function `load_bank_ptr`; the arithmetic is on `uint32_t`. -/
def load_bank_ptr (host : EndiannessEnum) (memory : MemoryReader) : Except Exn Nat := do
  let w ← memory.read_u32 host k_bank_ptr_addr
  let bank_ptr := w &&& 0x7FFFFFFF
  if bank_ptr = 0 then pure 0
  else pure ((bank_ptr + 0x021C) % 4294967296)

/-- The function `load_bank`. -/
def load_bank (host : EndiannessEnum) (env : Extern) (memory : MemoryReader)
    (addresses : AddressList) : Except Exn ItemList := do
  let rv ← load_gen (fun item => item.load_from_bank host env) host memory addresses 0
  let bank_ptr ← load_bank_ptr host memory
  if bank_ptr ≠ 0 then do
    let q ← memory.read_i32 host ((bank_ptr + 4) % 4294967296)
    pure (rv ++ [{ derived := ItemClass.Meseta (Meseta.set_quantity {} q) }])
  else pure rv

/-- The function `load_inventory`. -/
def load_inventory (host : EndiannessEnum) (env : Extern) (memory : MemoryReader)
    (addresses : AddressList) : Except Exn ItemList :=
  load_gen (fun item => item.load_from host env) host memory addresses k_item_code_offset

/-- The function `load_floor`. -/
def load_floor (host : EndiannessEnum) (env : Extern) (memory : MemoryReader)
    (addresses : AddressList) : Except Exn ItemList :=
  load_gen (fun item => item.load_from host env) host memory addresses k_item_code_offset

/-! ## Address refresh (`pso/ItemReader.cpp`)

The functions take the address list by reference and may throw; each yields the
list as it leaves it and the exception it throws, if any. -/

/-- The constant `k_item_ptr_to_array`. -/
def k_item_ptr_to_array : Address := 0x00A8D81C

/-- The constant `k_item_array_size`. -/
def k_item_array_size : Address := 0x00A8D820

/-- The constant `k_player_index`. -/
def k_player_index : Address := 0x00A9C4F4

/-- The constant `k_item_owner_offset`. -/
def k_item_owner_offset : Address := 0xE4

/-- The constant `k_no_owner`. -/
def k_no_owner : Int := -1

/-- The method `clear` of `std::vector`. -/
def clear (_addresses : AddressList) : AddressList := []

/-- The function `clean`: `std::remove` of `k_no_address` followed by `erase`. -/
def clean (addresses : AddressList) : AddressList :=
  addresses.filter (fun addr => addr ≠ k_no_address)

/-- Element `i` of the array `rawptrs` of `uint32_t` that the buffer `buf` fills. -/
def rawptrs_at (host : EndiannessEnum) (buf : List Nat) (i : Nat) : Nat :=
  object_value host 4 (buf.drop (4 * i))

/-- The loop `while (item_count) addresses.push_back(Address(rawptrs[--item_count]))`. -/
def push_rawptrs (rawptrs : Nat → Nat) : Nat → AddressList → AddressList
  | 0, addresses => addresses
  | item_count + 1, addresses => push_rawptrs rawptrs item_count (addresses ++ [rawptrs item_count])

/-- The loop of `update_item_list_for_owner` that overwrites with `k_no_address`
every address whose owner is not `owner_id`; `visited` holds the elements already
passed, `rest` those still to come. -/
def owner_loop (memory : MemoryReader) (owner_id : Int) :
    AddressList → AddressList → AddressList × Option Exn
  | visited, [] => (visited, Option.none)
  | visited, addr :: rest =>
    match memory.read_i8 (addr_add addr k_item_owner_offset) with
    | Except.error e => (visited ++ addr :: rest, some e)
    | Except.ok item_owner_id =>
      owner_loop memory owner_id
        (visited ++ [if item_owner_id ≠ owner_id then k_no_address else addr]) rest

/-- The function `update_item_list_for_owner`. -/
def update_item_list_for_owner (host : EndiannessEnum) (memory : MemoryReader)
    (addresses : AddressList) (owner_id : Int) : AddressList × Option Exn :=
  let addresses := clear addresses
  match memory.read_u8 k_item_array_size with
  | Except.error e => (addresses, some e)
  | Except.ok item_count =>
    if item_count = 0 then (addresses, Option.none)
    else
      match memory.read_u32 host k_item_ptr_to_array with
      | Except.error e => (addresses, some e)
      | Except.ok item_array =>
        match memory.read item_array (item_count * 4) with
        | Except.error e => (addresses, some e)
        | Except.ok buf =>
          let addresses := push_rawptrs (rawptrs_at host buf) item_count addresses
          match owner_loop memory owner_id [] addresses with
          | (addresses, some e) => (addresses, some e)
          | (addresses, Option.none) => (clean addresses, Option.none)

/-- The loop `for (int i = 0; i != count; ++i)` of `update_bank_pointers`, with
`remaining` rounds to go; `bank_ptr` is a `uint32_t` and so is each address pushed. -/
def bank_push_loop (bank_ptr : Nat) : Nat → Nat → AddressList → AddressList
  | 0, _, addresses => addresses
  | remaining + 1, i, addresses =>
    bank_push_loop bank_ptr remaining (i + 1)
      (addresses ++ [(bank_ptr + 8 + 24 * i) % 4294967296])

/-- The function `update_bank_pointers`. -/
def update_bank_pointers (host : EndiannessEnum) (memory : MemoryReader)
    (addresses : AddressList) : AddressList × Option Exn :=
  match load_bank_ptr host memory with
  | Except.error e => (addresses, some e)
  | Except.ok bank_ptr =>
    if bank_ptr = 0 then (addresses, Option.none)
    else
      let addresses := clear addresses
      match memory.read_u8 bank_ptr with
      | Except.error e => (addresses, some e)
      | Except.ok count => (clean (bank_push_loop bank_ptr count 0 addresses), Option.none)

/-- The function `update_inventory_pointers`; the `uint32_t` read becomes the
`int` argument `owner_id`. -/
def update_inventory_pointers (host : EndiannessEnum) (memory : MemoryReader)
    (addresses : AddressList) : AddressList × Option Exn :=
  match memory.read_u32 host k_player_index with
  | Except.error e => (addresses, some e)
  | Except.ok player_index =>
    update_item_list_for_owner host memory addresses (to_int32 player_index)

/-- The function `update_floor_pointers`. -/
def update_floor_pointers (host : EndiannessEnum) (memory : MemoryReader)
    (addresses : AddressList) : AddressList × Option Exn :=
  update_item_list_for_owner host memory addresses k_no_owner

/-! ## Reader backends (`MemoryReader.cpp`, `Defs.cpp`)

The three classes derived from `MemoryReader`. -/

/-- The method `SimpleBlockReader::read`, which ignores the address. -/
def SimpleBlockReader.read (m_block : List Nat) (m_size : Nat) (_addr : Address) (bsize : Nat) :
    Except Exn (List Nat) :=
  if bsize > m_size then throw Exn.runtime_error
  else pure (m_block.take bsize)

/-- The method `BuiltinMemoryReader::read`. The argument `data` is the vector
`get_builtin_data()`, whose last 4096 bytes are drawn at random when the vector
is built. The conversion `int(addr)` keeps the low 32 bits; `addr -= m_offset`
and `addr + bytes_in_buf` are computed in 64 bits without sign. The bytes copied
are those from index `addr` on. -/
def BuiltinMemoryReader.read (m_offset : Int) (data : List Nat) (addr : Address)
    (bytes_in_buf : Nat) : Except Exn (List Nat) :=
  let is_under : Bool := decide (to_int32 addr < m_offset)
  let addr : Nat := (((addr : Int) - m_offset) % 18446744073709551616).toNat
  if is_under ∨ (addr + bytes_in_buf) % 18446744073709551616 > data.length then
    throw Exn.runtime_error
  else pure ((data.drop addr).take bytes_in_buf)

/-- The outcome of one call of `process_vm_readv`: the value returned (the number
of bytes transferred, or -1), the value of `errno` after the call and the
content of the local buffer after the call. -/
structure VmReadResult where
  ret : Int
  errno : Int
  buffer : List Nat
  deriving DecidableEq, Repr

/-- The error number `EPERM` of `errno.h` on Linux. -/
def EPERM : Int := 1

/-- The error number `ESRCH` of `errno.h` on Linux. -/
def ESRCH : Int := 3

/-- The error number `ENOMEM` of `errno.h` on Linux. -/
def ENOMEM : Int := 12

/-- The error number `EFAULT` of `errno.h` on Linux. -/
def EFAULT : Int := 14

/-- The error number `EINVAL` of `errno.h` on Linux. -/
def EINVAL : Int := 22

/-- The function `read_memory_to`. The system call `process_vm_readv` is the
argument `process_vm_readv`, from the process id, the remote address and the
length to the outcome of the call; the conversion `std::size_t(...)` of the
value returned is modulo `2 ^ 64`. The result is the content of `buffer` when
the function returns. -/
def read_memory_to (process_vm_readv : Int → Address → Nat → VmReadResult) (pid : Int)
    (targets_addr : Address) (buffer_len : Nat) : Except Exn (List Nat) :=
  let r := process_vm_readv pid targets_addr buffer_len
  if (r.ret % 18446744073709551616).toNat ≠ buffer_len then
    if r.errno = EINVAL then throw Exn.runtime_error
    else if r.errno = EFAULT then throw Exn.runtime_error
    else if r.errno = ENOMEM then throw Exn.runtime_error
    else if r.errno = EPERM then throw Exn.PermissionError
    else if r.errno = ESRCH then throw Exn.runtime_error
    else pure r.buffer
  else pure r.buffer

/-- The method `ProcessMemoryReader::read`. -/
def ProcessMemoryReader.read (process_vm_readv : Int → Address → Nat → VmReadResult)
    (m_pid : Int) (addr : Address) (bytes_in_buf : Nat) : Except Exn (List Nat) :=
  read_memory_to process_vm_readv m_pid addr bytes_in_buf

/-! ## Order of the items (`pso/ItemReader.hpp`) -/

/-- The method `Item::order_compare_to`. The difference of the two `int` values
is taken in 32-bit two's complement; where it does not fit, which C++ leaves
undefined, this is the value the wrapped subtraction gives. -/
def Item.order_compare_to (host : EndiannessEnum) (self rhs : Item) : Int :=
  let fc := process_endian_u32 host self.fullcode k_big_endian
  let ofc := process_endian_u32 host rhs.fullcode k_big_endian
  to_int32 (((to_int32 fc - to_int32 ofc) % 4294967296).toNat)

/-- The operator `Item::operator <`. -/
def Item.lt (host : EndiannessEnum) (self rhs : Item) : Bool :=
  decide (self.order_compare_to host rhs < 0)

/-! ## The view states (`AppStateDefs.hpp`, `pso/ItemReaderBaseState.cpp`) -/

/-- The classes of application state that `switch_state` can select. -/
inductive AppStateClass
  | PsobbProcessWatcher
  | InventoryViewState
  | FloorViewState
  | BankViewState
  deriving DecidableEq, Repr

/-- The data members of `ItemReaderBaseState`, with `m_new_state` of its base
class `AppState` and `m_header_string` of its derived classes. The reader
`m_reader` points to is an argument of the methods; `m_delay` is a `double` and
is not embedded. -/
structure ItemReaderBaseState where
  m_item_strings : List String := []
  m_pointers : AddressList := []
  m_old_pointers : AddressList := []
  m_items : ItemList := []
  m_line_offset : Int := 0
  m_delay_counter : Int := 0
  m_page_step : Int := 0
  m_header_string : String := ""
  m_new_state : Option AppStateClass := Option.none
  deriving DecidableEq, Repr

/-- The pure virtual methods `load_items` and `load_addresses` of a view.
`load_items` yields the items and the header line it sets; `load_addresses`
yields the address list as it leaves it and the exception it throws, if any. -/
structure ViewMethods where
  load_items : MemoryReader → AddressList → Except Exn (ItemList × String)
  load_addresses : MemoryReader → AddressList → AddressList × Option Exn

/-- The algorithm `std::equal` on two ranges given by four iterators. -/
def std_equal : List Address → List Address → Bool
  | [], [] => true
  | a :: as, b :: bs => if a = b then std_equal as bs else false
  | _, _ => false

/-- The method `AppState::switch_state<T>`, for a state that has its state map. -/
def ItemReaderBaseState.switch_state (self : ItemReaderBaseState) (T : AppStateClass) :
    ItemReaderBaseState :=
  { self with m_new_state := some T }

/-- The method `ItemReaderBaseState::update_item_strings`. The text of the items,
printed by `print_to` and split into lines by `for_split`, is the argument
`print_lines`. -/
def ItemReaderBaseState.update_item_strings (print_lines : ItemList → List String)
    (self : ItemReaderBaseState) : ItemReaderBaseState :=
  let self := { self with m_item_strings := print_lines self.m_items }
  { self with m_line_offset := min (self.m_item_strings.length : Int) self.m_line_offset }

/-- The first statement of `ItemReaderBaseState::handle_tick`, which advances the
highlight counter and prints the items again when the delay has elapsed. -/
def ItemReaderBaseState.tick_delay (print_lines : ItemList → List String)
    (delay_elapsed : Bool) (self : ItemReaderBaseState) : ItemReaderBaseState :=
  if delay_elapsed then
    ItemReaderBaseState.update_item_strings print_lines
      { self with m_delay_counter := (self.m_delay_counter + 1) % 8 }
  else self

/-- The method `ItemReaderBaseState::handle_tick`. The argument `delay_elapsed`
is the outcome of the comparison `(m_delay += et) >= k_max_delay` on doubles. -/
def ItemReaderBaseState.handle_tick (print_lines : ItemList → List String) (V : ViewMethods)
    (memory : MemoryReader) (delay_elapsed : Bool) (self : ItemReaderBaseState) :
    ItemReaderBaseState :=
  let self := ItemReaderBaseState.tick_delay print_lines delay_elapsed self
  let self := { self with m_pointers := [] }
  match V.load_addresses memory self.m_pointers with
  | (pointers, some _) =>
    ItemReaderBaseState.switch_state { self with m_pointers := pointers }
      AppStateClass.PsobbProcessWatcher
  | (pointers, Option.none) =>
    let self := { self with m_pointers := pointers }
    if !std_equal self.m_pointers self.m_old_pointers then
      match V.load_items memory self.m_pointers with
      | Except.error _ => ItemReaderBaseState.switch_state self AppStateClass.PsobbProcessWatcher
      | Except.ok (items, header) =>
        let self := { self with m_items := items, m_header_string := header }
        let self := ItemReaderBaseState.update_item_strings print_lines self
        { self with m_old_pointers := self.m_pointers }
    else self

/-! ## The three views (`pso/ItemReaderStates.hpp`, `pso/ItemReaderStates.cpp`) -/

/-- The classes of the type list `ReaderStates`. -/
inductive ReaderStateClass
  | InventoryViewState
  | FloorViewState
  | BankViewState
  deriving DecidableEq, Repr

/-- A class of `ReaderStates` as a class of application state. -/
def ReaderStateClass.toAppStateClass : ReaderStateClass → AppStateClass
  | ReaderStateClass.InventoryViewState => AppStateClass.InventoryViewState
  | ReaderStateClass.FloorViewState => AppStateClass.FloorViewState
  | ReaderStateClass.BankViewState => AppStateClass.BankViewState

/-- The function `ItemReaderBaseState::lhs_code_lt_rhs`. -/
def lhs_code_lt_rhs (host : EndiannessEnum) (lhs rhs : Item) : Bool :=
  lhs.lt host rhs

/-- One insertion of the sort: `x` is put before the first element that `comp`
does not put before it. -/
def sorted_insert {α : Type} (comp : α → α → Bool) (x : α) : List α → List α
  | [] => [x]
  | y :: ys => if comp y x then y :: sorted_insert comp x ys else x :: y :: ys

/-- The algorithm `std::sort` with a comparison function. The C++ standard fixes
its result up to the order of the elements that `comp` does not tell apart; this
is the result of sorting by insertion. -/
def std_sort {α : Type} (comp : α → α → Bool) : List α → List α
  | [] => []
  | x :: xs => sorted_insert comp x (std_sort comp xs)

/-- The function `ItemReaderBaseState::setup_header_line`; the result is the
string it assigns to `header_line`. -/
def setup_header_line (firstpart : String) (quantity : Int) (padding : Int)
    (lastpart : String) : Except Exn String :=
  let sizestr := toString quantity
  if (sizestr.length : Int) > padding then throw Exn.invalid_argument
  else
    let pad := (padding - (sizestr.length : Int)).toNat
    pure (firstpart ++ String.mk (List.replicate pad ' ') ++ sizestr ++ lastpart)

/-- The method `InventoryViewState::load_items`, with the value it gives to
`m_header_string`. The size of the vector becomes an `int`. -/
def InventoryViewState.load_items (host : EndiannessEnum) (env : Extern)
    (memory : MemoryReader) (addresses : AddressList) : Except Exn (ItemList × String) := do
  let rv ← load_inventory host env memory addresses
  let rv := std_sort (lhs_code_lt_rhs host) rv
  let m_header_string ← setup_header_line "--- Inventory " (to_int32 rv.length) 2 " / 30 ---"
  pure (rv, m_header_string)

/-- The method `BankViewState::load_items`. The subtraction `rv.size() - 1` is on
`std::size_t` and its result becomes an `int`. -/
def BankViewState.load_items (host : EndiannessEnum) (env : Extern)
    (memory : MemoryReader) (addresses : AddressList) : Except Exn (ItemList × String) := do
  let rv ← load_bank host env memory addresses
  let rv := std_sort (lhs_code_lt_rhs host) rv
  let m_header_string ← setup_header_line "--- Bank "
    (to_int32 ((rv.length + 18446744073709551615) % 18446744073709551616)) 3 " / 200 ---"
  pure (rv, m_header_string)

/-- The method `FloorViewState::load_items`. -/
def FloorViewState.load_items (host : EndiannessEnum) (env : Extern)
    (memory : MemoryReader) (addresses : AddressList) : Except Exn (ItemList × String) := do
  let rv ← load_floor host env memory addresses
  let rv := rv.reverse
  let m_header_string ← setup_header_line "--- Floor " (to_int32 rv.length) 3
    (if rv.length = 1 then " item ---" else " items ---")
  pure (rv, m_header_string)

/-- The method `FloorViewState::load_addresses`. -/
def FloorViewState.load_addresses (host : EndiannessEnum) (memory : MemoryReader)
    (addresses : AddressList) : AddressList × Option Exn :=
  match update_floor_pointers host memory addresses with
  | (addresses, some e) => (addresses, some e)
  | (addresses, Option.none) => (addresses.reverse, Option.none)

/-- The virtual methods `load_items` and `load_addresses` of the three views. -/
def view_methods (host : EndiannessEnum) (env : Extern) : ReaderStateClass → ViewMethods
  | ReaderStateClass.InventoryViewState =>
    { load_items := InventoryViewState.load_items host env
      load_addresses := update_inventory_pointers host }
  | ReaderStateClass.FloorViewState =>
    { load_items := FloorViewState.load_items host env
      load_addresses := FloorViewState.load_addresses host }
  | ReaderStateClass.BankViewState =>
    { load_items := BankViewState.load_items host env
      load_addresses := update_bank_pointers host }

/-- The method `ItemReaderBaseState::update_item_list`; `m_reader` is the reader
the member points to, if any. The result is the state as the method leaves it
and the exception that leaves the method, which can only be `PermissionError`. -/
def ItemReaderBaseState.update_item_list (print_lines : ItemList → List String)
    (V : ViewMethods) (m_reader : Option MemoryReader) (self : ItemReaderBaseState) :
    ItemReaderBaseState × Option Exn :=
  match m_reader with
  | Option.none => (self, Option.none)
  | some memory =>
    let self := { self with m_old_pointers := self.m_pointers }
    let self := { self with m_pointers := [] }
    match V.load_addresses memory self.m_pointers with
    | (pointers, some e) =>
      let self := { self with m_pointers := pointers }
      if e = Exn.PermissionError then (self, some e)
      else (ItemReaderBaseState.switch_state self AppStateClass.PsobbProcessWatcher, Option.none)
    | (pointers, Option.none) =>
      let self := { self with m_pointers := pointers }
      match V.load_items memory self.m_pointers with
      | Except.error e =>
        if e = Exn.PermissionError then (self, some e)
        else (ItemReaderBaseState.switch_state self AppStateClass.PsobbProcessWatcher, Option.none)
      | Except.ok (items, header) =>
        let self := { self with m_items := items, m_header_string := header }
        (ItemReaderBaseState.update_item_strings print_lines self, Option.none)

/-- The method `SecondlyUpdatingItemReader::handle_tick`. The argument
`update_elapsed` is the outcome of `(m_delay += et) > k_update_inv_delay` on the
`m_delay` of this class. -/
def SecondlyUpdatingItemReader.handle_tick (print_lines : ItemList → List String)
    (V : ViewMethods) (memory : MemoryReader) (delay_elapsed update_elapsed : Bool)
    (self : ItemReaderBaseState) : ItemReaderBaseState × Option Exn :=
  let self := ItemReaderBaseState.handle_tick print_lines V memory delay_elapsed self
  if update_elapsed then
    ItemReaderBaseState.update_item_list print_lines V (some memory) self
  else (self, Option.none)

/-! ## Events and the quit signal (`Defs.hpp`, `AppStateDefs.hpp`) -/

/-- The enumeration `SpecialKey`; `end_` stands for its enumerator `end`. -/
inductive SpecialKey
  | up | down | left | right | escape | backspace | enter | delete_
  | home | end_ | page_up | page_down
  | no_special_key
  deriving DecidableEq, Repr

/-- The structure `TextEvent`. -/
structure TextEvent where
  code : Char
  deriving DecidableEq, Repr

/-- The type `Event`, a `MultiType<TextEvent, SpecialKey>`: it holds a value of
one of the two types or none. -/
inductive Event
  | empty
  | text (e : TextEvent)
  | special (k : SpecialKey)
  deriving DecidableEq, Repr

/-- What a method of a state can throw: `QuitAppException`, an exception of the
decoding engine, or the string literal of `change_state_to_id`. -/
inductive Thrown
  | QuitAppException
  | exn (e : Exn)
  | impossible_branch
  deriving DecidableEq, Repr

/-- The size that a `GridSize` reports. -/
structure GridSize where
  width : Int
  height : Int
  deriving DecidableEq, Repr

/-- The enumeration `AppState::UpdateStyle`. -/
inductive UpdateStyle
  | k_continuous_updates
  | k_until_next_event
  deriving DecidableEq, Repr

/-! ## The state objects and their surroundings -/

/-- A reader that a view can hold through `m_reader`: the class of the object and
its data members. -/
inductive ReaderSource
  | ProcessMemoryReader (m_pid : Int)
  | BuiltinMemoryReader (m_offset : Int)
  | SimpleBlockReader (m_block : List Nat) (m_size : Nat)
  deriving DecidableEq, Repr

/-- What the state machine takes from outside the sources embedded here: the
host, the item table, the printed form of the items, the numbers
`ReaderStates::GetTypeId<T>::k_value` of the class template `TypeList`, the
function `string_to_number_multibase` (both of the common library), the function
`render_wrapped_lines_to`, which lays out text, the system call behind the
process reader and the content of the builtin data. -/
structure Surroundings where
  host : EndiannessEnum
  env : Extern
  print_lines : ItemList → List String
  GetTypeId : ReaderStateClass → Nat
  string_to_number_multibase : String → Option Int
  render_wrapped_lines_to : List String → Int → Int → List String
  process_vm_readv : Int → Address → Nat → VmReadResult
  builtin_data : List Nat

/-- The virtual method `read` of the reader an object of `ReaderSource` stands for. -/
def ReaderSource.reader (S : Surroundings) : ReaderSource → MemoryReader
  | ReaderSource.ProcessMemoryReader m_pid =>
    ⟨ProcessMemoryReader.read S.process_vm_readv m_pid⟩
  | ReaderSource.BuiltinMemoryReader m_offset =>
    ⟨BuiltinMemoryReader.read m_offset S.builtin_data⟩
  | ReaderSource.SimpleBlockReader m_block m_size =>
    ⟨SimpleBlockReader.read m_block m_size⟩

/-- An object of one of the three view classes: the members of
`ItemReaderBaseState` with `m_reader`, null at first. -/
structure ReaderView extends ItemReaderBaseState where
  m_reader : Option ReaderSource := Option.none
  deriving DecidableEq, Repr

/-- The data members of `PsobbProcessWatcher`, with `m_new_state` of its base
class `AppState`. -/
structure PsobbProcessWatcher where
  m_has_permission : Bool := true
  m_max_width : Int := 0
  m_max_height : Int := 0
  m_error_lines : List String := []
  m_new_state : Option AppStateClass := Option.none
  deriving DecidableEq, Repr

/-- The state map: one object of each class. The map of the sources receives the
object of a class when `switch_state` first selects the class, default
constructed; here that object is in the map from the start. -/
structure AppStateMap where
  watcher : PsobbProcessWatcher := {}
  inventory : ReaderView := {}
  floor : ReaderView := {}
  bank : ReaderView := {}
  deriving DecidableEq, Repr

/-- The object of a view class in the state map. -/
def AppStateMap.view (statemap : AppStateMap) : ReaderStateClass → ReaderView
  | ReaderStateClass.InventoryViewState => statemap.inventory
  | ReaderStateClass.FloorViewState => statemap.floor
  | ReaderStateClass.BankViewState => statemap.bank

/-- The state map after an assignment to the object of a view class. -/
def AppStateMap.set_view (statemap : AppStateMap) (c : ReaderStateClass) (v : ReaderView) :
    AppStateMap :=
  match c with
  | ReaderStateClass.InventoryViewState => { statemap with inventory := v }
  | ReaderStateClass.FloorViewState => { statemap with floor := v }
  | ReaderStateClass.BankViewState => { statemap with bank := v }

/-! ## The views as states (`pso/ItemReaderBaseState.hpp`, `pso/ItemReaderBaseState.cpp`) -/

/-- The method `update_item_list` on an object of the view class `c`. -/
def ReaderView.update_item_list (S : Surroundings) (c : ReaderStateClass) (self : ReaderView) :
    ReaderView × Option Exn :=
  match ItemReaderBaseState.update_item_list S.print_lines (view_methods S.host S.env c)
      (self.m_reader.map (ReaderSource.reader S)) self.toItemReaderBaseState with
  | (base, e) => ({ self with toItemReaderBaseState := base }, e)

/-- The method `ItemReaderBaseState::setup` on an object of the view class `c`. -/
def ReaderView.setup (S : Surroundings) (c : ReaderStateClass) (source : Option ReaderSource)
    (self : ReaderView) : ReaderView × Option Exn :=
  let self := { self with m_reader := source }
  ReaderView.update_item_list S c self

/-- The virtual method `handle_tick` on an object of the view class `c`:
`SecondlyUpdatingItemReader::handle_tick` for the classes derived from it and
`ItemReaderBaseState::handle_tick` for `FloorViewState`. Both dereference
`m_reader`; there is no result when it is null. -/
def ReaderView.handle_tick (S : Surroundings) (c : ReaderStateClass)
    (delay_elapsed update_elapsed : Bool) (self : ReaderView) :
    Option (ReaderView × Option Exn) :=
  match self.m_reader with
  | Option.none => Option.none
  | some source =>
    let memory := source.reader S
    let V := view_methods S.host S.env c
    match c with
    | ReaderStateClass.FloorViewState =>
      let base := ItemReaderBaseState.handle_tick S.print_lines V memory delay_elapsed
        self.toItemReaderBaseState
      some ({ self with toItemReaderBaseState := base }, Option.none)
    | _ =>
      match SecondlyUpdatingItemReader.handle_tick S.print_lines V memory delay_elapsed
          update_elapsed self.toItemReaderBaseState with
      | (base, e) => some ({ self with toItemReaderBaseState := base }, e)

/-- The lambda `scroll` of `ItemReaderBaseState::handle_event`. -/
def ItemReaderBaseState.scroll (self : ItemReaderBaseState) (step : Int) :
    ItemReaderBaseState :=
  let self := { self with m_line_offset := self.m_line_offset + step }
  if self.m_line_offset < 0 then { self with m_line_offset := 0 }
  else if self.m_line_offset ≥ (self.m_item_strings.length : Int) then
    { self with m_line_offset := (self.m_item_strings.length : Int) - 1 }
  else self

/-- The type list `ReaderStates`. -/
def ReaderStates : List ReaderStateClass :=
  [ReaderStateClass.InventoryViewState, ReaderStateClass.FloorViewState,
   ReaderStateClass.BankViewState]

/-- The method `change_state_to_id(int, TypeList<Types...>)`: the class it hands
to `switch_state`. The list `HeadType :: InheritedList` stands for
`TypeList<Types...>` and its length for `k_count`. -/
def change_state_to_id_in (id : Int) : List ReaderStateClass → Except Thrown ReaderStateClass
  | [] => throw Thrown.impossible_branch
  | HeadType :: InheritedList =>
    if id < 0 ∨ id ≥ (ReaderStates.length : Int) then throw (Thrown.exn Exn.invalid_argument)
    else if id = ((HeadType :: InheritedList).length : Int) - 1 then pure HeadType
    else change_state_to_id_in id InheritedList

/-- The method `change_state_to_id(int)`, which wraps the number first. -/
def change_state_to_id (id : Int) : Except Thrown ReaderStateClass :=
  let id :=
    if id < 0 then (ReaderStates.length : Int) - 1
    else if id ≥ (ReaderStates.length : Int) then 0
    else id
  change_state_to_id_in id ReaderStates

/-- The statement `change_state_to_id(id).setup(m_reader)` of `handle_event`, run
by the object of class `c`: the class selected becomes the new state of this
object, and the object of that class in the state map is set up with the reader
of this object. -/
def change_state_and_setup (S : Surroundings) (c : ReaderStateClass) (id : Int)
    (statemap : AppStateMap) : AppStateMap × Option Thrown :=
  match change_state_to_id id with
  | Except.error t => (statemap, some t)
  | Except.ok selected =>
    let self := statemap.view c
    let m_reader := self.m_reader
    let base := ItemReaderBaseState.switch_state self.toItemReaderBaseState
      selected.toAppStateClass
    let statemap := statemap.set_view c { self with toItemReaderBaseState := base }
    match ReaderView.setup S selected m_reader (statemap.view selected) with
    | (target, e) => (statemap.set_view selected target, e.map Thrown.exn)

/-- The method `ItemReaderBaseState::handle_event`, run by the object of class
`c`. The method `this_state_id` yields `GetTypeId<T>::k_value` as a
`std::size_t`; the sum or difference becomes the `int` argument. -/
def ReaderView.handle_event (S : Surroundings) (c : ReaderStateClass) (event : Event)
    (statemap : AppStateMap) : AppStateMap × Option Thrown :=
  let self := statemap.view c
  let scroll := fun (step : Int) =>
    statemap.set_view c
      { self with toItemReaderBaseState := self.toItemReaderBaseState.scroll step }
  match event with
  | Event.special sp =>
    match sp with
    | SpecialKey.escape => (statemap, some Thrown.QuitAppException)
    | SpecialKey.up => (scroll (-1), Option.none)
    | SpecialKey.down => (scroll 1, Option.none)
    | SpecialKey.page_up => (scroll (-self.m_page_step), Option.none)
    | SpecialKey.page_down => (scroll self.m_page_step, Option.none)
    | SpecialKey.left =>
      change_state_and_setup S c
        (to_int32 ((S.GetTypeId c + 18446744073709551615) % 18446744073709551616)) statemap
    | SpecialKey.right =>
      change_state_and_setup S c
        (to_int32 ((S.GetTypeId c + 1) % 18446744073709551616)) statemap
    | _ => (statemap, Option.none)
  | _ => (statemap, Option.none)

/-- The method `ItemReaderBaseState::handle_resize`. -/
def ItemReaderBaseState.handle_resize (gsize : GridSize) (self : ItemReaderBaseState) :
    ItemReaderBaseState :=
  { self with m_page_step := Int.tdiv (gsize.height * 2) 5 }

/-! ## The watcher (`pso/ProcessWatcher.hpp`, `pso/ProcessWatcher.cpp`) -/

/-- The method `PsobbProcessWatcher::handle_event`: the exception it throws, if any. -/
def PsobbProcessWatcher.handle_event (event : Event) : Option Thrown :=
  match event with
  | Event.special SpecialKey.escape => some Thrown.QuitAppException
  | _ => Option.none

/-- The method `PsobbProcessWatcher::update_style`. -/
def PsobbProcessWatcher.update_style (self : PsobbProcessWatcher) : UpdateStyle :=
  if self.m_has_permission then UpdateStyle.k_continuous_updates
  else UpdateStyle.k_until_next_event

/-- The lines `k_perm_fail` of `update_bad_permission_message`. -/
def k_perm_fail : List String :=
  ["\"ptrace\" permissions is needed by this application. To grant this " ++
     "permission please run the following command (you will need root " ++
     "permissions):",
   "\"setcap 'CAP_SYS_PTRACE+ep' /path/to/binary/apir\"",
   "(of course replacing the file path with the path to this binary)",
   "Press escape to close this application."]

/-- The method `PsobbProcessWatcher::update_bad_permission_message`. -/
def PsobbProcessWatcher.update_bad_permission_message (S : Surroundings)
    (self : PsobbProcessWatcher) : PsobbProcessWatcher :=
  if self.m_has_permission then self
  else
    let lines := S.render_wrapped_lines_to k_perm_fail self.m_max_width self.m_max_height
    { self with m_error_lines := lines }

/-- The method `PsobbProcessWatcher::handle_resize`. -/
def PsobbProcessWatcher.handle_resize (S : Surroundings) (gsize : GridSize)
    (self : PsobbProcessWatcher) : PsobbProcessWatcher :=
  PsobbProcessWatcher.update_bad_permission_message S
    { self with m_max_height := gsize.height, m_max_width := gsize.width }

/-- The method `PsobbProcessWatcher::handle_tick`. The argument `pgrep` is what
the pipe to `pgrep psobb` delivers: nothing when `popen` fails, the text read
otherwise. The result is the state map and the exception that leaves the method. -/
def PsobbProcessWatcher.handle_tick (S : Surroundings) (pgrep : Option String)
    (statemap : AppStateMap) : AppStateMap × Option Thrown :=
  match pgrep with
  | Option.none => (statemap, Option.none)
  | some contents =>
    match S.string_to_number_multibase contents with
    | Option.none => (statemap, Option.none)
    | some pid =>
      let self := { statemap.watcher with m_new_state := some AppStateClass.BankViewState }
      let statemap := { statemap with watcher := self }
      match ReaderView.setup S ReaderStateClass.BankViewState
          (some (ReaderSource.ProcessMemoryReader pid)) statemap.bank with
      | (bank, Option.none) => ({ statemap with bank := bank }, Option.none)
      | (bank, some e) =>
        let statemap := { statemap with bank := bank }
        if e = Exn.PermissionError then
          let self := { statemap.watcher with m_has_permission := false }
          let self := PsobbProcessWatcher.update_bad_permission_message S self
          let self := { self with m_new_state := some AppStateClass.PsobbProcessWatcher }
          ({ statemap with watcher := self }, Option.none)
        else (statemap, some (Thrown.exn e))

/-! ## The main loop (`main.cpp`)

The calls of the renderer (`do_render`) and of `ncurses` are left out: they do
not change the state objects. -/

/-- The variables `statemap` and `state_ptr` of `main`; the state pointed to is
given by its class. -/
structure App where
  statemap : AppStateMap
  state_ptr : AppStateClass
  deriving DecidableEq, Repr

/-- What one pass of the loop of `main` meets: the text the pipe to `pgrep`
delivers, the outcome of the two comparisons of elapsed time, the events of the
keys that `getch` delivers in this pass, whether `update_size` reports a change,
and the size of the grid. -/
structure PassInput where
  pgrep : Option String
  delay_elapsed : Bool
  update_elapsed : Bool
  keys : List Event
  update_size : Bool
  grid : GridSize

/-- How one pass of the loop of `main` ends: the loop goes on, `main` returns, an
exception leaves `main`, or a null pointer was dereferenced. -/
inductive LoopResult
  | running (app : App)
  | returned (code : Int)
  | uncaught (t : Thrown)
  | undefined
  deriving DecidableEq, Repr

/-- The view class that is a class of application state, if it is one. -/
def AppStateClass.reader_state : AppStateClass → Option ReaderStateClass
  | AppStateClass.PsobbProcessWatcher => Option.none
  | AppStateClass.InventoryViewState => some ReaderStateClass.InventoryViewState
  | AppStateClass.FloorViewState => some ReaderStateClass.FloorViewState
  | AppStateClass.BankViewState => some ReaderStateClass.BankViewState

/-- The virtual method `AppState::handle_tick` of the state `state_ptr` points to. -/
def AppState.handle_tick (S : Surroundings) (input : PassInput) (state_ptr : AppStateClass)
    (statemap : AppStateMap) : Option (AppStateMap × Option Thrown) :=
  match state_ptr.reader_state with
  | Option.none => some (PsobbProcessWatcher.handle_tick S input.pgrep statemap)
  | some c =>
    match ReaderView.handle_tick S c input.delay_elapsed input.update_elapsed
        (statemap.view c) with
    | Option.none => Option.none
    | some (self, e) => some (statemap.set_view c self, e.map Thrown.exn)

/-- The virtual method `AppState::handle_event`. -/
def AppState.handle_event (S : Surroundings) (state_ptr : AppStateClass) (event : Event)
    (statemap : AppStateMap) : AppStateMap × Option Thrown :=
  match state_ptr.reader_state with
  | Option.none => (statemap, PsobbProcessWatcher.handle_event event)
  | some c => ReaderView.handle_event S c event statemap

/-- The virtual method `AppState::update_style`. -/
def AppState.update_style (state_ptr : AppStateClass) (statemap : AppStateMap) : UpdateStyle :=
  match state_ptr.reader_state with
  | Option.none => statemap.watcher.update_style
  | some _ => UpdateStyle.k_continuous_updates

/-- The virtual method `AppState::handle_resize`. -/
def AppState.handle_resize (S : Surroundings) (gsize : GridSize) (state_ptr : AppStateClass)
    (statemap : AppStateMap) : AppStateMap :=
  match state_ptr.reader_state with
  | Option.none =>
    { statemap with watcher := PsobbProcessWatcher.handle_resize S gsize statemap.watcher }
  | some c =>
    let self := statemap.view c
    let base := ItemReaderBaseState.handle_resize gsize self.toItemReaderBaseState
    statemap.set_view c { self with toItemReaderBaseState := base }

/-- The method `AppState::get_new_state`, which moves `m_new_state` out of the
state and leaves it null. -/
def AppState.get_new_state (state_ptr : AppStateClass) (statemap : AppStateMap) :
    Option AppStateClass × AppStateMap :=
  match state_ptr.reader_state with
  | Option.none =>
    (statemap.watcher.m_new_state,
     { statemap with watcher := { statemap.watcher with m_new_state := Option.none } })
  | some c =>
    let self := statemap.view c
    let base := { self.toItemReaderBaseState with m_new_state := Option.none }
    (self.m_new_state, statemap.set_view c { self with toItemReaderBaseState := base })

/-- The loop over the pending keys under `k_continuous_updates`: it ends with the
first event whose handling throws. -/
def handle_events (S : Surroundings) (state_ptr : AppStateClass) :
    List Event → AppStateMap → AppStateMap × Option Thrown
  | [], statemap => (statemap, Option.none)
  | event :: rest, statemap =>
    match AppState.handle_event S state_ptr event statemap with
    | (statemap, some t) => (statemap, some t)
    | (statemap, Option.none) => handle_events S state_ptr rest statemap

/-- The handler of the `try` block of `main`: only `QuitAppException` is caught,
and `main` returns 0 then. -/
def main_catch : Thrown → LoopResult
  | Thrown.QuitAppException => LoopResult.returned 0
  | t => LoopResult.uncaught t

/-- One pass of the loop of `main`. -/
def main_pass (S : Surroundings) (input : PassInput) (app : App) : LoopResult :=
  match AppState.handle_tick S input app.state_ptr app.statemap with
  | Option.none => LoopResult.undefined
  | some (_, some t) => main_catch t
  | some (statemap, Option.none) =>
    let handled :=
      match AppState.update_style app.state_ptr statemap with
      | UpdateStyle.k_continuous_updates => handle_events S app.state_ptr input.keys statemap
      | UpdateStyle.k_until_next_event =>
        AppState.handle_event S app.state_ptr (input.keys.headD Event.empty) statemap
    match handled with
    | (_, some t) => main_catch t
    | (statemap, Option.none) =>
      let statemap :=
        if input.update_size then AppState.handle_resize S input.grid app.state_ptr statemap
        else statemap
      match AppState.get_new_state app.state_ptr statemap with
      | (some ptr, statemap) =>
        LoopResult.running
          { statemap := AppState.handle_resize S input.grid ptr statemap, state_ptr := ptr }
      | (Option.none, statemap) =>
        LoopResult.running { statemap := statemap, state_ptr := app.state_ptr }

/-- The state of `main` when it enters the loop: the watcher, made with the state
map and told the size of the grid. -/
def main_start (S : Surroundings) (grid : GridSize) : App :=
  { statemap := AppState.handle_resize S grid AppStateClass.PsobbProcessWatcher {}
    state_ptr := AppStateClass.PsobbProcessWatcher }

/-- The value of the subscript `attributes[idx] - 1` of the store into `m_attributes`
that the round `idx` of the loop of `Weapon::load_attributes` performs, an `int`
before it becomes the `size_type` argument; none when the round is skipped by
`continue`. -/
def Weapon.load_attributes_subscript (attributes : List Nat) (idx : Nat) : Option Int :=
  if buffer_byte attributes idx ≥ 6 then Option.none
  else some ((buffer_byte attributes idx : Int) - 1)

/-- The subscripts of the stores into `m_attributes` that `Weapon::load_attributes`
performs on the six bytes read, in the order of the loop. -/
def Weapon.load_attributes_subscripts (attributes : List Nat) : List Int :=
  [0, 2, 4].filterMap (Weapon.load_attributes_subscript attributes)

/-! ## Statements of the specification

Definitions that follow the words of the specification, to be compared with the
definitions taken from the sources. -/

/-- The record class the specification assigns to a code with low byte `L` and
next byte `H`, given whether the code is of the specialized tier. -/
def class_by_bytes (L H : Nat) (esrank : Bool) : ItemClass :=
  if L = 0 then (if esrank then ItemClass.EsWeapon {} else ItemClass.Weapon {})
  else if L = 1 then
    (if H = 1 then ItemClass.Frame {}
     else if H = 2 then ItemClass.Barrier {}
     else if H = 3 then ItemClass.Unit
     else ItemClass.TotallyUnknownItem)
  else if L = 2 then ItemClass.Mag {}
  else if L = 3 then (if H = 2 then ItemClass.Tech {} else ItemClass.Tool {})
  else if L = 4 then ItemClass.Meseta {}
  else ItemClass.TotallyUnknownItem

/-- The specialized-tier predicate of the specification: the second byte of the
code lies in 0x70..0x88 or in 0xA5..0xA9. -/
def specialized_tier (c : Nat) : Bool :=
  (decide (0x70 ≤ c / 256 % 256) && decide (c / 256 % 256 ≤ 0x88)) ||
    (decide (0xA5 ≤ c / 256 % 256) && decide (c / 256 % 256 ≤ 0xA9))

/-- A 24-bit code with its three bytes in reverse order. -/
def reverse_three_bytes (c : Nat) : Nat :=
  (c % 256) * 65536 + (c / 256 % 256) * 256 + c / 65536 % 256

/-- The lookup key the specification gives for a 24-bit code: mag-class and
specialized-tier codes are masked to 16 bits, then the bytes are reversed. -/
def aliased_key (c : Nat) : Nat :=
  reverse_three_bytes
    (if c % 256 = 0x02 ∨ specialized_tier c = true then c % 65536 else c)

/-- The flags (wrapped, tekked) the specification derives from the byte `b` that
holds the special code. -/
def flag_ladder (b : Nat) : Bool × Bool :=
  if b > 0xBF then (true, false)
  else if 0x80 ≤ b ∧ b ≤ 0xBF then (false, false)
  else if 0x40 ≤ b ∧ b ≤ 0x7F then (true, true)
  else (false, true)

/-- The 16-bit word that a little-endian host reads from the bytes `lo`, `hi`,
with its two bytes swapped. -/
def swapped_word (lo hi : Nat) : Nat :=
  let w := lo + 256 * hi
  (w % 256) * 256 + w / 256

/-- The 5-bit groups of a 16-bit word: bits 10-14, bits 5-9 and bits 0-4. -/
def five_bit_groups (w : Nat) : List Nat :=
  [w / 1024 % 32, w / 32 % 32, w % 32]

/-- The letter of a 5-bit group: 1..26 stand for A..Z, any other group has none. -/
def group_letter (g : Nat) : Option Nat :=
  if 1 ≤ g ∧ g ≤ 26 then some ('A'.toNat + g - 1) else Option.none

/-- The letters of the name packed in six bytes, as the specification describes
them: the groups of the three swapped words in order, without the very first
group, each kept only if it stands for a letter. -/
def esrank_letters (buf : List Nat) : List Nat :=
  ((five_bit_groups (swapped_word (buffer_byte buf 0) (buffer_byte buf 1)) ++
    five_bit_groups (swapped_word (buffer_byte buf 2) (buffer_byte buf 3)) ++
    five_bit_groups (swapped_word (buffer_byte buf 4) (buffer_byte buf 5))).drop 1).filterMap
    group_letter

/-- The 9-character array that holds a name, filled up with zeros. -/
def name_array (letters : List Nat) : List Nat :=
  letters ++ List.replicate (9 - letters.length) 0

/-- The string a zero-terminated character array holds. -/
def c_string (chars : List Nat) : String :=
  String.mk ((chars.takeWhile (fun c => c ≠ 0)).map Char.ofNat)

/-- The raw 16-bit stat word of axis `k` in the eight bytes read by `Mag::load_stats`. -/
def raw_stat (host : EndiannessEnum) (buf : List Nat) (k : Nat) : Nat :=
  object_value host 2 (buf.drop (2 * k))

/-- The 32-bit two's complement pattern of an `int`. -/
def int32_bits (q : Int) : Nat := (q % 4294967296).toNat

/-- The byte that stands for each spell kind in a technique disk. -/
def tech_code : TechType → Int
  | TechType.foie => 0x00
  | TechType.gifioe => 0x01
  | TechType.rafoie => 0x02
  | TechType.barta => 0x03
  | TechType.gibarta => 0x04
  | TechType.rabarta => 0x05
  | TechType.zonde => 0x06
  | TechType.gizonde => 0x07
  | TechType.razonde => 0x08
  | TechType.grants => 0x09
  | TechType.deband => 0x0A
  | TechType.jellen => 0x0B
  | TechType.zalure => 0x0C
  | TechType.shifta => 0x0D
  | TechType.ryuker => 0x0E
  | TechType.resta => 0x0F
  | TechType.anti => 0x10
  | TechType.reverser => 0x11
  | TechType.megid => 0x12

/-- The byte values that `get_tech_type` accepts. -/
def accepted_tech_codes : List Nat :=
  (List.range 256).filter (fun c => (get_tech_type (c : Int)).isOk)

/-- The first `count` entries of the raw pointer array held in `buf`, in array order. -/
def raw_pointers (host : EndiannessEnum) (buf : List Nat) (count : Nat) : List Nat :=
  (List.range count).map (rawptrs_at host buf)

/-- Whether the owner id of the record at `a`, the signed byte at `a + 0xE4`, can
be read and equals `id`. -/
def owner_is (memory : MemoryReader) (a : Nat) (id : Int) : Bool :=
  match memory.read_i8 (addr_add a k_item_owner_offset) with
  | Except.ok x => decide (x = id)
  | Except.error _ => false

/-- Byte `i` of a value, counted from the least significant byte. -/
def byte_at (x i : Nat) : Nat := x / 256 ^ i % 256

/-- The integer whose little-endian encoding is the first `n` bytes of a buffer. -/
def little_endian_value (n : Nat) (buf : List Nat) : Nat :=
  le_value ((List.range n).map (buffer_byte buf))

/-- The numbering of the views by their position in `ReaderStates`, counted the
way `change_state_to_id` counts it, with the number `k - 1` for the head of a
list of `k` classes: `InventoryViewState` has the number 2, `FloorViewState` 1
and `BankViewState` 0. -/
def numbered_by_position (GetTypeId : ReaderStateClass → Nat) : Prop :=
  GetTypeId ReaderStateClass.InventoryViewState = 2 ∧
  GetTypeId ReaderStateClass.FloorViewState = 1 ∧
  GetTypeId ReaderStateClass.BankViewState = 0

/-- A record is decoded when `Item::load_from` or `Item::load_from_bank` has filled
it, at some address of some memory, from an object of its class. -/
def decoded_record (host : EndiannessEnum) (env : Extern) (item : Item) : Prop :=
  ∃ (self : Item) (addr : Address) (memory : MemoryReader),
    self.load_from host env addr memory = Except.ok item ∨
    self.load_from_bank host env addr memory = Except.ok item

/-- Two memory sources answer every read alike, except possibly the reads at the
address `x`. -/
def same_reads_except (memory memory' : MemoryReader) (x : Address) : Prop :=
  ∀ (a : Address) (n : Nat), a ≠ x → memory'.read a n = memory.read a n

/-! ## Sample data

A static memory source and a fragment of the item table, used to evaluate the
definitions on concrete inputs. -/

/-- A static memory source of `size` bytes: the byte at an address is the one the
list `cells` gives for it, and 0 elsewhere; a read that does not fit throws. -/
def static_reader (size : Nat) (cells : List (Nat × Nat)) : MemoryReader :=
  ⟨fun addr n =>
    if addr + n ≤ size then
      pure ((List.range n).map (fun i => ((cells.lookup (addr + i)).getD 0)))
    else throw Exn.runtime_error⟩

/-- A fragment of the table that `ItemDb::ItemDb` builds: `add_generic(0x000100, "Saber")`,
`add_uber_wk(0x003300, "SEALED J-SWORD")`, `add(0x007000, "SABER")` of `add_esranks`
and `add_rare_item(0x024D00, "Stealth")`; the feed timer is not computed. -/
def sample_extern : Extern where
  m_info_map := fun code =>
    if code = 0x000100 then some { name := "Saber", rarity := Rarity.common }
    else if code = 0x003300 then
      some { name := "SEALED J-SWORD", rarity := Rarity.uber, has_kill_counter := true }
    else if code = 0x007000 then some { name := "SABER", rarity := Rarity.esrank }
    else if code = 0x024D00 then some { name := "Stealth", rarity := Rarity.rare }
    else Option.none
  m_def_map := fun _ => Option.none
  round_div30 := fun _ => 0

/-- Two weapon records in the live layout, at 0x1000 and 0x2000, both with the
code bytes 00 01 00 (a Saber). The first has special byte 0x41 (wrapped, Draw),
grind 7 and one attribute pair (3, 25); the second has special byte 0x29, whose
low six bits are 41, above the code of `demons`. -/
def two_weapons_memory : MemoryReader :=
  static_reader 0x3000
    [(0x1000 + 0xF3, 0x01), (0x1000 + 0x1F5, 7), (0x1000 + 0x1F6, 0x41),
     (0x1000 + 0x1C8, 3), (0x1000 + 0x1C9, 25), (0x1000 + 0x1CA, 6), (0x1000 + 0x1CC, 6),
     (0x2000 + 0xF3, 0x01), (0x2000 + 0x1F5, 0), (0x2000 + 0x1F6, 0x29),
     (0x2000 + 0x1CA, 6), (0x2000 + 0x1CC, 6), (0x2000 + 0x1C8, 6)]

/-- A view over the sample memory: the address list is fixed and the items are
those of `load_inventory`, with an empty header line. -/
def sample_view (addresses : AddressList) : ViewMethods where
  load_items := fun memory pointers =>
    (load_inventory k_little_endian sample_extern memory pointers).map (fun items => (items, ""))
  load_addresses := fun _ _ => (addresses, Option.none)

/-- A static memory with a bank-layout weapon at address 0: grind 9 at offset 3
and the byte `b` at offset 4. -/
def special_byte_memory (b : Nat) : MemoryReader :=
  static_reader 16 [(3, 9), (4, b)]

/-- A static memory holding the six bytes 01 02 03 04 05 06 at address 0. -/
def esrank_sample_memory : MemoryReader :=
  static_reader 6 [(0, 0x01), (1, 0x02), (2, 0x03), (3, 0x04), (4, 0x05), (5, 0x06)]

/-- A static memory with the stat words of a bank-layout mag at address 4:
350, 25600, 65535 and 0, least significant byte first. -/
def mag_sample_memory : MemoryReader :=
  static_reader 16 [(4, 0x5E), (5, 0x01), (6, 0x00), (7, 0x64), (8, 0xFF), (9, 0xFF)]

/-- A static memory with a live-layout tool at 0x1000 whose quantity word at
0x1104 is 0x1107 (3 obscured by the address), and a bank-layout tool at 0x2000
whose quantity byte at 0x2014 is 5. -/
def tool_sample_memory : MemoryReader :=
  static_reader 0x3000 [(0x1104, 0x07), (0x1105, 0x11), (0x2014, 5)]

/-- A static memory with a live-layout technique disk at 0x1000: code bytes
03 02 FF and spell-kind byte 0x0F (Resta) at offset 0x108. -/
def tech_sample_memory : MemoryReader :=
  static_reader 0x2000
    [(0x1000 + 0xF2, 0x03), (0x1000 + 0xF3, 0x02), (0x1000 + 0xF4, 0xFF), (0x1000 + 0x108, 0x0F)]

/-- A static memory with the tables of the item list: player index 1, four raw
pointers 0x1000, 0, 0x2000 and 0x1800 in the array at 0x3000; the records at
0x1000 and 0x1800 belong to player 1 and the record at 0x2000 has the owner byte
0xFF. -/
def inventory_sample_memory : MemoryReader :=
  static_reader 0x1000000
    [(0x00A9C4F4, 1), (0x00A8D820, 4), (0x00A8D81D, 0x30),
     (0x3001, 0x10), (0x3009, 0x20), (0x300D, 0x18),
     (0x10E4, 1), (0x20E4, 0xFF), (0x18E4, 1)]

/-- A static memory with a bank: the word at 0x00A95DF8 is 0x80002000, so the base
is 0x2000 + 0x21C = 0x221C, and the count byte there is 3. -/
def bank_sample_memory : MemoryReader :=
  static_reader 0x1000000 [(0x00A95DF9, 0x20), (0x00A95DFB, 0x80), (0x221C, 3)]

/-- A static memory of zeros, in which the bank base pointer reads as 0. -/
def zero_bank_memory : MemoryReader :=
  static_reader 0x1000000 []

/-- A static memory whose raw pointer array at 0x3000 holds the address 0x1000
twice; the player index and the owner byte of the record are both 0. -/
def duplicate_pointer_memory : MemoryReader :=
  static_reader 0x1000000 [(0x00A8D820, 2), (0x00A8D81D, 0x30), (0x3001, 0x10), (0x3005, 0x10)]

/-- A static memory holding the eight bytes 78 56 34 12 EF CD AB 89 at address 0. -/
def endian_sample_memory : MemoryReader :=
  static_reader 8
    [(0, 0x78), (1, 0x56), (2, 0x34), (3, 0x12), (4, 0xEF), (5, 0xCD), (6, 0xAB), (7, 0x89)]

/-- A static memory of no bytes: every read throws `runtime_error`. -/
def unreadable_memory : MemoryReader :=
  static_reader 0 []

/-- The number that the decimal digits at the start of a text stand for, if the
text starts with a digit. -/
def leading_number (contents : String) : Option Int :=
  match contents.data.takeWhile Char.isDigit with
  | [] => Option.none
  | digits => some ((digits.foldl (fun n d => 10 * n + (d.toNat - '0'.toNat)) 0 : Nat) : Int)

/-- Surroundings for the sample data: a little-endian host, the table fragment,
the names of the items as their printed form, the views numbered 2, 1, 0 in the
order of `ReaderStates`, process ids in decimal digits, no layout of the help
text, and a target process for which the system call answers as `read` does. -/
def sample_surroundings (read : Int → Address → Nat → VmReadResult) : Surroundings where
  host := k_little_endian
  env := sample_extern
  print_lines := fun items => items.map (fun item => item.name)
  GetTypeId := fun c =>
    match c with
    | ReaderStateClass.InventoryViewState => 2
    | ReaderStateClass.FloorViewState => 1
    | ReaderStateClass.BankViewState => 0
  string_to_number_multibase := leading_number
  render_wrapped_lines_to := fun lines _ _ => lines
  process_vm_readv := read
  builtin_data := [0x01, 0x02, 0x03, 0x04]

/-- A target process that refuses every read: the call returns -1 and sets
`errno` to `EPERM`. -/
def permission_denied : Int → Address → Nat → VmReadResult :=
  fun _ _ len => { ret := -1, errno := EPERM, buffer := List.replicate len 0 }

/-- A target process that is gone: the call returns -1 and sets `errno` to `ESRCH`. -/
def no_such_process : Int → Address → Nat → VmReadResult :=
  fun _ _ len => { ret := -1, errno := ESRCH, buffer := List.replicate len 0 }

/-- A target process whose memory reads as zeros everywhere. -/
def zero_process : Int → Address → Nat → VmReadResult :=
  fun _ _ len => { ret := (len : Int), errno := 0, buffer := List.replicate len 0 }

/-- The state of `main` while the held view is shown with a reader of the
process 1000; the other objects are as constructed. -/
def held_view_app : App :=
  { statemap := { inventory := { m_reader := some (ReaderSource.ProcessMemoryReader 1000) } }
    state_ptr := AppStateClass.InventoryViewState }

/-- A pass of the main loop in which no time has elapsed, no key is pending, the
process lookup finds nothing and the grid of 80 by 24 cells keeps its size. -/
def quiet_pass : PassInput :=
  { pgrep := some ""
    delay_elapsed := false
    update_elapsed := false
    keys := []
    update_size := false
    grid := { width := 80, height := 24 } }

/-- A pass of the main loop in which the process lookup delivers the id 1000 and
one key, the letter a, is handled. -/
def found_pass : PassInput :=
  { pgrep := some "1000\n"
    delay_elapsed := false
    update_elapsed := false
    keys := [Event.text { code := 'a' }]
    update_size := false
    grid := { width := 80, height := 24 } }

/-- The state of `main` after its first pass when the process 1000 was found and
refused every read: the watcher without permission, showing the help text. -/
def degraded_app : App :=
  { statemap :=
      { watcher :=
          { m_has_permission := false
            m_max_width := 80
            m_max_height := 24
            m_error_lines := k_perm_fail }
        bank := { m_reader := some (ReaderSource.ProcessMemoryReader 1000) } }
    state_ptr := AppStateClass.PsobbProcessWatcher }

/-- A record of the fallback class with the code `c` and nothing else set. -/
def code_item (c : Nat) : Item :=
  { fullcode := c, derived := ItemClass.TotallyUnknownItem }

/-- A static memory with two records in the live layout whose codes are of no known
class: the code bytes 05 00 00 at 0x1000 and FF 00 00 at 0x2000. -/
def unknown_class_memory : MemoryReader :=
  static_reader 0x3000 [(0x1000 + 0xF2, 0x05), (0x2000 + 0xF2, 0xFF)]

/-- A static memory with two technique disks in the live layout, at 0x1000 and
0x2000, both with the code bytes 03 02 00; the spell-kind byte is 0x00 (Foie) for
the first and 0x0F (Resta) for the second. -/
def two_techs_memory : MemoryReader :=
  static_reader 0x3000
    [(0x1000 + 0xF2, 0x03), (0x1000 + 0xF3, 0x02), (0x1000 + 0x108, 0x00),
     (0x2000 + 0xF2, 0x03), (0x2000 + 0xF3, 0x02), (0x2000 + 0x108, 0x0F)]

/-- The record decoded at 0x1000 of the memory with two weapons: a Saber with the
special Draw, grind 7 and 25 for the third attribute. -/
def live_saber : Item :=
  { name := "Saber"
    fullcode := 0x000100
    derived := ItemClass.Weapon
      { grind := 7, special := WeaponSpecial.draw, tekked := true, wrapped := true,
        m_attr_count := 1, m_attributes := [0, 0, 25, 0, 0] } }

/-- A static memory with a weapon in the bank layout at address 0: the code bytes
00 01 00, grind 9 and the special byte 0x41. -/
def bank_saber_memory : MemoryReader :=
  static_reader 16 [(1, 1), (3, 9), (4, 0x41)]

/-- The record decoded at address 0 of the memory with the bank weapon. -/
def bank_saber : Item :=
  { name := "Saber"
    fullcode := 0x000100
    derived := ItemClass.Weapon
      { grind := 9, special := WeaponSpecial.draw, tekked := true, wrapped := true } }

/-- A frame at 0x1000 and a barrier at 0x2000 in the live layout (code bytes 01 01 00
and 01 02 00). The frame holds 5 at offset 0x1B9 and 7 at offset 0x1BA, the barrier
holds 5 at offset 0x1E4 and 7 at offset 0x1E5. -/
def defense_memory : MemoryReader :=
  static_reader 0x3000
    [(0x1000 + 0xF2, 0x01), (0x1000 + 0xF3, 0x01), (0x1000 + 0x1B9, 5), (0x1000 + 0x1BA, 7),
     (0x2000 + 0xF2, 0x01), (0x2000 + 0xF3, 0x02), (0x2000 + 0x1E4, 5), (0x2000 + 0x1E5, 7)]

/-- A static memory of six bytes 04 21 04 21 04 21: every 5-bit group of the three
swapped words is 1. -/
def full_name_memory : MemoryReader :=
  static_reader 6 [(0, 0x04), (1, 0x21), (2, 0x04), (3, 0x21), (4, 0x04), (5, 0x21)]

/-- A weapon at 0x1000 in the live layout with the code bytes 00 33 00, the code of
the SEALED J-SWORD, whose table entry has a kill counter; the bytes at offset 0xE8 are
39 30, the number 12345 on a little-endian host. -/
def sealed_sword_memory : MemoryReader :=
  static_reader 0x2000 [(0x1000 + 0xF3, 0x33), (0x1000 + 0xE8, 0x39), (0x1000 + 0xE9, 0x30)]

/-- The record decoded at 0x1000 of the memory with the sealed sword. -/
def sealed_sword : Item :=
  { name := "SEALED J-SWORD"
    rarity := Rarity.uber
    kills := 12345
    fullcode := 0x003300
    derived := ItemClass.Weapon {} }

/-- A static memory with two records on the floor: the raw pointer array at 0x3000
holds 0x1000 and 0x2000, both records have the owner byte 0xFF (no owner), and their
code bytes are 05 00 00 and 06 00 00, codes of no known class. -/
def floor_memory : MemoryReader :=
  static_reader 0x1000000
    [(0x00A8D820, 2), (0x00A8D81D, 0x30), (0x3001, 0x10), (0x3005, 0x20),
     (0x1000 + 0xE4, 0xFF), (0x2000 + 0xE4, 0xFF), (0x1000 + 0xF2, 0x05),
     (0x2000 + 0xF2, 0x06)]

/-! ## Auxiliary lemmas -/

theorem and_255 (x : Nat) : x &&& 255 = x % 256 :=
  Nat.and_pow_two_sub_one_eq_mod x 8

theorem and_65535 (x : Nat) : x &&& 65535 = x % 65536 :=
  Nat.and_pow_two_sub_one_eq_mod x 16

theorem and_16777215 (x : Nat) : x &&& 16777215 = x % 16777216 :=
  Nat.and_pow_two_sub_one_eq_mod x 24

theorem and_31 (x : Nat) : x &&& 31 = x % 32 :=
  Nat.and_pow_two_sub_one_eq_mod x 5

theorem shr_8 (x : Nat) : x >>> 8 = x / 256 := Nat.shiftRight_eq_div_pow x 8

theorem shr_16 (x : Nat) : x >>> 16 = x / 65536 := Nat.shiftRight_eq_div_pow x 16

theorem load_gen_loop_error (loadf : LoadItemFunc) (host : EndiannessEnum)
    (memory : MemoryReader) (fullcode_offset : Address) (addr : Address) :
    ∀ (addresses : AddressList) (rv : ItemList), addr ∈ addresses →
      (∃ e, load_gen_body loadf host memory fullcode_offset addr = Except.error e) →
      ∃ e, load_gen_loop loadf host memory fullcode_offset addresses rv = Except.error e := by
  intro addresses
  induction addresses with
  | nil => intro rv hmem; simp at hmem
  | cons a rest ih =>
    intro rv hmem hfail
    cases hbody : load_gen_body loadf host memory fullcode_offset a with
    | error e =>
      exact ⟨e, by simp [load_gen_loop, hbody, bind, Except.bind]⟩
    | ok item =>
      have hrest : addr ∈ rest := by
        rcases List.mem_cons.mp hmem with h | h
        · subst h
          obtain ⟨e, he⟩ := hfail
          rw [he] at hbody
          cases hbody
        · exact h
      obtain ⟨e, he⟩ := ih (rv ++ [item]) hrest hfail
      exact ⟨e, by simp [load_gen_loop, hbody, bind, Except.bind, he]⟩

theorem load_grind_and_special_rejects (self : WeaponBase) (memory : MemoryReader)
    (grindaddr specaddr : Address) (b : Nat)
    (hspec : memory.read_u8 specaddr = Except.ok b) (hb : b % 64 > 40) :
    self.load_grind_and_special grindaddr specaddr memory
      = Except.error Exn.invalid_argument := by
  have hcode : b % 64 > WeaponSpecial.demons.code := hb
  simp only [WeaponBase.load_grind_and_special, hspec, to_weapon_special, hcode,
    bind, Except.bind, if_true]

theorem set_fullcode_and_kills_derived (host : EndiannessEnum) (env : Extern) (self r : Item)
    (fullcode : Nat) (addr : Address) (memory : MemoryReader)
    (h : self.set_fullcode_and_kills host env fullcode addr memory = Except.ok r) :
    r.derived = self.derived := by
  unfold Item.set_fullcode_and_kills at h
  simp only [bind, Except.bind, pure, Except.pure] at h
  split at h
  · cases hk : memory.read_u16 host (addr_add addr 0xE8) with
    | error e => simp [hk] at h
    | ok k =>
      simp only [hk, Except.ok.injEq] at h
      subst h
      rfl
  · simp only [Except.ok.injEq] at h
    subst h
    rfl

theorem weapon_with_bad_special_fails (host : EndiannessEnum) (env : Extern)
    (memory : MemoryReader) (addr : Address) (w b : Nat)
    (hw : memory.read_u32 host (addr_add addr k_item_code_offset) = Except.ok w)
    (hclass : w % 256 = 0)
    (hspec : memory.read_u8 (addr_add addr 0x1F6) = Except.ok b) (hb : b % 64 > 40) :
    ∃ e, load_gen_body (fun item => item.load_from host env) host memory
      k_item_code_offset addr = Except.error e := by
  have hlow : (w &&& 0xFFFFFF) &&& 0xFF = 0 := by
    rw [and_255, and_16777215]; omega
  have hmake : ∃ item, make_item host memory (addr_add addr k_item_code_offset) = Except.ok item ∧
      (item.derived = ItemClass.Weapon {} ∨ item.derived = ItemClass.EsWeapon {}) := by
    unfold make_item
    simp only [hw, bind, Except.bind, hlow]
    cases is_esrank (w &&& 0xFFFFFF)
    · exact ⟨_, rfl, Or.inl rfl⟩
    · exact ⟨_, rfl, Or.inr rfl⟩
  obtain ⟨item, hitem, hder⟩ := hmake
  unfold load_gen_body
  simp only [hitem, bind, Except.bind, Item.load_from, hw]
  cases hset : item.set_fullcode_and_kills host env (w &&& 0xFFFFFF) addr memory with
  | error e => exact ⟨e, rfl⟩
  | ok item2 =>
    have hder2 := set_fullcode_and_kills_derived host env item item2 _ addr memory hset
    refine ⟨Exn.invalid_argument, ?_⟩
    simp only []
    unfold Item.load_from_
    rcases hder with hder | hder
    · rw [hder2, hder]
      simp only [Weapon.load_from_, WeaponBase.load_from_,
        load_grind_and_special_rejects _ memory _ _ b hspec hb, bind, Except.bind]
    · rw [hder2, hder]
      simp only [EsWeapon.load_from_, WeaponBase.load_from_,
        load_grind_and_special_rejects _ memory _ _ b hspec hb, bind, Except.bind]

theorem bank_weapon_with_bad_special_fails (host : EndiannessEnum) (env : Extern)
    (memory : MemoryReader) (addr : Address) (w b : Nat)
    (hw0 : memory.read_u32 host (addr_add addr 0) = Except.ok w)
    (hw : memory.read_u32 host addr = Except.ok w)
    (hclass : w % 256 = 0)
    (hspec : memory.read_u8 (addr_add addr 0x4) = Except.ok b) (hb : b % 64 > 40) :
    ∃ e, load_gen_body (fun item => item.load_from_bank host env) host memory 0 addr
      = Except.error e := by
  have hlow : (w &&& 0xFFFFFF) &&& 0xFF = 0 := by
    rw [and_255, and_16777215]; omega
  have hmake : ∃ item, make_item host memory (addr_add addr 0) = Except.ok item ∧
      (item.derived = ItemClass.Weapon {} ∨ item.derived = ItemClass.EsWeapon {}) := by
    unfold make_item
    simp only [hw0, bind, Except.bind, hlow]
    cases is_esrank (w &&& 0xFFFFFF)
    · exact ⟨_, rfl, Or.inl rfl⟩
    · exact ⟨_, rfl, Or.inr rfl⟩
  obtain ⟨item, hitem, hder⟩ := hmake
  unfold load_gen_body
  simp only [hitem, bind, Except.bind, Item.load_from_bank, hw]
  cases hset : item.set_fullcode_and_kills host env (w &&& 0xFFFFFF) addr memory with
  | error e => exact ⟨e, rfl⟩
  | ok item2 =>
    have hder2 := set_fullcode_and_kills_derived host env item item2 _ addr memory hset
    refine ⟨Exn.invalid_argument, ?_⟩
    simp only []
    unfold Item.load_from_bank_
    rcases hder with hder | hder
    · rw [hder2, hder]
      simp only [Weapon.load_from_bank_, WeaponBase.load_from_bank_,
        load_grind_and_special_rejects _ memory _ _ b hspec hb, bind, Except.bind]
    · rw [hder2, hder]
      simp only [EsWeapon.load_from_bank_, WeaponBase.load_from_bank_,
        load_grind_and_special_rejects _ memory _ _ b hspec hb, bind, Except.bind]

/-! ## Decoding is all or nothing -/

/-- Claim C1. If the record at some address of the list cannot be read or decoded,
`load_inventory`, `load_floor` and `load_bank` all end in an exception: no record
list is returned, whatever the other addresses hold. Two causes of such a failure
are a failed read of the code word and a weapon (low code byte 0) whose special
byte has a code above that of `demons`. -/
theorem load_fails_as_a_whole (host : EndiannessEnum) (env : Extern) (memory : MemoryReader)
    (addresses : AddressList) (addr : Address) (hmem : addr ∈ addresses) :
    ((∃ e, load_gen_body (fun item => item.load_from host env) host memory
          k_item_code_offset addr = Except.error e) →
      (∃ e, load_inventory host env memory addresses = Except.error e) ∧
      (∃ e, load_floor host env memory addresses = Except.error e)) ∧
    ((∃ e, load_gen_body (fun item => item.load_from_bank host env) host memory 0 addr
          = Except.error e) →
      ∃ e, load_bank host env memory addresses = Except.error e) ∧
    ((∃ e, memory.read_u32 host (addr_add addr k_item_code_offset) = Except.error e) →
      (∃ e, load_inventory host env memory addresses = Except.error e) ∧
      (∃ e, load_floor host env memory addresses = Except.error e)) ∧
    (∀ w b, memory.read_u32 host (addr_add addr k_item_code_offset) = Except.ok w →
      w % 256 = 0 → memory.read_u8 (addr_add addr 0x1F6) = Except.ok b → b % 64 > 40 →
      (∃ e, load_inventory host env memory addresses = Except.error e) ∧
      (∃ e, load_floor host env memory addresses = Except.error e)) ∧
    (∀ w b, addr < 18446744073709551616 → memory.read_u32 host addr = Except.ok w →
      w % 256 = 0 → memory.read_u8 (addr_add addr 0x4) = Except.ok b → b % 64 > 40 →
      ∃ e, load_bank host env memory addresses = Except.error e) := by
  have hlive : (∃ e, load_gen_body (fun item => item.load_from host env) host memory
          k_item_code_offset addr = Except.error e) →
      (∃ e, load_inventory host env memory addresses = Except.error e) ∧
      (∃ e, load_floor host env memory addresses = Except.error e) := fun hfail =>
    ⟨load_gen_loop_error _ host memory _ addr addresses [] hmem hfail,
     load_gen_loop_error _ host memory _ addr addresses [] hmem hfail⟩
  have hbank : (∃ e, load_gen_body (fun item => item.load_from_bank host env) host memory 0
          addr = Except.error e) →
      ∃ e, load_bank host env memory addresses = Except.error e := by
    intro hfail
    obtain ⟨e, he⟩ := load_gen_loop_error _ host memory _ addr addresses [] hmem hfail
    exact ⟨e, by simp [load_bank, load_gen, he, bind, Except.bind]⟩
  refine ⟨hlive, hbank, ?_, ?_, ?_⟩
  · rintro ⟨e, he⟩
    apply hlive
    exact ⟨e, by simp [load_gen_body, make_item, he, bind, Except.bind]⟩
  · intro w b hw hclass hspec hb
    exact hlive (weapon_with_bad_special_fails host env memory addr w b hw hclass hspec hb)
  · intro w b haddr hw hclass hspec hb
    have h0 : addr_add addr 0 = addr := Nat.mod_eq_of_lt haddr
    have hw0 : memory.read_u32 host (addr_add addr 0) = Except.ok w := by rw [h0]; exact hw
    exact hbank (bank_weapon_with_bad_special_fails host env memory addr w b hw0 hw
      hclass hspec hb)

/-- The sample memory, one good weapon at 0x1000 followed by one with an invalid
special code at 0x2000: the first record decodes alone, the second has code word
0x100 and special byte 0x29, and the pass over both returns no list. -/
theorem load_fails_as_a_whole_witness :
    (0x2000 : Address) ∈ [0x1000, 0x2000] ∧
    (∃ item, load_inventory k_little_endian sample_extern two_weapons_memory [0x1000]
      = Except.ok [item]) ∧
    two_weapons_memory.read_u32 k_little_endian (addr_add 0x2000 k_item_code_offset)
      = Except.ok 0x100 ∧
    two_weapons_memory.read_u8 (addr_add 0x2000 0x1F6) = Except.ok 0x29 ∧
    (∃ e, load_inventory k_little_endian sample_extern two_weapons_memory [0x1000, 0x2000]
      = Except.error e) ∧
    (∃ e, load_floor k_little_endian sample_extern two_weapons_memory [0x1000, 0x2000]
      = Except.error e) :=
  ⟨by decide, ⟨_, rfl⟩, rfl, rfl,
    (load_fails_as_a_whole k_little_endian sample_extern two_weapons_memory [0x1000, 0x2000]
      0x2000 (by decide)).2.2.2.1 0x100 0x29 rfl (by decide) rfl (by decide)⟩

/-! ## Change detection -/

theorem std_equal_iff_eq : ∀ (a b : List Address), std_equal a b = true ↔ a = b := by
  intro a
  induction a with
  | nil => intro b; cases b <;> simp [std_equal]
  | cons x xs ih =>
    intro b
    cases b with
    | nil => simp [std_equal]
    | cons y ys =>
      by_cases hxy : x = y
      · simp [std_equal, hxy, ih]
      · simp [std_equal, hxy]

/-- Claim C2. After a successful address refresh, `handle_tick` decodes the records
again exactly when the fresh list differs from the previous one: if the lists are
equal it keeps the items and the previous list, otherwise it stores the result of
`load_items` (or selects the watcher when that throws). The comparison `std_equal`
holds exactly for lists of the same length with the same address at every
position. -/
theorem handle_tick_decodes_iff_changed (print_lines : ItemList → List String)
    (V : ViewMethods) (memory : MemoryReader) (delay_elapsed : Bool)
    (self : ItemReaderBaseState) (pointers : AddressList)
    (hload : V.load_addresses memory [] = (pointers, Option.none)) :
    (std_equal pointers self.m_old_pointers = true ↔
      (pointers.length = self.m_old_pointers.length ∧
        ∀ i, i < pointers.length → pointers[i]? = self.m_old_pointers[i]?)) ∧
    (std_equal pointers self.m_old_pointers = true →
      ItemReaderBaseState.handle_tick print_lines V memory delay_elapsed self =
        { ItemReaderBaseState.tick_delay print_lines delay_elapsed self with
          m_pointers := pointers }) ∧
    (std_equal pointers self.m_old_pointers = false →
      ItemReaderBaseState.handle_tick print_lines V memory delay_elapsed self =
        match V.load_items memory pointers with
        | Except.error _ =>
          { ItemReaderBaseState.tick_delay print_lines delay_elapsed self with
            m_pointers := pointers, m_new_state := some AppStateClass.PsobbProcessWatcher }
        | Except.ok (items, header) =>
          { ItemReaderBaseState.update_item_strings print_lines
              { ItemReaderBaseState.tick_delay print_lines delay_elapsed self with
                m_pointers := pointers, m_items := items, m_header_string := header } with
            m_old_pointers := pointers }) ∧
    (std_equal pointers self.m_old_pointers = true →
      (ItemReaderBaseState.handle_tick print_lines V memory delay_elapsed self).m_items
        = self.m_items ∧
      (ItemReaderBaseState.handle_tick print_lines V memory delay_elapsed self).m_old_pointers
        = self.m_old_pointers) ∧
    (∀ items header, std_equal pointers self.m_old_pointers = false →
      V.load_items memory pointers = Except.ok (items, header) →
      (ItemReaderBaseState.handle_tick print_lines V memory delay_elapsed self).m_items
        = items ∧
      (ItemReaderBaseState.handle_tick print_lines V memory delay_elapsed self).m_old_pointers
        = pointers) := by
  have hold : (ItemReaderBaseState.tick_delay print_lines delay_elapsed self).m_old_pointers
      = self.m_old_pointers := by
    unfold ItemReaderBaseState.tick_delay ItemReaderBaseState.update_item_strings
    split <;> rfl
  have hitems : (ItemReaderBaseState.tick_delay print_lines delay_elapsed self).m_items
      = self.m_items := by
    unfold ItemReaderBaseState.tick_delay ItemReaderBaseState.update_item_strings
    split <;> rfl
  refine ⟨?_, ?_, ?_, ?_, ?_⟩
  · rw [std_equal_iff_eq]
    constructor
    · intro h
      subst h
      exact ⟨rfl, fun _ _ => rfl⟩
    · rintro ⟨hlen, hget⟩
      apply List.ext_getElem? 
      intro i
      by_cases hi : i < pointers.length
      · exact hget i hi
      · have h1 : pointers.length ≤ i := Nat.le_of_not_lt hi
        have h2 : self.m_old_pointers.length ≤ i := hlen ▸ h1
        rw [List.getElem?_eq_none h1, List.getElem?_eq_none h2]
  · intro heq
    simp [ItemReaderBaseState.handle_tick, hload, hold, heq]
  · intro hne
    simp only [ItemReaderBaseState.handle_tick, hload, hold, hne]
    cases V.load_items memory pointers with
    | error e => simp [ItemReaderBaseState.switch_state]
    | ok r =>
      obtain ⟨items, header⟩ := r
      simp [ItemReaderBaseState.update_item_strings]
  · intro heq
    simp [ItemReaderBaseState.handle_tick, hload, hold, heq, hitems]
  · intro items header hne hitems2
    simp [ItemReaderBaseState.handle_tick, hload, hold, hne, hitems2,
      ItemReaderBaseState.update_item_strings]

/-- The sample view at work: the previous list is the fresh one with its two
entries swapped, so the lists differ and the records are decoded again; with the
same list nothing is decoded. -/
theorem handle_tick_decodes_iff_changed_witness :
    (sample_view [0x1000, 0x1008]).load_addresses two_weapons_memory []
      = ([0x1000, 0x1008], Option.none) ∧
    std_equal [0x1000, 0x1008] [0x1008, 0x1000] = false ∧
    (ItemReaderBaseState.handle_tick (fun _ => []) (sample_view [0x1000, 0x1008])
      two_weapons_memory false { m_old_pointers := [0x1008, 0x1000] }).m_old_pointers
      = [0x1000, 0x1008] ∧
    (ItemReaderBaseState.handle_tick (fun _ => []) (sample_view [0x1000, 0x1008])
      two_weapons_memory false { m_old_pointers := [0x1000, 0x1008] }).m_items = [] :=
  ⟨rfl, rfl,
    by rw [(handle_tick_decodes_iff_changed (fun _ => []) (sample_view [0x1000, 0x1008])
      two_weapons_memory false { m_old_pointers := [0x1008, 0x1000] } [0x1000, 0x1008]
      rfl).2.2.1 rfl]; rfl,
    ((handle_tick_decodes_iff_changed (fun _ => []) (sample_view [0x1000, 0x1008])
      two_weapons_memory false { m_old_pointers := [0x1000, 0x1008] } [0x1000, 0x1008]
      rfl).2.2.2.1 rfl).1⟩

/-! ## Classification of record codes -/

/-- Claim C3. `make_item` fails only when its 32-bit read fails; otherwise it
returns a fresh record whose class is determined by the low byte and the next
byte of the 24-bit code, as the specification lists them. -/
theorem make_item_classifies (host : EndiannessEnum) (memory : MemoryReader) (addr : Address) :
    make_item host memory addr =
      (memory.read_u32 host addr).map (fun w =>
        ({ derived := class_by_bytes (w % 16777216 % 256) (w % 16777216 / 256 % 256)
            (is_esrank (w % 16777216)) } : Item)) := by
  unfold make_item
  cases hread : memory.read_u32 host addr with
  | error e => rfl
  | ok w =>
    simp only [bind, Except.bind, Except.map, and_255, and_16777215, shr_8]
    generalize w % 16777216 = c
    generalize hh : c / 256 % 256 = H
    generalize hl : c % 256 = L
    unfold class_by_bytes
    match L with
    | 0 => cases is_esrank c <;> rfl
    | 1 =>
      match H with
      | 0 => rfl
      | 1 => rfl
      | 2 => rfl
      | 3 => rfl
      | n + 4 => simp; rfl
    | 2 => rfl
    | 3 =>
      by_cases h2 : H = 2
      · subst h2; rfl
      · simp [h2]; rfl
    | 4 => rfl
    | n + 5 => simp; rfl

/-! ## Code aliasing before the table lookup -/

theorem shl_or (a b k : Nat) (h : b < 2 ^ k) : (a <<< k) ||| b = a * 2 ^ k + b := by
  rw [Nat.shiftLeft_eq, Nat.mul_comm, ← Nat.mul_add_lt_is_or h]

theorem revt_u16_eq (a : Nat) : revt_u16 a = (a % 256) * 256 + a / 256 % 256 := by
  unfold revt_u16
  have h : a >>> 8 % 256 < 2 ^ 8 := by omega
  simp only []
  rw [shl_or _ _ 8 h, shr_8]
  omega

theorem revt_u32_eq (a : Nat) :
    revt_u32 a = revt_u16 (a % 65536) * 65536 + revt_u16 (a / 65536 % 65536) := by
  unfold revt_u32
  have h : revt_u16 (a >>> 16 % 65536) < 2 ^ 16 := by
    rw [revt_u16_eq]; omega
  have h2 : revt_u16 (a % 65536) < 65536 := by
    rw [revt_u16_eq]; omega
  simp only []
  rw [shl_or _ _ 16 h, shr_16]
  rw [shr_16] at h
  omega

theorem is_esrank_eq (c : Nat) : is_esrank c = specialized_tier c := by
  unfold is_esrank specialized_tier
  simp only [and_255, shr_8]
  rw [Bool.eq_iff_iff]
  simp only [Bool.or_eq_true, Bool.and_eq_true, decide_eq_true_eq]
  omega

theorem revt_u32_shr_8 (c : Nat) (h : c < 16777216) :
    revt_u32 c >>> 8 = reverse_three_bytes c := by
  rw [revt_u32_eq, revt_u16_eq, revt_u16_eq, shr_8]
  unfold reverse_three_bytes
  have e1 : c % 65536 % 256 = c % 256 := by omega
  have e2 : c % 65536 / 256 % 256 = c / 256 % 256 := by omega
  have e3 : c / 65536 % 65536 % 256 = c / 65536 := by omega
  have e4 : c / 65536 % 65536 / 256 % 256 = 0 := by omega
  have e5 : c / 65536 % 256 = c / 65536 := by omega
  rw [e1, e2, e3, e4, e5]
  generalize c % 256 = b0
  generalize c / 256 % 256 = b1
  generalize c / 65536 = b2
  omega

theorem prepare_code_little (code : Nat) (h : code < 16777216) :
    prepare_code k_little_endian code = aliased_key code := by
  unfold prepare_code aliased_key
  simp only [is_esrank_eq, process_endian_u32, get_machine_endianness, and_65535,
    Bool.or_eq_true, decide_eq_true_eq, reduceCtorEq, if_false]
  by_cases hm : specialized_tier code = true ∨ code % 256 = 2
  · have hm2 : code % 256 = 2 ∨ specialized_tier code = true := hm.symm
    rw [if_pos hm, if_pos hm2]
    exact revt_u32_shr_8 _ (by omega)
  · have hm2 : ¬ (code % 256 = 2 ∨ specialized_tier code = true) := fun h => hm h.symm
    rw [if_neg hm, if_neg hm2]
    exact revt_u32_shr_8 _ h

theorem reverse_three_bytes_div (c : Nat) : reverse_three_bytes c / 65536 = c % 256 := by
  unfold reverse_three_bytes
  have h0 : c % 256 < 256 := Nat.mod_lt _ (by decide)
  have h1 : c / 256 % 256 < 256 := Nat.mod_lt _ (by decide)
  have h2 : c / 65536 % 256 < 256 := Nat.mod_lt _ (by decide)
  generalize c % 256 = b0 at h0 ⊢
  generalize c / 256 % 256 = b1 at h1 ⊢
  generalize c / 65536 % 256 = b2 at h2 ⊢
  omega

/-- Claim C4. On the little-endian host, `prepare_code` turns a 24-bit code into
the key of the specification: the code is masked to 16 bits when its low byte is
0x02 or it is of the specialized tier (which is what `is_esrank` tests), it is
left whole otherwise, and its three bytes are then reversed, so that the class
byte is the most significant byte of the key. Both lookups use this key. -/
theorem prepare_code_aliases (code : Nat) (h : code < 16777216) :
    is_esrank code = specialized_tier code ∧
    prepare_code k_little_endian code =
      reverse_three_bytes
        (if code % 256 = 0x02 ∨ is_esrank code = true then code % 65536 else code) ∧
    prepare_code k_little_endian code / 65536 = code % 256 ∧
    (∀ env : Extern, get_item_info k_little_endian env code =
      (env.m_info_map (aliased_key code)).getD {}) ∧
    (∀ env : Extern, get_defense_item_info k_little_endian env code =
      (env.m_def_map (aliased_key code)).getD {}) := by
  have hkey := prepare_code_little code h
  refine ⟨is_esrank_eq code, ?_, ?_, ?_, ?_⟩
  · rw [hkey, is_esrank_eq]; rfl
  · rw [hkey]
    unfold aliased_key
    rw [reverse_three_bytes_div]
    split <;> omega
  · intro env
    unfold get_item_info
    simp only [hkey]
    cases env.m_info_map (aliased_key code) <;> rfl
  · intro env
    unfold get_defense_item_info
    simp only [hkey]
    cases env.m_def_map (aliased_key code) <;> rfl

/-- A mag code with third byte 0x55 is looked up under the key of the plain mag
code 0x024D00, and the sample table answers with its entry. -/
theorem prepare_code_aliases_witness :
    (0x554D02 : Nat) < 16777216 ∧
    prepare_code k_little_endian 0x554D02 = 0x024D00 ∧
    (get_item_info k_little_endian sample_extern 0x554D02).rarity = Rarity.rare :=
  ⟨by decide,
    (prepare_code_aliases 0x554D02 (by decide)).2.1.trans (by decide),
    by rw [(prepare_code_aliases 0x554D02 (by decide)).2.2.2.1 sample_extern]; rfl⟩

/-! ## Weapon flags and special code -/

/-- Claim C5. For a freshly constructed weapon whose special byte `b` has a valid
code in its low six bits, the loader stores the code `b mod 64` and the flags of
the ladder: wrapped and untekked above 0xBF, untekked only in 0x80..0xBF, wrapped
only in 0x40..0x7F, tekked and unwrapped below. -/
theorem weapon_flag_ladder (memory : MemoryReader) (grindaddr specaddr : Address) (b g : Nat)
    (hspec : memory.read_u8 specaddr = Except.ok b)
    (hgrind : memory.read_u8 grindaddr = Except.ok g) (hb : b % 64 ≤ 40) :
    WeaponBase.load_grind_and_special {} grindaddr specaddr memory =
      Except.ok { grind := (g : Int), special := ⟨b % 64⟩,
                  wrapped := (flag_ladder b).1, tekked := (flag_ladder b).2 } := by
  have hcode : ¬ (b % 64 > WeaponSpecial.demons.code) := by
    simp only [WeaponSpecial.demons]; omega
  simp only [WeaponBase.load_grind_and_special, hspec, hgrind, to_weapon_special, hcode,
    bind, Except.bind, pure, Except.pure, if_false]
  unfold flag_ladder
  by_cases h1 : b > 0xBF
  · simp [h1]
  · by_cases h2 : b > 0x7F
    · have h3 : 0x80 ≤ b ∧ b ≤ 0xBF := by omega
      simp [h1, h2, h3]
    · by_cases h4 : b > 0x3F
      · have h5 : ¬ (0x80 ≤ b ∧ b ≤ 0xBF) := by omega
        have h6 : 0x40 ≤ b ∧ b ≤ 0x7F := by omega
        simp [h1, h2, h4, h5, h6]
      · have h5 : ¬ (0x80 ≤ b ∧ b ≤ 0xBF) := by omega
        have h6 : ¬ (0x40 ≤ b ∧ b ≤ 0x7F) := by omega
        simp [h1, h2, h4, h5, h6]

/-- The four cases of the specification, 0xC0, 0x80, 0x40 and 0x00, and a byte with
a special code: 0x41 is a wrapped, tekked weapon with special 1 (Draw). -/
theorem weapon_flag_ladder_witness :
    WeaponBase.load_grind_and_special {} 3 4 (special_byte_memory 0xC0) =
      Except.ok { grind := 9, special := ⟨0⟩, wrapped := true, tekked := false } ∧
    WeaponBase.load_grind_and_special {} 3 4 (special_byte_memory 0x80) =
      Except.ok { grind := 9, special := ⟨0⟩, wrapped := false, tekked := false } ∧
    WeaponBase.load_grind_and_special {} 3 4 (special_byte_memory 0x40) =
      Except.ok { grind := 9, special := ⟨0⟩, wrapped := true, tekked := true } ∧
    WeaponBase.load_grind_and_special {} 3 4 (special_byte_memory 0x00) =
      Except.ok { grind := 9, special := ⟨0⟩, wrapped := false, tekked := true } ∧
    WeaponBase.load_grind_and_special {} 3 4 (special_byte_memory 0x41) =
      Except.ok { grind := 9, special := WeaponSpecial.draw, wrapped := true, tekked := true } :=
  ⟨weapon_flag_ladder (special_byte_memory 0xC0) 3 4 0xC0 9 rfl rfl (by decide),
   weapon_flag_ladder (special_byte_memory 0x80) 3 4 0x80 9 rfl rfl (by decide),
   weapon_flag_ladder (special_byte_memory 0x40) 3 4 0x40 9 rfl rfl (by decide),
   weapon_flag_ladder (special_byte_memory 0x00) 3 4 0x00 9 rfl rfl (by decide),
   weapon_flag_ladder (special_byte_memory 0x41) 3 4 0x41 9 rfl rfl (by decide)⟩

/-- Claim C6. The special field of a weapon is rejected exactly when the code
`b mod 64` exceeds 40, the code of `demons`, the last of the 41 enumerators; any
other code is accepted and yields the enumerator at that position. The loader of
the weapon fails with it. -/
theorem weapon_special_rejected_iff (b : Nat) :
    WeaponSpecial.demons.code = 40 ∧ WeaponSpecial.enumerators.length = 41 ∧
    ((∃ e, to_weapon_special (b % 64) = Except.error e) ↔ b % 64 > 40) ∧
    (b % 64 ≤ 40 →
      to_weapon_special (b % 64) = Except.ok ⟨b % 64⟩ ∧
      WeaponSpecial.enumerators[b % 64]? = some ⟨b % 64⟩) ∧
    (∀ (self : WeaponBase) (memory : MemoryReader) (grindaddr specaddr : Address),
      memory.read_u8 specaddr = Except.ok b → b % 64 > 40 →
      self.load_grind_and_special grindaddr specaddr memory
        = Except.error Exn.invalid_argument) := by
  have henum : ∀ n, n ≤ 40 → WeaponSpecial.enumerators[n]? = some ⟨n⟩ := by decide
  refine ⟨rfl, rfl, ?_, ?_, ?_⟩
  · unfold to_weapon_special
    simp only [WeaponSpecial.demons]
    constructor
    · rintro ⟨e, he⟩
      by_contra hle
      rw [if_neg hle] at he
      cases he
    · intro hgt
      exact ⟨Exn.invalid_argument, by rw [if_pos hgt]; rfl⟩
  · intro hle
    refine ⟨?_, henum _ hle⟩
    unfold to_weapon_special
    simp only [WeaponSpecial.demons]
    rw [if_neg (by omega)]
    rfl
  · intro self memory grindaddr specaddr hspec hgt
    exact load_grind_and_special_rejects self memory grindaddr specaddr b hspec hgt

/-- The byte 0x29 of the second sample weapon has code 41 and is rejected, the
byte 0x28 has code 40 and is `demons`. -/
theorem weapon_special_rejected_iff_witness :
    (∃ e, to_weapon_special (0x29 % 64) = Except.error e) ∧
    to_weapon_special (0x28 % 64) = Except.ok WeaponSpecial.demons ∧
    WeaponBase.load_grind_and_special {} 3 4 (special_byte_memory 0x29)
      = Except.error Exn.invalid_argument :=
  ⟨(weapon_special_rejected_iff 0x29).2.2.1.mpr (by decide),
   ((weapon_special_rejected_iff 0x28).2.2.2.1 (by decide)).1,
   (weapon_special_rejected_iff 0x29).2.2.2.2 {} (special_byte_memory 0x29) 3 4 rfl
     (by decide)⟩

/-! ## Name of a weapon of the specialized tier -/

theorem or_64 (t : Nat) (h : t < 32) : t ||| 64 = t + 64 := by
  have h6 : t < 2 ^ 6 := by omega
  have e : 2 ^ 6 * 1 + t = 2 ^ 6 * 1 ||| t := Nat.mul_add_lt_is_or h6 1
  rw [show (2 : Nat) ^ 6 * 1 = 64 from rfl] at e
  rw [Nat.or_comm, ← e, Nat.add_comm]

theorem add_char_name_array (l : List Nat) (t : Nat) (hl : l.length ≤ 8) (ht : t < 32) :
    add_char (name_array l, l.length) t =
      (name_array (l ++ (group_letter t).toList), (l ++ (group_letter t).toList).length) := by
  unfold add_char group_letter
  have hA : 'A'.toNat = 65 := rfl
  have hZ : 'Z'.toNat = 90 := rfl
  simp only [hA, hZ, or_64 t ht]
  by_cases hg : 1 ≤ t ∧ t ≤ 26
  · have hg2 : t + 64 ≥ 65 ∧ t + 64 ≤ 90 := by omega
    rw [if_pos hg, if_pos hg2]
    simp only [Option.toList, List.length_append, List.length_singleton, Prod.mk.injEq,
      and_true]
    unfold name_array
    have hrep : 9 - l.length = (9 - (l.length + 1)) + 1 := by omega
    rw [hrep, List.replicate_succ, List.length_append, List.length_singleton]
    rw [List.set_append_right _ _ (Nat.le_refl _)]
    simp
    omega
  · have hg2 : ¬ (t + 64 ≥ 65 ∧ t + 64 ≤ 90) := by omega
    rw [if_neg hg, if_neg hg2]
    simp [Option.toList]

theorem foldl_add_char (ts : List Nat) :
    ∀ l : List Nat, (∀ t ∈ ts, t < 32) → l.length + ts.length ≤ 9 →
      ts.foldl add_char (name_array l, l.length) =
        (name_array (l ++ ts.filterMap group_letter), (l ++ ts.filterMap group_letter).length) := by
  induction ts with
  | nil => intro l _ _; simp
  | cons t rest ih =>
    intro l hts hlen
    simp only [List.length_cons] at hlen
    have ht : t < 32 := hts t (List.mem_cons_self _ _)
    rw [List.foldl_cons, add_char_name_array l t (by omega) ht]
    have hlen2 : (l ++ (group_letter t).toList).length + rest.length ≤ 9 := by
      rw [List.length_append]
      have : (group_letter t).toList.length ≤ 1 := by
        cases group_letter t <;> simp [Option.toList]
      omega
    rw [ih _ (fun x hx => hts x (List.mem_cons_of_mem _ hx)) hlen2]
    have : l ++ (group_letter t).toList ++ List.filterMap group_letter rest
        = l ++ List.filterMap group_letter (t :: rest) := by
      cases hgt : group_letter t <;> simp [Option.toList, List.filterMap_cons, hgt]
    rw [this]

theorem swap_u16 (w : Nat) (h : w < 65536) :
    (((w &&& 0xFF) <<< 8) ||| (w >>> 8)) % 65536 = (w % 256) * 256 + w / 256 := by
  have h8 : w >>> 8 < 2 ^ 8 := by rw [shr_8]; omega
  rw [and_255, shl_or _ _ 8 h8, shr_8]
  omega

theorem shr_5 (x : Nat) : x >>> 5 = x / 32 := Nat.shiftRight_eq_div_pow x 5

theorem shr_10 (x : Nat) : x >>> 10 = x / 1024 := Nat.shiftRight_eq_div_pow x 10

theorem buffer_byte_lt (buf : List Nat) (i : Nat) : buffer_byte buf i < 256 :=
  Nat.mod_lt _ (by decide)

theorem object_value_le_2 (buf : List Nat) :
    object_value k_little_endian 2 buf = buffer_byte buf 0 + 256 * buffer_byte buf 1 := by
  have h0 := buffer_byte_lt buf 0
  have h1 := buffer_byte_lt buf 1
  simp only [object_value, List.range, List.range.loop, List.map, le_value]
  omega

theorem buffer_byte_drop (buf : List Nat) (k i : Nat) :
    buffer_byte (buf.drop k) i = buffer_byte buf (k + i) := by
  simp [buffer_byte, List.getD_eq_getElem?_getD, List.getElem?_drop]

theorem parse_esrank_name_round_first (st : List Nat × Nat) (lo hi : Nat) :
    parse_esrank_name_round (st, true) (lo % 256 + 256 * (hi % 256)) =
      (((five_bit_groups (swapped_word (lo % 256) (hi % 256))).drop 1).foldl add_char st,
        false) := by
  have hw : lo % 256 + 256 * (hi % 256) < 65536 := by omega
  simp only [parse_esrank_name_round, swap_u16 _ hw]
  simp only [swapped_word, five_bit_groups, and_31, shr_5, shr_10, Bool.not_true,
    List.drop_succ_cons, List.drop_zero, List.foldl_cons, List.foldl_nil]
  rfl

theorem parse_esrank_name_round_next (st : List Nat × Nat) (lo hi : Nat) :
    parse_esrank_name_round (st, false) (lo % 256 + 256 * (hi % 256)) =
      ((five_bit_groups (swapped_word (lo % 256) (hi % 256))).foldl add_char st, false) := by
  have hw : lo % 256 + 256 * (hi % 256) < 65536 := by omega
  simp only [parse_esrank_name_round, swap_u16 _ hw]
  simp only [swapped_word, five_bit_groups, and_31, shr_5, shr_10, Bool.not_false,
    List.foldl_cons, List.foldl_nil]
  rfl

theorem five_bit_groups_lt (w t : Nat) (h : t ∈ five_bit_groups w) : t < 32 := by
  simp only [five_bit_groups, List.mem_cons, List.mem_singleton, List.not_mem_nil,
    or_false] at h
  omega

theorem group_letter_ne_zero (letters : List Nat) (gs : List Nat)
    (h : letters = gs.filterMap group_letter) : ∀ c ∈ letters, c ≠ 0 := by
  subst h
  intro c hc
  rw [List.mem_filterMap] at hc
  obtain ⟨g, _, hg⟩ := hc
  unfold group_letter at hg
  split at hg
  · have hA : 'A'.toNat = 65 := rfl
    rw [hA] at hg
    cases hg
    omega
  · cases hg

theorem takeWhile_append_zeros (letters : List Nat) (k : Nat) (h : ∀ c ∈ letters, c ≠ 0) :
    (letters ++ List.replicate k 0).takeWhile (fun c => decide (c ≠ 0)) = letters := by
  induction letters with
  | nil =>
    cases k with
    | zero => rfl
    | succ n => simp [List.replicate_succ, List.takeWhile_cons]
  | cons x xs ih =>
    have hx : x ≠ 0 := h x (List.mem_cons_self _ _)
    have hxs : ∀ c ∈ xs, c ≠ 0 := fun c hc => h c (List.mem_cons_of_mem _ hc)
    have ih2 := ih hxs
    simp only [ne_eq, decide_not] at ih2
    simp [List.takeWhile_cons, hx, ih2]

theorem parse_esrank_name_eq (memory : MemoryReader) (addr : Address) (buf : List Nat)
    (hread : memory.read addr 6 = Except.ok buf) :
    parse_esrank_name k_little_endian addr memory = Except.ok (name_array (esrank_letters buf)) := by
  simp only [parse_esrank_name, hread, bind, Except.bind, pure, Except.pure, List.foldl_cons,
    List.foldl_nil, object_value_le_2, buffer_byte_drop]
  unfold buffer_byte
  rw [parse_esrank_name_round_first, parse_esrank_name_round_next,
    parse_esrank_name_round_next, ← List.foldl_append, ← List.foldl_append]
  have hinit : (([0, 0, 0, 0, 0, 0, 0, 0, 0] : List Nat), 0) = (name_array [], ([] : List Nat).length) := rfl
  rw [hinit, foldl_add_char]
  · rfl
  · intro t ht
    simp only [List.mem_append] at ht
    rcases ht with ht | ht | ht
    · exact five_bit_groups_lt _ t (List.mem_of_mem_drop ht)
    · exact five_bit_groups_lt _ t ht
    · exact five_bit_groups_lt _ t ht
  · simp [five_bit_groups]

theorem esrank_letters_length (buf : List Nat) : (esrank_letters buf).length ≤ 8 := by
  unfold esrank_letters
  refine Nat.le_trans (List.length_filterMap_le _ _) ?_
  simp [five_bit_groups]

/-- Claim C7. On the little-endian host, for any six bytes read, `parse_esrank_name`
returns the array that holds the letters of the specification followed by zeros:
the 5-bit groups of the three byte-swapped words in order, the very first group
skipped, each group from 1 to 26 as its letter and every other group dropped. There
are at most eight letters and the zero-terminated name is their concatenation. -/
theorem parse_esrank_name_letters (memory : MemoryReader) (addr : Address) (buf : List Nat)
    (hread : memory.read addr 6 = Except.ok buf) :
    parse_esrank_name k_little_endian addr memory
      = Except.ok (esrank_letters buf ++ List.replicate (9 - (esrank_letters buf).length) 0) ∧
    (esrank_letters buf).length ≤ 8 ∧
    c_string (esrank_letters buf ++ List.replicate (9 - (esrank_letters buf).length) 0)
      = String.mk ((esrank_letters buf).map Char.ofNat) := by
  refine ⟨parse_esrank_name_eq memory addr buf hread, esrank_letters_length buf, ?_⟩
  have hne : ∀ c ∈ esrank_letters buf, c ≠ 0 :=
    group_letter_ne_zero (esrank_letters buf) _ rfl
  unfold c_string
  rw [takeWhile_append_zeros _ _ hne]

/-- The sample bytes 01 02 03 04 05 06 decode to the name HBXDAHF. -/
theorem parse_esrank_name_letters_witness :
    esrank_sample_memory.read 0 6 = Except.ok [0x01, 0x02, 0x03, 0x04, 0x05, 0x06] ∧
    parse_esrank_name k_little_endian 0 esrank_sample_memory
      = Except.ok ['H'.toNat, 'B'.toNat, 'X'.toNat, 'D'.toNat, 'A'.toNat, 'H'.toNat,
          'F'.toNat, 0, 0] ∧
    c_string ['H'.toNat, 'B'.toNat, 'X'.toNat, 'D'.toNat, 'A'.toNat, 'H'.toNat,
          'F'.toNat, 0, 0] = "HBXDAHF" :=
  ⟨rfl,
   (parse_esrank_name_letters esrank_sample_memory 0 [0x01, 0x02, 0x03, 0x04, 0x05, 0x06]
     rfl).1,
   by decide⟩

/-! ## Mag statistics -/

/-- Claim C8, as stated, fails. The second axis of the sample mag has the raw word
25600: the decode succeeds and stores level 0 and percentage 0, so the level is
not 25600 / 100 = 256 and level * 100 + percentage is not the word. -/
theorem mag_level_is_truncated :
    mag_sample_memory.read 4 8 = Except.ok [0x5E, 0x01, 0x00, 0x64, 0xFF, 0xFF, 0, 0] ∧
    raw_stat k_little_endian [0x5E, 0x01, 0x00, 0x64, 0xFF, 0xFF, 0, 0] 1 = 25600 ∧
    ∃ m, Mag.load_stats k_little_endian {} 4 mag_sample_memory = Except.ok m ∧
      m.levels[1]? = some 0 ∧ m.percentages[1]? = some 0 ∧
      m.levels[1]? ≠ some (25600 / 100) ∧ (0 : Nat) * 100 + 0 ≠ 25600 :=
  ⟨rfl, rfl, _, rfl, rfl, rfl, by decide, by decide⟩

/-- Claim C8, amended. `Mag::load_stats` succeeds when its read does and stores,
for each of the four raw words `w`, the level `(w / 100) mod 256` (the level is
an 8-bit value) and the percentage `w % 100`; when `w` is below 25600 the level
is `w / 100` and level * 100 + percentage = `w`. -/
theorem mag_stats_decode (host : EndiannessEnum) (self : Mag) (memory : MemoryReader)
    (addr : Address) (buf : List Nat) (hread : memory.read addr 8 = Except.ok buf) :
    Mag.load_stats host self addr memory = Except.ok { self with
      levels := [raw_stat host buf 0 / 100 % 256, raw_stat host buf 1 / 100 % 256,
        raw_stat host buf 2 / 100 % 256, raw_stat host buf 3 / 100 % 256],
      percentages := [raw_stat host buf 0 % 100, raw_stat host buf 1 % 100,
        raw_stat host buf 2 % 100, raw_stat host buf 3 % 100] } ∧
    ∀ k, raw_stat host buf k < 25600 →
      raw_stat host buf k / 100 % 256 = raw_stat host buf k / 100 ∧
      (raw_stat host buf k / 100 % 256) * 100 + raw_stat host buf k % 100
        = raw_stat host buf k := by
  constructor
  · have hmod : ∀ w : Nat, w % 100 % 256 = w % 100 := fun w => by omega
    simp only [Mag.load_stats, hread, bind, Except.bind, pure, Except.pure, List.map, hmod,
      raw_stat]
    rfl
  · intro k hk
    omega

/-- The first axis of the sample mag has the raw word 350: level 3, percentage 50. -/
theorem mag_stats_decode_witness :
    mag_sample_memory.read 4 8 = Except.ok [0x5E, 0x01, 0x00, 0x64, 0xFF, 0xFF, 0, 0] ∧
    raw_stat k_little_endian [0x5E, 0x01, 0x00, 0x64, 0xFF, 0xFF, 0, 0] 0 = 350 ∧
    (∃ m, Mag.load_stats k_little_endian {} 4 mag_sample_memory = Except.ok m ∧
      m.levels[0]? = some 3 ∧ m.percentages[0]? = some 50) ∧
    (3 : Nat) * 100 + 50 = 350 :=
  ⟨rfl, rfl,
   ⟨_, (mag_stats_decode k_little_endian {} mag_sample_memory 4
      [0x5E, 0x01, 0x00, 0x64, 0xFF, 0xFF, 0, 0] rfl).1, rfl, rfl⟩,
   rfl⟩

/-! ## Tool quantity -/

theorem xor_mod_two_pow (a b n : Nat) : (a ^^^ b) % 2 ^ n = (a % 2 ^ n) ^^^ (b % 2 ^ n) := by
  apply Nat.eq_of_testBit_eq
  intro i
  simp only [Nat.testBit_mod_two_pow, Nat.testBit_xor]
  by_cases h : i < n <;> simp [h]

theorem to_int32_mod (x : Nat) : to_int32 (x % 4294967296) = to_int32 x := by
  unfold to_int32
  rw [Nat.mod_mod]

theorem to_int32_int32_bits (q : Int) (h1 : -2147483648 ≤ q) (h2 : q < 2147483648) :
    to_int32 (int32_bits q) = q := by
  unfold to_int32 int32_bits
  split <;> omega

theorem xor_round_trip (p A : Nat) (hp : p < 4294967296) :
    ((p ^^^ A) % 4294967296 ^^^ A) % 4294967296 = p := by
  have e := xor_mod_two_pow ((p ^^^ A) % 2 ^ 32) A 32
  have e2 := xor_mod_two_pow p A 32
  rw [show (2 : Nat) ^ 32 = 4294967296 from rfl] at e e2
  rw [e, Nat.mod_mod, e2, Nat.xor_assoc, Nat.xor_self, Nat.xor_zero]
  exact Nat.mod_eq_of_lt hp

/-- Claim C9. For a live-layout tool at a 32-bit address `a`, the quantity is the
32-bit value read at `a + 0x104` combined by exclusive or with that address, kept
as an `int`; so when the source holds there the pattern of an `int` `q` combined
with the address, the quantity decoded is `q`. In the bank layout the quantity
is the byte at `a + 20` as it is. -/
theorem tool_quantity_xor (host : EndiannessEnum) (memory : MemoryReader) (a : Nat)
    (ha : a < 4294967296) :
    (∀ count, memory.read_u32 host (a + 0x104) = Except.ok count →
      Tool.load_from_ host {} a memory
        = Except.ok { quantity := to_int32 (count ^^^ (a + 0x104)) }) ∧
    (∀ q : Int, -2147483648 ≤ q → q < 2147483648 →
      memory.read_u32 host (a + 0x104)
        = Except.ok ((int32_bits q ^^^ (a + 0x104)) % 4294967296) →
      Tool.load_from_ host {} a memory = Except.ok { quantity := q }) ∧
    (∀ b, memory.read_u8 (a + 20) = Except.ok b →
      Tool.load_from_bank_ {} a memory = Except.ok { quantity := (b : Int) }) := by
  have haddr : addr_add a Tool.k_count_offset = a + 0x104 :=
    Nat.mod_eq_of_lt (by unfold Tool.k_count_offset; omega)
  have haddr20 : addr_add a 20 = a + 20 := Nat.mod_eq_of_lt (by omega)
  have hlive : ∀ count, memory.read_u32 host (a + 0x104) = Except.ok count →
      Tool.load_from_ host {} a memory
        = Except.ok { quantity := to_int32 (count ^^^ (a + 0x104)) } := by
    intro count hcount
    simp only [Tool.load_from_, haddr, hcount, bind, Except.bind, pure, Except.pure]
  refine ⟨hlive, ?_, ?_⟩
  · intro q h1 h2 hstore
    rw [hlive _ hstore, ← to_int32_mod]
    have hp : int32_bits q < 4294967296 := by
      unfold int32_bits
      omega
    rw [xor_round_trip _ _ hp, to_int32_int32_bits q h1 h2]
  · intro b hb
    simp only [Tool.load_from_bank_, haddr20, hb, bind, Except.bind, pure, Except.pure]

/-- The sample tool at 0x1000 holds 0x1107 at 0x1104 and decodes to quantity 3;
the bank-layout tool at 0x2000 holds the byte 5 and decodes to quantity 5. -/
theorem tool_quantity_xor_witness :
    (0x1000 : Nat) < 4294967296 ∧ (0x2000 : Nat) < 4294967296 ∧
    tool_sample_memory.read_u32 k_little_endian (0x1000 + 0x104)
      = Except.ok ((int32_bits 3 ^^^ (0x1000 + 0x104)) % 4294967296) ∧
    Tool.load_from_ k_little_endian {} 0x1000 tool_sample_memory
      = Except.ok { quantity := 3 } ∧
    Tool.load_from_bank_ {} 0x2000 tool_sample_memory = Except.ok { quantity := 5 } :=
  ⟨by decide, by decide, rfl,
   (tool_quantity_xor k_little_endian tool_sample_memory 0x1000 (by decide)).2.1 3
     (by decide) (by decide) rfl,
   (tool_quantity_xor k_little_endian tool_sample_memory 0x2000 (by decide)).2.2 5 rfl⟩

/-! ## Level of a technique disk -/

/-- Claim C10, as stated, fails. The sample disk has 0xFF in bits 16-23 of its
code word; the pass over it succeeds and yields a Resta disk of level 256, which
is not between 1 and 30. -/
theorem tech_level_exceeds_30 :
    tech_sample_memory.read_u32 k_little_endian (0x1000 + 0xF2) = Except.ok 0x00FF0203 ∧
    ∃ t : Tech,
      load_inventory k_little_endian sample_extern tech_sample_memory [0x1000]
        = Except.ok [{
            fullcode := 0xFF0203, name := "Resta",
            derived := ItemClass.Tech t }] ∧
      t.level = 256 ∧ ¬ (1 ≤ t.level ∧ t.level ≤ 30) :=
  ⟨rfl, { type := TechType.resta, level := 256 }, rfl, rfl, by decide⟩

/-- Claim C10, amended. For every successfully decoded technique disk the level
is bits 16-23 of the word read plus one, which lies between 1 and 256; it is at
most 30 exactly when those bits are at most 29. -/
theorem tech_level_range (host : EndiannessEnum) (self : Tech) (memory : MemoryReader)
    (leveladdr typeaddr : Address) (r : Tech × String)
    (hok : self.load_level_and_type host memory leveladdr typeaddr = Except.ok r) :
    ∃ w, memory.read_u32 host leveladdr = Except.ok w ∧
      r.1.level = ((w / 65536 % 256 + 1 : Nat) : Int) ∧
      1 ≤ r.1.level ∧ r.1.level ≤ 256 ∧
      (r.1.level ≤ 30 ↔ w / 65536 % 256 ≤ 29) := by
  unfold Tech.load_level_and_type at hok
  cases hw : memory.read_u32 host leveladdr with
  | error e => simp [hw, bind, Except.bind] at hok
  | ok w =>
    refine ⟨w, rfl, ?_⟩
    simp only [hw, bind, Except.bind] at hok
    cases hc : memory.read_u8 typeaddr with
    | error e => simp [hc] at hok
    | ok code =>
      simp only [hc] at hok
      cases ht : get_tech_type (code : Int) with
      | error e => simp [ht] at hok
      | ok t =>
        simp only [ht, pure, Except.pure, Except.ok.injEq] at hok
        subst hok
        simp only [and_255, shr_16]
        have hlevel : to_int32 (w / 65536 % 256 + 1) = ((w / 65536 % 256 + 1 : Nat) : Int) := by
          unfold to_int32
          split <;> omega
        rw [hlevel]
        omega

/-- The sample disk: the decode succeeds, bits 16-23 are 255 and the level is 256. -/
theorem tech_level_range_witness :
    Tech.load_level_and_type k_little_endian {} tech_sample_memory (0x1000 + 0xF2)
      (0x1000 + 0x108) = Except.ok ({ type := TechType.resta, level := 256 }, "Resta") ∧
    (∃ w, tech_sample_memory.read_u32 k_little_endian (0x1000 + 0xF2) = Except.ok w ∧
      (256 : Int) = ((w / 65536 % 256 + 1 : Nat) : Int)) :=
  ⟨rfl,
   (tech_level_range k_little_endian {} tech_sample_memory (0x1000 + 0xF2) (0x1000 + 0x108)
      ({ type := TechType.resta, level := 256 }, "Resta") rfl).imp
      (fun _ h => ⟨h.1, h.2.1⟩)⟩

/-! ## Spell kind of a technique disk -/

theorem get_tech_type_ok_range (c : Int) (t : TechType) (h : get_tech_type c = Except.ok t) :
    0 ≤ c ∧ c ≤ 0x12 := by
  unfold get_tech_type at h
  split at h <;> first | (constructor <;> decide) | cases h

theorem get_tech_type_ok_code (c : Int) (t : TechType) (h : get_tech_type c = Except.ok t) :
    c = tech_code t := by
  unfold get_tech_type at h
  split at h <;> first | (cases h; rfl) | cases h

theorem get_tech_type_error (c : Int) (e : Exn) (h : get_tech_type c = Except.error e) :
    e = Exn.runtime_error := by
  unfold get_tech_type at h
  split at h <;> cases h
  rfl

/-- Claim C11, as stated, fails. `get_tech_type` accepts 19 byte values, not 18:
every code from 0x00 to 0x12, the last one being Megid. -/
theorem tech_codes_are_not_18 :
    accepted_tech_codes.length = 19 ∧ accepted_tech_codes.length ≠ 18 ∧
    accepted_tech_codes = List.range 19 ∧
    get_tech_type 0x12 = Except.ok TechType.megid :=
  ⟨by decide, by decide, by decide, rfl⟩

/-- Claim C11, amended. Of the 256 byte values `get_tech_type` accepts exactly the
19 values from 0x00 to 0x12 and throws for every other one; no two accepted
values give the same spell kind. -/
theorem get_tech_type_accepts (b : Nat) (hb : b < 256) :
    ((∃ t, get_tech_type (b : Int) = Except.ok t) ↔ b ≤ 0x12) ∧
    (0x12 < b → get_tech_type (b : Int) = Except.error Exn.runtime_error) ∧
    (∀ (b2 : Nat) (t : TechType), get_tech_type (b : Int) = Except.ok t →
      get_tech_type (b2 : Int) = Except.ok t → b = b2) ∧
    accepted_tech_codes.length = 19 := by
  refine ⟨?_, ?_, ?_, by decide⟩
  · constructor
    · rintro ⟨t, ht⟩
      have := (get_tech_type_ok_range _ t ht).2
      omega
    · intro hle
      have hle2 : b ≤ 18 := hle
      interval_cases b <;> exact ⟨_, rfl⟩
  · intro hgt
    cases hr : get_tech_type (b : Int) with
    | ok t =>
      have := (get_tech_type_ok_range _ t hr).2
      omega
    | error e => rw [get_tech_type_error _ e hr]
  · intro b2 t h1 h2
    have e1 := get_tech_type_ok_code _ t h1
    have e2 := get_tech_type_ok_code _ t h2
    omega

/-- The byte 0x0F is accepted as Resta and the byte 0x13 is refused. -/
theorem get_tech_type_accepts_witness :
    (0x0F : Nat) < 256 ∧ (∃ t, get_tech_type ((0x0F : Nat) : Int) = Except.ok t) ∧
    get_tech_type ((0x13 : Nat) : Int) = Except.error Exn.runtime_error :=
  ⟨by decide, (get_tech_type_accepts 0x0F (by decide)).1.mpr (by decide),
   (get_tech_type_accepts 0x13 (by decide)).2.1 (by decide)⟩

/-! ## Refresh of the held and dropped items -/

theorem push_rawptrs_eq (f : Nat → Nat) :
    ∀ (n : Nat) (acc : AddressList),
      push_rawptrs f n acc = acc ++ ((List.range n).map f).reverse := by
  intro n
  induction n with
  | zero => intro acc; simp [push_rawptrs]
  | succ n ih =>
    intro acc
    rw [push_rawptrs, ih, List.range_succ, List.map_append, List.reverse_append]
    simp

theorem owner_loop_ok (memory : MemoryReader) (owner_id : Int) :
    ∀ (rest visited : AddressList),
      (∀ a ∈ rest, ∃ id, memory.read_i8 (addr_add a k_item_owner_offset) = Except.ok id) →
      owner_loop memory owner_id visited rest =
        (visited ++ rest.map (fun a => if owner_is memory a owner_id = true then a else 0),
          Option.none) := by
  intro rest
  induction rest with
  | nil => intro visited _; simp [owner_loop]
  | cons a rest ih =>
    intro visited hall
    obtain ⟨id, hid⟩ := hall a (List.mem_cons_self _ _)
    have hrest := ih (visited ++ [if id ≠ owner_id then k_no_address else a])
      (fun x hx => hall x (List.mem_cons_of_mem _ hx))
    simp only [owner_loop, hid, hrest]
    have howner : owner_is memory a owner_id = decide (id = owner_id) := by
      simp only [owner_is, hid]
    by_cases h : id = owner_id
    · simp [howner, h]
    · simp [howner, h, k_no_address]

theorem clean_map_eq_filter (p : Nat → Bool) :
    ∀ l : List Nat, clean (l.map (fun a => if p a = true then a else 0)) =
      l.filter (fun a => decide (a ≠ 0) && p a) := by
  intro l
  induction l with
  | nil => rfl
  | cons a l ih =>
    unfold clean at ih ⊢
    simp only [k_no_address, ne_eq, decide_not] at ih ⊢
    by_cases hp : p a = true
    · by_cases ha : a = 0
      · simp [hp, ha, ih]
      · simp [hp, ha, ih]
    · simp [hp, ih]

theorem update_item_list_for_owner_eq (host : EndiannessEnum) (memory : MemoryReader)
    (prior : AddressList) (owner_id : Int) (count arr : Nat) (buf : List Nat)
    (hcount : memory.read_u8 k_item_array_size = Except.ok count) (hne : count ≠ 0)
    (harr : memory.read_u32 host k_item_ptr_to_array = Except.ok arr)
    (hbuf : memory.read arr (count * 4) = Except.ok buf)
    (howner : ∀ a ∈ raw_pointers host buf count,
      ∃ id, memory.read_i8 (addr_add a k_item_owner_offset) = Except.ok id) :
    update_item_list_for_owner host memory prior owner_id =
      ((raw_pointers host buf count).reverse.filter
        (fun a => decide (a ≠ 0) && owner_is memory a owner_id), Option.none) := by
  have hall : ∀ a ∈ ((List.range count).map (rawptrs_at host buf)).reverse,
      ∃ id, memory.read_i8 (addr_add a k_item_owner_offset) = Except.ok id := by
    intro a ha
    exact howner a (List.mem_reverse.mp ha)
  simp only [update_item_list_for_owner, hcount, hne, harr, hbuf, if_false, clear,
    push_rawptrs_eq, List.nil_append, owner_loop_ok memory owner_id _ [] hall,
    clean_map_eq_filter]
  rfl

theorem update_item_list_for_owner_zero (host : EndiannessEnum) (memory : MemoryReader)
    (prior : AddressList) (owner_id : Int)
    (hcount : memory.read_u8 k_item_array_size = Except.ok 0) :
    update_item_list_for_owner host memory prior owner_id = ([], Option.none) := by
  simp [update_item_list_for_owner, hcount, clear]
/-- Claim C12. When its reads succeed, `update_inventory_pointers` discards the
previous list and yields the first `count` entries of the raw pointer array in
reverse order, keeping those that are not null and whose owner byte, as a signed
value, equals the player index read at 0x00A9C4F4, as an `int`. With a count of 0
the list is empty and neither the array pointer nor the array is read. -/
theorem update_inventory_pointers_keeps_owned (host : EndiannessEnum) (memory : MemoryReader)
    (prior : AddressList) (player count : Nat)
    (hplayer : memory.read_u32 host k_player_index = Except.ok player)
    (hcount : memory.read_u8 k_item_array_size = Except.ok count) :
    (k_player_index = 0x00A9C4F4 ∧ k_item_array_size = 0x00A8D820 ∧
      k_item_ptr_to_array = 0x00A8D81C ∧ k_item_owner_offset = 0xE4) ∧
    (count = 0 → update_inventory_pointers host memory prior = ([], Option.none)) ∧
    (∀ (arr : Nat) (buf : List Nat), count ≠ 0 →
      memory.read_u32 host k_item_ptr_to_array = Except.ok arr →
      memory.read arr (count * 4) = Except.ok buf →
      (∀ a ∈ raw_pointers host buf count,
        ∃ id, memory.read_i8 (addr_add a k_item_owner_offset) = Except.ok id) →
      update_inventory_pointers host memory prior =
        ((raw_pointers host buf count).reverse.filter
          (fun a => decide (a ≠ 0) && owner_is memory a (to_int32 player)), Option.none)) := by
  refine ⟨⟨rfl, rfl, rfl, rfl⟩, ?_, ?_⟩
  · intro hzero
    subst hzero
    simp only [update_inventory_pointers, hplayer]
    exact update_item_list_for_owner_zero host memory prior _ hcount
  · intro arr buf hne harr hbuf howner
    simp only [update_inventory_pointers, hplayer]
    exact update_item_list_for_owner_eq host memory prior _ count arr buf hcount hne harr hbuf
      howner

/-- The sample memory: of the raw pointers 0x1000, 0, 0x2000, 0x1800 the list keeps
those of player 1, last entry first, whatever it held before. -/
theorem update_inventory_pointers_keeps_owned_witness :
    inventory_sample_memory.read_u32 k_little_endian k_player_index = Except.ok 1 ∧
    inventory_sample_memory.read_u8 k_item_array_size = Except.ok 4 ∧
    raw_pointers k_little_endian
      [0, 0x10, 0, 0, 0, 0, 0, 0, 0, 0x20, 0, 0, 0, 0x18, 0, 0] 4 = [0x1000, 0, 0x2000, 0x1800] ∧
    update_inventory_pointers k_little_endian inventory_sample_memory [0x7777]
      = ([0x1800, 0x1000], Option.none) :=
  ⟨rfl, rfl, rfl,
   ((update_inventory_pointers_keeps_owned k_little_endian inventory_sample_memory [0x7777] 1 4
      rfl rfl).2.2 0x3000 [0, 0x10, 0, 0, 0, 0, 0, 0, 0, 0x20, 0, 0, 0, 0x18, 0, 0]
      (by decide) rfl rfl
      (fun a ha => by
        have h : a ∈ [0x1000, 0, 0x2000, 0x1800] := ha
        simp only [List.mem_cons, List.mem_singleton, List.not_mem_nil, or_false] at h
        rcases h with rfl | rfl | rfl | rfl <;> exact ⟨_, rfl⟩)).trans rfl⟩

theorem read_u8_lt (memory : MemoryReader) (a b : Nat)
    (h : memory.read_u8 a = Except.ok b) : b < 256 := by
  unfold MemoryReader.read_u8 at h
  cases hr : memory.read a 1 with
  | error e => simp [hr, bind, Except.bind] at h
  | ok buf =>
    simp only [hr, bind, Except.bind, pure, Except.pure, Except.ok.injEq] at h
    subst h
    exact Nat.mod_lt _ (by decide)

theorem owner_is_unowned (memory : MemoryReader) (a : Nat) :
    owner_is memory a (-1) = true ↔
      memory.read_u8 (addr_add a k_item_owner_offset) = Except.ok 0xFF := by
  unfold owner_is MemoryReader.read_i8 MemoryReader.read_u8
  cases hr : memory.read (addr_add a k_item_owner_offset) 1 with
  | error e => simp [bind, Except.bind]
  | ok buf =>
    have hlt : buffer_byte buf 0 < 256 := Nat.mod_lt _ (by decide)
    simp only [bind, Except.bind, pure, Except.pure, decide_eq_true_eq, Except.ok.injEq]
    unfold to_int8
    split <;> omega

/-- Claim C13. When its reads succeed, `update_floor_pointers` yields the first
`count` entries of the raw pointer array in reverse order, keeping an entry
exactly when it is not null and its owner byte is 0xFF, the unowned sentinel -1.
The player index is not read and plays no part. -/
theorem update_floor_pointers_keeps_unowned (host : EndiannessEnum) (memory : MemoryReader)
    (prior : AddressList) (count arr : Nat) (buf : List Nat)
    (hcount : memory.read_u8 k_item_array_size = Except.ok count) (hne : count ≠ 0)
    (harr : memory.read_u32 host k_item_ptr_to_array = Except.ok arr)
    (hbuf : memory.read arr (count * 4) = Except.ok buf)
    (howner : ∀ a ∈ raw_pointers host buf count,
      ∃ id, memory.read_i8 (addr_add a k_item_owner_offset) = Except.ok id) :
    k_no_owner = -1 ∧
    update_floor_pointers host memory prior =
      ((raw_pointers host buf count).reverse.filter
        (fun a => decide (a ≠ 0) && owner_is memory a (-1)), Option.none) ∧
    (∀ a, a ∈ (update_floor_pointers host memory prior).1 ↔
      (a ∈ raw_pointers host buf count ∧ a ≠ 0 ∧
        memory.read_u8 (addr_add a k_item_owner_offset) = Except.ok 0xFF)) := by
  have heq : update_floor_pointers host memory prior =
      ((raw_pointers host buf count).reverse.filter
        (fun a => decide (a ≠ 0) && owner_is memory a (-1)), Option.none) :=
    update_item_list_for_owner_eq host memory prior _ count arr buf hcount hne harr hbuf howner
  refine ⟨rfl, heq, ?_⟩
  intro a
  rw [heq]
  simp only [List.mem_filter, List.mem_reverse, Bool.and_eq_true, decide_eq_true_eq,
    owner_is_unowned]

/-- The sample memory: of the raw pointers 0x1000, 0, 0x2000, 0x1800 only 0x2000 has
the owner byte 0xFF; the records of player 1 and the null entry are dropped. -/
theorem update_floor_pointers_keeps_unowned_witness :
    inventory_sample_memory.read_u8 (addr_add 0x2000 k_item_owner_offset) = Except.ok 0xFF ∧
    inventory_sample_memory.read_u8 (addr_add 0x1000 k_item_owner_offset) = Except.ok 1 ∧
    update_floor_pointers k_little_endian inventory_sample_memory [0x7777]
      = ([0x2000], Option.none) :=
  ⟨rfl, rfl,
   ((update_floor_pointers_keeps_unowned k_little_endian inventory_sample_memory [0x7777] 4
      0x3000 [0, 0x10, 0, 0, 0, 0, 0, 0, 0, 0x20, 0, 0, 0, 0x18, 0, 0]
      rfl (by decide) rfl rfl
      (fun a ha => by
        have h : a ∈ [0x1000, 0, 0x2000, 0x1800] := ha
        simp only [List.mem_cons, List.mem_singleton, List.not_mem_nil, or_false] at h
        rcases h with rfl | rfl | rfl | rfl <;> exact ⟨_, rfl⟩)).2.1).trans rfl⟩

/-! ## Refresh of the stored items -/

theorem bank_push_loop_eq (bank_ptr : Nat) :
    ∀ (n i : Nat) (acc : AddressList),
      bank_push_loop bank_ptr n i acc =
        acc ++ (List.range n).map (fun k => (bank_ptr + 8 + 24 * (i + k)) % 4294967296) := by
  intro n
  induction n with
  | zero => intro i acc; simp [bank_push_loop]
  | succ n ih =>
    intro i acc
    rw [bank_push_loop, ih, List.range_succ_eq_map, List.map_cons, List.map_map,
      List.append_assoc]
    congr 1
    simp only [List.singleton_append, Nat.add_zero, List.cons.injEq, true_and]
    apply List.map_congr_left
    intro k _
    simp only [Function.comp]
    congr 2
    omega

theorem load_bank_ptr_eq (host : EndiannessEnum) (memory : MemoryReader) (w : Nat)
    (hw : memory.read_u32 host k_bank_ptr_addr = Except.ok w) :
    load_bank_ptr host memory =
      Except.ok (if w % 2147483648 = 0 then 0 else w % 2147483648 + 0x21C) := by
  have hand : w &&& 0x7FFFFFFF = w % 2147483648 := Nat.and_pow_two_sub_one_eq_mod w 31
  simp only [load_bank_ptr, hw, bind, Except.bind, hand, pure, Except.pure]
  by_cases hz : w % 2147483648 = 0
  · simp [hz]
  · have hlt : (w % 2147483648 + 0x21C) % 4294967296 = w % 2147483648 + 0x21C :=
      Nat.mod_eq_of_lt (by omega)
    simp [hz, hlt]

theorem update_bank_pointers_eq (host : EndiannessEnum) (memory : MemoryReader)
    (prior : AddressList) (w count : Nat)
    (hw : memory.read_u32 host k_bank_ptr_addr = Except.ok w) (hnz : w % 2147483648 ≠ 0)
    (hcount : memory.read_u8 (w % 2147483648 + 0x21C) = Except.ok count) :
    update_bank_pointers host memory prior =
      ((List.range count).map (fun i => w % 2147483648 + 0x21C + 8 + 24 * i), Option.none) := by
  have hlt := read_u8_lt memory _ count hcount
  have hbase : w % 2147483648 + 0x21C ≠ 0 := by omega
  have hmap : (List.range count).map
        (fun k => (w % 2147483648 + 0x21C + 8 + 24 * (0 + k)) % 4294967296)
      = (List.range count).map (fun i => w % 2147483648 + 0x21C + 8 + 24 * i) := by
    apply List.map_congr_left
    intro k hk
    have hk2 : k < count := List.mem_range.mp hk
    rw [Nat.zero_add]
    exact Nat.mod_eq_of_lt (by omega)
  simp only [update_bank_pointers, load_bank_ptr_eq host memory w hw, hnz, if_false, hbase,
    hcount, clear, bank_push_loop_eq, List.nil_append, hmap]
  congr 1
  unfold clean
  rw [List.filter_eq_self]
  intro a ha
  obtain ⟨i, _, rfl⟩ := List.mem_map.mp ha
  simp only [k_no_address, decide_eq_true_eq]
  have hpos : 0 < w % 2147483648 + 0x21C + 8 + 24 * i := by omega
  exact Nat.ne_of_gt hpos

/-- Claim C14. With a base pointer that is not zero, `update_bank_pointers`
replaces the list by `count` addresses, where base is the word at 0x00A95DF8
without its top bit plus 0x21C and `count` the byte at base: address `i` is
base + 8 + 24 * i, so the addresses ascend. -/
theorem update_bank_pointers_lists_slots (host : EndiannessEnum) (memory : MemoryReader)
    (prior : AddressList) (w count : Nat)
    (hw : memory.read_u32 host 0x00A95DF8 = Except.ok w) (hnz : w % 2147483648 ≠ 0)
    (hcount : memory.read_u8 (w % 2147483648 + 0x21C) = Except.ok count) :
    w &&& 0x7FFFFFFF = w % 2147483648 ∧
    update_bank_pointers host memory prior =
      ((List.range count).map (fun i => w % 2147483648 + 0x21C + 8 + 24 * i), Option.none) ∧
    (update_bank_pointers host memory prior).1.length = count ∧
    (∀ i, i < count →
      (update_bank_pointers host memory prior).1[i]? = some (w % 2147483648 + 0x21C + 8 + 24 * i)) ∧
    (update_bank_pointers host memory prior).1.Pairwise (fun a b => a < b) := by
  have heq := update_bank_pointers_eq host memory prior w count hw hnz hcount
  refine ⟨Nat.and_pow_two_sub_one_eq_mod w 31, heq, ?_, ?_, ?_⟩
  · rw [heq]; simp
  · intro i hi
    rw [heq]
    simp [hi]
  · rw [heq]
    simp only []
    rw [List.pairwise_map]
    refine List.Pairwise.imp ?_ (List.pairwise_lt_range count)
    intro a b hab
    have hlt : w % 2147483648 + 0x21C + 8 + 24 * a < w % 2147483648 + 0x21C + 8 + 24 * b := by
      omega
    exact hlt

/-- The sample bank: the word 0x80002000 gives the base 0x221C, the count there is
3, and the three slots are 0x2224, 0x223C and 0x2254, whatever the list held. -/
theorem update_bank_pointers_lists_slots_witness :
    bank_sample_memory.read_u32 k_little_endian 0x00A95DF8 = Except.ok 0x80002000 ∧
    (0x80002000 : Nat) % 2147483648 ≠ 0 ∧
    bank_sample_memory.read_u8 (0x80002000 % 2147483648 + 0x21C) = Except.ok 3 ∧
    update_bank_pointers k_little_endian bank_sample_memory [0x7777]
      = ([0x2224, 0x223C, 0x2254], Option.none) :=
  ⟨rfl, by decide, rfl,
   (update_bank_pointers_lists_slots k_little_endian bank_sample_memory [0x7777] 0x80002000 3
      rfl (by decide) rfl).2.1.trans rfl⟩

theorem load_gen_loop_length (loadf : LoadItemFunc) (host : EndiannessEnum)
    (memory : MemoryReader) (fullcode_offset : Address) :
    ∀ (addresses : AddressList) (rv items : ItemList),
      load_gen_loop loadf host memory fullcode_offset addresses rv = Except.ok items →
      items.length = rv.length + addresses.length := by
  intro addresses
  induction addresses with
  | nil =>
    intro rv items h
    simp only [load_gen_loop, pure, Except.pure, Except.ok.injEq] at h
    subst h
    rfl
  | cons a rest ih =>
    intro rv items h
    cases hbody : load_gen_body loadf host memory fullcode_offset a with
    | error e => simp [load_gen_loop, hbody, bind, Except.bind] at h
    | ok item =>
      simp only [load_gen_loop, hbody, bind, Except.bind] at h
      rw [ih (rv ++ [item]) items h]
      simp only [List.length_append, List.length_cons, List.length_nil]
      omega

/-- Claim C17, as stated, fails. The raw pointer array of the sample memory holds
the address 0x1000 twice; the refresh of the held items lists it twice and the
decode pass over that list decodes the record at 0x1000 twice. -/
theorem held_list_repeats_address :
    update_inventory_pointers k_little_endian duplicate_pointer_memory []
      = ([0x1000, 0x1000], Option.none) ∧
    ¬ ([0x1000, 0x1000] : AddressList).Nodup ∧
    ∃ item, load_inventory k_little_endian sample_extern duplicate_pointer_memory
      [0x1000, 0x1000] = Except.ok [item, item] :=
  ⟨rfl, by decide, _, rfl⟩

/-- Claim C17, amended. The list of the stored items built from a base pointer that
is not zero has pairwise distinct entries. The lists of the held and of the dropped
items repeat an address as often as the kept entries of the raw pointer array do:
they are pairwise distinct exactly when those entries are. The decode pass yields
one record for each entry of the list it is given. -/
theorem refreshed_lists_distinct (host : EndiannessEnum) (memory : MemoryReader)
    (prior : AddressList) :
    (∀ w count, memory.read_u32 host k_bank_ptr_addr = Except.ok w → w % 2147483648 ≠ 0 →
      memory.read_u8 (w % 2147483648 + 0x21C) = Except.ok count →
      (update_bank_pointers host memory prior).1.Nodup) ∧
    (∀ (count arr : Nat) (buf : List Nat),
      memory.read_u8 k_item_array_size = Except.ok count → count ≠ 0 →
      memory.read_u32 host k_item_ptr_to_array = Except.ok arr →
      memory.read arr (count * 4) = Except.ok buf →
      (∀ a ∈ raw_pointers host buf count,
        ∃ id, memory.read_i8 (addr_add a k_item_owner_offset) = Except.ok id) →
      (∀ player, memory.read_u32 host k_player_index = Except.ok player →
        ((update_inventory_pointers host memory prior).1.Nodup ↔
          ((raw_pointers host buf count).filter
            (fun a => decide (a ≠ 0) && owner_is memory a (to_int32 player))).Nodup)) ∧
      ((update_floor_pointers host memory prior).1.Nodup ↔
        ((raw_pointers host buf count).filter
          (fun a => decide (a ≠ 0) && owner_is memory a (-1))).Nodup)) ∧
    (∀ (env : Extern) (addresses : AddressList) (items : ItemList),
      (load_inventory host env memory addresses = Except.ok items →
        items.length = addresses.length) ∧
      (load_floor host env memory addresses = Except.ok items →
        items.length = addresses.length)) := by
  refine ⟨?_, ?_, ?_⟩
  · intro w count hw hnz hcount
    rw [update_bank_pointers_eq host memory prior w count hw hnz hcount]
    apply List.Nodup.map_on _ (List.nodup_range count)
    intro x _ y _ hxy
    have hxy2 : w % 2147483648 + 0x21C + 8 + 24 * x = w % 2147483648 + 0x21C + 8 + 24 * y := hxy
    omega
  · intro count arr buf hcount hne harr hbuf howner
    constructor
    · intro player hplayer
      simp only [update_inventory_pointers, hplayer]
      rw [update_item_list_for_owner_eq host memory prior _ count arr buf hcount hne harr hbuf
        howner, List.filter_reverse]
      exact List.nodup_reverse
    · unfold update_floor_pointers
      rw [update_item_list_for_owner_eq host memory prior _ count arr buf hcount hne harr hbuf
        howner, List.filter_reverse]
      exact List.nodup_reverse
  · intro env addresses items
    constructor
    · intro h
      have := load_gen_loop_length _ host memory _ addresses [] items h
      simpa using this
    · intro h
      have := load_gen_loop_length _ host memory _ addresses [] items h
      simpa using this

/-- The sample memories: the three slots of the sample bank are distinct, and the
held list of the sample inventory is distinct as its kept raw pointers are. -/
theorem refreshed_lists_distinct_witness :
    (update_bank_pointers k_little_endian bank_sample_memory [0x7777]).1.Nodup ∧
    ((update_inventory_pointers k_little_endian inventory_sample_memory [0x7777]).1.Nodup ↔
      ([0x1000, 0x1800] : List Nat).Nodup) :=
  ⟨(refreshed_lists_distinct k_little_endian bank_sample_memory [0x7777]).1 0x80002000 3
      rfl (by decide) rfl,
   ((refreshed_lists_distinct k_little_endian inventory_sample_memory [0x7777]).2.1 4 0x3000
      [0, 0x10, 0, 0, 0, 0, 0, 0, 0, 0x20, 0, 0, 0, 0x18, 0, 0] rfl (by decide) rfl rfl
      (fun a ha => by
        have h : a ∈ [0x1000, 0, 0x2000, 0x1800] := ha
        simp only [List.mem_cons, List.mem_singleton, List.not_mem_nil, or_false] at h
        rcases h with rfl | rfl | rfl | rfl <;> exact ⟨_, rfl⟩)).1 1 rfl⟩

/-! ## Endianness correction -/

theorem shr_32 (x : Nat) : x >>> 32 = x / 4294967296 := Nat.shiftRight_eq_div_pow x 32

theorem and_4294967295 (x : Nat) : x &&& 4294967295 = x % 4294967296 :=
  Nat.and_pow_two_sub_one_eq_mod x 32

theorem revt_u16_lt (a : Nat) : revt_u16 a < 65536 := by
  rw [revt_u16_eq]; omega

theorem revt_u32_lt (a : Nat) : revt_u32 a < 4294967296 := by
  rw [revt_u32_eq]
  have h1 := revt_u16_lt (a % 65536)
  have h2 := revt_u16_lt (a / 65536 % 65536)
  omega

theorem revt_u64_eq (a : Nat) :
    revt_u64 a =
      revt_u32 (a % 4294967296) * 4294967296 + revt_u32 (a / 4294967296 % 4294967296) := by
  unfold revt_u64
  have h : revt_u32 (a >>> 32 % 4294967296) < 2 ^ 32 := revt_u32_lt _
  have h2 : revt_u32 (a % 4294967296) < 4294967296 := revt_u32_lt _
  simp only [and_4294967295]
  rw [shl_or _ _ 32 h, shr_32]
  rw [shr_32] at h
  omega

theorem revt_u16_bytes (b0 b1 : Nat) (h0 : b0 < 256) (h1 : b1 < 256) :
    revt_u16 (b0 + 256 * b1) = b1 + 256 * b0 := by
  rw [revt_u16_eq]
  omega

theorem revt_u32_bytes (b0 b1 b2 b3 : Nat) (h0 : b0 < 256) (h1 : b1 < 256) (h2 : b2 < 256)
    (h3 : b3 < 256) :
    revt_u32 (b0 + 256 * b1 + 65536 * b2 + 16777216 * b3)
      = b3 + 256 * b2 + 65536 * b1 + 16777216 * b0 := by
  rw [revt_u32_eq]
  have e1 : (b0 + 256 * b1 + 65536 * b2 + 16777216 * b3) % 65536 = b0 + 256 * b1 := by omega
  have e2 : (b0 + 256 * b1 + 65536 * b2 + 16777216 * b3) / 65536 % 65536 = b2 + 256 * b3 := by
    omega
  rw [e1, e2, revt_u16_bytes b0 b1 h0 h1, revt_u16_bytes b2 b3 h2 h3]
  omega

theorem revt_u64_bytes (b0 b1 b2 b3 b4 b5 b6 b7 : Nat) (h0 : b0 < 256) (h1 : b1 < 256)
    (h2 : b2 < 256) (h3 : b3 < 256) (h4 : b4 < 256) (h5 : b5 < 256) (h6 : b6 < 256)
    (h7 : b7 < 256) :
    revt_u64 (b0 + 256 * b1 + 65536 * b2 + 16777216 * b3 + 4294967296 * b4
        + 1099511627776 * b5 + 281474976710656 * b6 + 72057594037927936 * b7)
      = b7 + 256 * b6 + 65536 * b5 + 16777216 * b4 + 4294967296 * b3
        + 1099511627776 * b2 + 281474976710656 * b1 + 72057594037927936 * b0 := by
  rw [revt_u64_eq]
  have e1 : (b0 + 256 * b1 + 65536 * b2 + 16777216 * b3 + 4294967296 * b4
        + 1099511627776 * b5 + 281474976710656 * b6 + 72057594037927936 * b7) % 4294967296
      = b0 + 256 * b1 + 65536 * b2 + 16777216 * b3 := by omega
  have e2 : (b0 + 256 * b1 + 65536 * b2 + 16777216 * b3 + 4294967296 * b4
        + 1099511627776 * b5 + 281474976710656 * b6 + 72057594037927936 * b7) / 4294967296
        % 4294967296
      = b4 + 256 * b5 + 65536 * b6 + 16777216 * b7 := by omega
  rw [e1, e2, revt_u32_bytes b0 b1 b2 b3 h0 h1 h2 h3, revt_u32_bytes b4 b5 b6 b7 h4 h5 h6 h7]
  omega

theorem bytes_u16 (x : Nat) (h : x < 65536) : x = x % 256 + 256 * (x / 256 % 256) := by
  omega

theorem bytes_u32 (x : Nat) (h : x < 4294967296) :
    x = x % 256 + 256 * (x / 256 % 256) + 65536 * (x / 65536 % 256)
      + 16777216 * (x / 16777216 % 256) := by
  omega

theorem bytes_u64 (x : Nat) (h : x < 18446744073709551616) :
    x = x % 256 + 256 * (x / 256 % 256) + 65536 * (x / 65536 % 256)
      + 16777216 * (x / 16777216 % 256) + 4294967296 * (x / 4294967296 % 256)
      + 1099511627776 * (x / 1099511627776 % 256)
      + 281474976710656 * (x / 281474976710656 % 256)
      + 72057594037927936 * (x / 72057594037927936 % 256) := by
  omega

theorem revt_u16_involutive (x : Nat) (h : x < 65536) : revt_u16 (revt_u16 x) = x := by
  have hm0 : x % 256 < 256 := Nat.mod_lt _ (by decide)
  have hm1 : x / 256 % 256 < 256 := Nat.mod_lt _ (by decide)
  have key := revt_u16_bytes (x / 256 % 256) (x % 256) hm1 hm0
  rw [← revt_u16_bytes (x % 256) (x / 256 % 256) hm0 hm1, ← bytes_u16 x h] at key
  exact key

theorem revt_u32_involutive (x : Nat) (h : x < 4294967296) : revt_u32 (revt_u32 x) = x := by
  have hm0 : x % 256 < 256 := Nat.mod_lt _ (by decide)
  have hm1 : x / 256 % 256 < 256 := Nat.mod_lt _ (by decide)
  have hm2 : x / 65536 % 256 < 256 := Nat.mod_lt _ (by decide)
  have hm3 : x / 16777216 % 256 < 256 := Nat.mod_lt _ (by decide)
  have key := revt_u32_bytes _ _ _ _ hm3 hm2 hm1 hm0
  rw [← revt_u32_bytes _ _ _ _ hm0 hm1 hm2 hm3, ← bytes_u32 x h] at key
  exact key

theorem revt_u64_involutive (x : Nat) (h : x < 18446744073709551616) :
    revt_u64 (revt_u64 x) = x := by
  have hm0 : x % 256 < 256 := Nat.mod_lt _ (by decide)
  have hm1 : x / 256 % 256 < 256 := Nat.mod_lt _ (by decide)
  have hm2 : x / 65536 % 256 < 256 := Nat.mod_lt _ (by decide)
  have hm3 : x / 16777216 % 256 < 256 := Nat.mod_lt _ (by decide)
  have hm4 : x / 4294967296 % 256 < 256 := Nat.mod_lt _ (by decide)
  have hm5 : x / 1099511627776 % 256 < 256 := Nat.mod_lt _ (by decide)
  have hm6 : x / 281474976710656 % 256 < 256 := Nat.mod_lt _ (by decide)
  have hm7 : x / 72057594037927936 % 256 < 256 := Nat.mod_lt _ (by decide)
  have key := revt_u64_bytes _ _ _ _ _ _ _ _ hm7 hm6 hm5 hm4 hm3 hm2 hm1 hm0
  rw [← revt_u64_bytes _ _ _ _ _ _ _ _ hm0 hm1 hm2 hm3 hm4 hm5 hm6 hm7, ← bytes_u64 x h] at key
  exact key

/-- Claim C18. For each width and each endianness tag `e`, applying
`process_endian_u16`, `process_endian_u32` or `process_endian_u64` with `e` twice
to a value of that width returns the value. -/
theorem process_endian_twice (host e : EndiannessEnum) (x : Nat) :
    (x < 65536 →
      process_endian_u16 host (process_endian_u16 host x e) e = x) ∧
    (x < 4294967296 →
      process_endian_u32 host (process_endian_u32 host x e) e = x) ∧
    (x < 18446744073709551616 →
      process_endian_u64 host (process_endian_u64 host x e) e = x) := by
  unfold process_endian_u16 process_endian_u32 process_endian_u64
  by_cases he : e = get_machine_endianness host
  · simp [he]
  · simp only [he, if_false]
    exact ⟨revt_u16_involutive x, revt_u32_involutive x, revt_u64_involutive x⟩

/-- On a little-endian host the value 0x12345678, corrected twice for big-endian
data, is back where it was, and so are a 16-bit and a 64-bit value. -/
theorem process_endian_twice_witness :
    process_endian_u32 k_little_endian (process_endian_u32 k_little_endian 0x12345678
      k_big_endian) k_big_endian = 0x12345678 ∧
    process_endian_u16 k_little_endian (process_endian_u16 k_little_endian 0x1234
      k_big_endian) k_big_endian = 0x1234 ∧
    process_endian_u64 k_big_endian (process_endian_u64 k_big_endian 0x0123456789ABCDEF
      k_little_endian) k_little_endian = 0x0123456789ABCDEF :=
  ⟨(process_endian_twice k_little_endian k_big_endian 0x12345678).2.1 (by decide),
   (process_endian_twice k_little_endian k_big_endian 0x1234).1 (by decide),
   (process_endian_twice k_big_endian k_little_endian 0x0123456789ABCDEF).2.2 (by decide)⟩
theorem byte_at_bytes_u16 (b0 b1 : Nat) (h0 : b0 < 256) (h1 : b1 < 256) :
    byte_at (b0 + 256 * b1) 0 = b0 ∧ byte_at (b0 + 256 * b1) 1 = b1 := by
  unfold byte_at
  norm_num
  constructor <;> omega

theorem byte_at_bytes_u32 (b0 b1 b2 b3 : Nat) (h0 : b0 < 256) (h1 : b1 < 256) (h2 : b2 < 256)
    (h3 : b3 < 256) :
    byte_at (b0 + 256 * b1 + 65536 * b2 + 16777216 * b3) 0 = b0 ∧
    byte_at (b0 + 256 * b1 + 65536 * b2 + 16777216 * b3) 1 = b1 ∧
    byte_at (b0 + 256 * b1 + 65536 * b2 + 16777216 * b3) 2 = b2 ∧
    byte_at (b0 + 256 * b1 + 65536 * b2 + 16777216 * b3) 3 = b3 := by
  unfold byte_at
  norm_num
  refine ⟨?_, ?_, ?_, ?_⟩ <;> omega

theorem byte_at_bytes_u64 (b0 b1 b2 b3 b4 b5 b6 b7 : Nat) (h0 : b0 < 256) (h1 : b1 < 256)
    (h2 : b2 < 256) (h3 : b3 < 256) (h4 : b4 < 256) (h5 : b5 < 256) (h6 : b6 < 256)
    (h7 : b7 < 256) :
    byte_at (b0 + 256 * b1 + 65536 * b2 + 16777216 * b3 + 4294967296 * b4
        + 1099511627776 * b5 + 281474976710656 * b6 + 72057594037927936 * b7) 0 = b0 ∧
    byte_at (b0 + 256 * b1 + 65536 * b2 + 16777216 * b3 + 4294967296 * b4
        + 1099511627776 * b5 + 281474976710656 * b6 + 72057594037927936 * b7) 1 = b1 ∧
    byte_at (b0 + 256 * b1 + 65536 * b2 + 16777216 * b3 + 4294967296 * b4
        + 1099511627776 * b5 + 281474976710656 * b6 + 72057594037927936 * b7) 2 = b2 ∧
    byte_at (b0 + 256 * b1 + 65536 * b2 + 16777216 * b3 + 4294967296 * b4
        + 1099511627776 * b5 + 281474976710656 * b6 + 72057594037927936 * b7) 3 = b3 ∧
    byte_at (b0 + 256 * b1 + 65536 * b2 + 16777216 * b3 + 4294967296 * b4
        + 1099511627776 * b5 + 281474976710656 * b6 + 72057594037927936 * b7) 4 = b4 ∧
    byte_at (b0 + 256 * b1 + 65536 * b2 + 16777216 * b3 + 4294967296 * b4
        + 1099511627776 * b5 + 281474976710656 * b6 + 72057594037927936 * b7) 5 = b5 ∧
    byte_at (b0 + 256 * b1 + 65536 * b2 + 16777216 * b3 + 4294967296 * b4
        + 1099511627776 * b5 + 281474976710656 * b6 + 72057594037927936 * b7) 6 = b6 ∧
    byte_at (b0 + 256 * b1 + 65536 * b2 + 16777216 * b3 + 4294967296 * b4
        + 1099511627776 * b5 + 281474976710656 * b6 + 72057594037927936 * b7) 7 = b7 := by
  unfold byte_at
  norm_num
  refine ⟨?_, ?_, ?_, ?_, ?_, ?_, ?_, ?_⟩ <;> omega

theorem revt_u16_byte_at (x : Nat) (h : x < 65536) :
    ∀ i, i < 2 → byte_at (revt_u16 x) i = byte_at x (1 - i) := by
  have hm0 : x % 256 < 256 := Nat.mod_lt _ (by decide)
  have hm1 : x / 256 % 256 < 256 := Nat.mod_lt _ (by decide)
  have hx := byte_at_bytes_u16 _ _ hm0 hm1
  have hr := byte_at_bytes_u16 _ _ hm1 hm0
  rw [← revt_u16_bytes _ _ hm0 hm1] at hr
  rw [← bytes_u16 x h] at hx hr
  intro i hi
  interval_cases i <;> simp [hx, hr]

theorem revt_u32_byte_at (x : Nat) (h : x < 4294967296) :
    ∀ i, i < 4 → byte_at (revt_u32 x) i = byte_at x (3 - i) := by
  have hm0 : x % 256 < 256 := Nat.mod_lt _ (by decide)
  have hm1 : x / 256 % 256 < 256 := Nat.mod_lt _ (by decide)
  have hm2 : x / 65536 % 256 < 256 := Nat.mod_lt _ (by decide)
  have hm3 : x / 16777216 % 256 < 256 := Nat.mod_lt _ (by decide)
  have hx := byte_at_bytes_u32 _ _ _ _ hm0 hm1 hm2 hm3
  have hr := byte_at_bytes_u32 _ _ _ _ hm3 hm2 hm1 hm0
  rw [← revt_u32_bytes _ _ _ _ hm0 hm1 hm2 hm3] at hr
  rw [← bytes_u32 x h] at hx hr
  intro i hi
  interval_cases i <;> simp [hx, hr]

theorem revt_u64_byte_at (x : Nat) (h : x < 18446744073709551616) :
    ∀ i, i < 8 → byte_at (revt_u64 x) i = byte_at x (7 - i) := by
  have hm0 : x % 256 < 256 := Nat.mod_lt _ (by decide)
  have hm1 : x / 256 % 256 < 256 := Nat.mod_lt _ (by decide)
  have hm2 : x / 65536 % 256 < 256 := Nat.mod_lt _ (by decide)
  have hm3 : x / 16777216 % 256 < 256 := Nat.mod_lt _ (by decide)
  have hm4 : x / 4294967296 % 256 < 256 := Nat.mod_lt _ (by decide)
  have hm5 : x / 1099511627776 % 256 < 256 := Nat.mod_lt _ (by decide)
  have hm6 : x / 281474976710656 % 256 < 256 := Nat.mod_lt _ (by decide)
  have hm7 : x / 72057594037927936 % 256 < 256 := Nat.mod_lt _ (by decide)
  have hx := byte_at_bytes_u64 _ _ _ _ _ _ _ _ hm0 hm1 hm2 hm3 hm4 hm5 hm6 hm7
  have hr := byte_at_bytes_u64 _ _ _ _ _ _ _ _ hm7 hm6 hm5 hm4 hm3 hm2 hm1 hm0
  rw [← revt_u64_bytes _ _ _ _ _ _ _ _ hm0 hm1 hm2 hm3 hm4 hm5 hm6 hm7] at hr
  rw [← bytes_u64 x h] at hx hr
  intro i hi
  interval_cases i <;> simp [hx, hr]

theorem revt_u64_lt (a : Nat) : revt_u64 a < 18446744073709551616 := by
  rw [revt_u64_eq]
  have h1 := revt_u32_lt (a % 4294967296)
  have h2 := revt_u32_lt (a / 4294967296 % 4294967296)
  omega

/-- Claim C19. `process_endian_u16`, `process_endian_u32` and `process_endian_u64`
return the value unchanged when the tag is the endianness of the host; otherwise
they return the value of the same width whose byte `i`, counted from the least
significant, is byte `n - 1 - i` of the argument, for `n` = 2, 4, 8 bytes. -/
theorem process_endian_reverses_bytes (host e : EndiannessEnum) (x : Nat) :
    (e = host →
      process_endian_u16 host x e = x ∧ process_endian_u32 host x e = x ∧
      process_endian_u64 host x e = x) ∧
    (e ≠ host →
      (x < 65536 →
        process_endian_u16 host x e < 65536 ∧
        ∀ i, i < 2 → byte_at (process_endian_u16 host x e) i = byte_at x (2 - 1 - i)) ∧
      (x < 4294967296 →
        process_endian_u32 host x e < 4294967296 ∧
        ∀ i, i < 4 → byte_at (process_endian_u32 host x e) i = byte_at x (4 - 1 - i)) ∧
      (x < 18446744073709551616 →
        process_endian_u64 host x e < 18446744073709551616 ∧
        ∀ i, i < 8 → byte_at (process_endian_u64 host x e) i = byte_at x (8 - 1 - i))) := by
  unfold process_endian_u16 process_endian_u32 process_endian_u64 get_machine_endianness
  constructor
  · intro he
    simp [he]
  · intro he
    simp only [he, if_false]
    exact ⟨fun h => ⟨revt_u16_lt x, revt_u16_byte_at x h⟩,
      fun h => ⟨revt_u32_lt x, revt_u32_byte_at x h⟩,
      fun h => ⟨revt_u64_lt x, revt_u64_byte_at x h⟩⟩

/-- On a little-endian host, correcting 0x12345678 for big-endian data gives
0x78563412 and correcting it for little-endian data leaves it as it is. -/
theorem process_endian_reverses_bytes_witness :
    process_endian_u32 k_little_endian 0x12345678 k_big_endian = 0x78563412 ∧
    process_endian_u32 k_little_endian 0x12345678 k_little_endian = 0x12345678 ∧
    byte_at (process_endian_u32 k_little_endian 0x12345678 k_big_endian) 0
      = byte_at 0x12345678 (4 - 1 - 0) ∧
    process_endian_u16 k_little_endian 0x1234 k_big_endian = 0x3412 ∧
    process_endian_u64 k_little_endian 0x0123456789ABCDEF k_big_endian
      = 0xEFCDAB8967452301 :=
  ⟨by decide,
   ((process_endian_reverses_bytes k_little_endian k_little_endian 0x12345678).1 rfl).2.1,
   (((process_endian_reverses_bytes k_little_endian k_big_endian 0x12345678).2
      (by decide)).2.1 (by decide)).2 0 (by decide),
   by decide, by decide⟩

/-! ## Typed reads -/

theorem object_value_big_2 (buf : List Nat) :
    object_value k_big_endian 2 buf = revt_u16 (little_endian_value 2 buf) := by
  have h0 := buffer_byte_lt buf 0
  have h1 := buffer_byte_lt buf 1
  have e : little_endian_value 2 buf = buffer_byte buf 0 + 256 * buffer_byte buf 1 := by
    simp only [little_endian_value, List.range, List.range.loop, List.map, le_value]
    omega
  rw [e, revt_u16_bytes _ _ h0 h1]
  simp only [object_value, List.range, List.range.loop, List.map, List.reverse_cons,
    List.reverse_nil, List.nil_append, List.cons_append, le_value]
  omega

theorem object_value_big_4 (buf : List Nat) :
    object_value k_big_endian 4 buf = revt_u32 (little_endian_value 4 buf) := by
  have h0 := buffer_byte_lt buf 0
  have h1 := buffer_byte_lt buf 1
  have h2 := buffer_byte_lt buf 2
  have h3 := buffer_byte_lt buf 3
  have e : little_endian_value 4 buf = buffer_byte buf 0 + 256 * buffer_byte buf 1
      + 65536 * buffer_byte buf 2 + 16777216 * buffer_byte buf 3 := by
    simp only [little_endian_value, List.range, List.range.loop, List.map, le_value]
    omega
  rw [e, revt_u32_bytes _ _ _ _ h0 h1 h2 h3]
  simp only [object_value, List.range, List.range.loop, List.map, List.reverse_cons,
    List.reverse_nil, List.nil_append, List.cons_append, le_value]
  omega

theorem object_value_big_8 (buf : List Nat) :
    object_value k_big_endian 8 buf = revt_u64 (little_endian_value 8 buf) := by
  have h0 := buffer_byte_lt buf 0
  have h1 := buffer_byte_lt buf 1
  have h2 := buffer_byte_lt buf 2
  have h3 := buffer_byte_lt buf 3
  have h4 := buffer_byte_lt buf 4
  have h5 := buffer_byte_lt buf 5
  have h6 := buffer_byte_lt buf 6
  have h7 := buffer_byte_lt buf 7
  have e : little_endian_value 8 buf = buffer_byte buf 0 + 256 * buffer_byte buf 1
      + 65536 * buffer_byte buf 2 + 16777216 * buffer_byte buf 3
      + 4294967296 * buffer_byte buf 4 + 1099511627776 * buffer_byte buf 5
      + 281474976710656 * buffer_byte buf 6 + 72057594037927936 * buffer_byte buf 7 := by
    simp only [little_endian_value, List.range, List.range.loop, List.map, le_value]
    omega
  rw [e, revt_u64_bytes _ _ _ _ _ _ _ _ h0 h1 h2 h3 h4 h5 h6 h7]
  simp only [object_value, List.range, List.range.loop, List.map, List.reverse_cons,
    List.reverse_nil, List.nil_append, List.cons_append, le_value]
  omega

/-- Claim C20, as stated, fails. The sample memory holds 78 56 34 12, the
little-endian encoding of 0x12345678; on a big-endian host `read_u32` returns
0x78563412, the bytes taken in the order of the host, with no reversal. -/
theorem read_u32_is_not_corrected :
    endian_sample_memory.read 0 4 = Except.ok [0x78, 0x56, 0x34, 0x12] ∧
    little_endian_value 4 [0x78, 0x56, 0x34, 0x12] = 0x12345678 ∧
    endian_sample_memory.read_u32 k_big_endian 0 = Except.ok 0x78563412 ∧
    endian_sample_memory.read_u32 k_big_endian 0 ≠ Except.ok 0x12345678 :=
  ⟨rfl, rfl, rfl, fun h => by cases h⟩

/-- Claim C20, amended. `read_u16`, `read_u32` and `read_u64` return the integer
that the byte order of the host gives to the 2, 4 or 8 bytes read, and apply no
correction: on a little-endian host it is the integer whose little-endian
encoding the bytes are, on a big-endian host it is the byte reversal of that
integer. -/
theorem typed_reads_use_host_order (memory : MemoryReader) (a : Address) (buf : List Nat) :
    (memory.read a 2 = Except.ok buf →
      memory.read_u16 k_little_endian a = Except.ok (little_endian_value 2 buf) ∧
      memory.read_u16 k_big_endian a = Except.ok (revt_u16 (little_endian_value 2 buf))) ∧
    (memory.read a 4 = Except.ok buf →
      memory.read_u32 k_little_endian a = Except.ok (little_endian_value 4 buf) ∧
      memory.read_u32 k_big_endian a = Except.ok (revt_u32 (little_endian_value 4 buf))) ∧
    (memory.read a 8 = Except.ok buf →
      memory.read_u64 k_little_endian a = Except.ok (little_endian_value 8 buf) ∧
      memory.read_u64 k_big_endian a = Except.ok (revt_u64 (little_endian_value 8 buf))) := by
  refine ⟨fun h => ⟨?_, ?_⟩, fun h => ⟨?_, ?_⟩, fun h => ⟨?_, ?_⟩⟩
  · simp only [MemoryReader.read_u16, MemoryReader.read_datum, h, bind, Except.bind, pure,
      Except.pure]
    rfl
  · simp only [MemoryReader.read_u16, MemoryReader.read_datum, h, bind, Except.bind, pure,
      Except.pure, object_value_big_2]
  · simp only [MemoryReader.read_u32, MemoryReader.read_datum, h, bind, Except.bind, pure,
      Except.pure]
    rfl
  · simp only [MemoryReader.read_u32, MemoryReader.read_datum, h, bind, Except.bind, pure,
      Except.pure, object_value_big_4]
  · simp only [MemoryReader.read_u64, MemoryReader.read_datum, h, bind, Except.bind, pure,
      Except.pure]
    rfl
  · simp only [MemoryReader.read_u64, MemoryReader.read_datum, h, bind, Except.bind, pure,
      Except.pure, object_value_big_8]

/-- The sample memory on a little-endian host: the eight bytes read as
0x89ABCDEF12345678, the first four as 0x12345678 and the first two as 0x5678. -/
theorem typed_reads_use_host_order_witness :
    endian_sample_memory.read_u32 k_little_endian 0 = Except.ok 0x12345678 ∧
    endian_sample_memory.read_u16 k_little_endian 0 = Except.ok 0x5678 ∧
    endian_sample_memory.read_u64 k_little_endian 0 = Except.ok 0x89ABCDEF12345678 ∧
    endian_sample_memory.read_u64 k_big_endian 0 = Except.ok 0x78563412EFCDAB89 :=
  ⟨((typed_reads_use_host_order endian_sample_memory 0 [0x78, 0x56, 0x34, 0x12]).2.1 rfl).1,
   ((typed_reads_use_host_order endian_sample_memory 0 [0x78, 0x56]).1 rfl).1,
   ((typed_reads_use_host_order endian_sample_memory 0
      [0x78, 0x56, 0x34, 0x12, 0xEF, 0xCD, 0xAB, 0x89]).2.2 rfl).1,
   ((typed_reads_use_host_order endian_sample_memory 0
      [0x78, 0x56, 0x34, 0x12, 0xEF, 0xCD, 0xAB, 0x89]).2.2 rfl).2⟩

/-! ## The static buffer backend -/

/-- When the count transferred differs from the length asked for, `read_memory_to`
throws `PermissionError` exactly when `errno` is `EPERM`, and throws at all
exactly when `errno` is one of the five error numbers of its `switch`. -/
theorem read_memory_to_short (sys : Int → Address → Nat → VmReadResult) (pid : Int)
    (addr : Address) (len : Nat)
    (h : ((sys pid addr len).ret % 18446744073709551616).toNat ≠ len) :
    (read_memory_to sys pid addr len = Except.error Exn.PermissionError ↔
      (sys pid addr len).errno = EPERM) ∧
    ((∃ e, read_memory_to sys pid addr len = Except.error e) ↔
      (sys pid addr len).errno ∈ [EINVAL, EFAULT, ENOMEM, EPERM, ESRCH]) := by
  unfold read_memory_to
  simp only [h, ne_eq, not_false_eq_true, if_true]
  by_cases h1 : (sys pid addr len).errno = EINVAL
  · simp [h1, throw, throwThe, MonadExceptOf.throw, EINVAL, EPERM]
  by_cases h2 : (sys pid addr len).errno = EFAULT
  · simp [h2, throw, throwThe, MonadExceptOf.throw, EINVAL, EPERM, EFAULT]
  by_cases h3 : (sys pid addr len).errno = ENOMEM
  · simp [h3, throw, throwThe, MonadExceptOf.throw, EINVAL, EPERM, EFAULT, ENOMEM]
  by_cases h4 : (sys pid addr len).errno = EPERM
  · simp [h4, throw, throwThe, MonadExceptOf.throw, EINVAL, EPERM, EFAULT, ENOMEM]
  by_cases h5 : (sys pid addr len).errno = ESRCH
  · simp [h5, throw, throwThe, MonadExceptOf.throw, EINVAL, EPERM, EFAULT, ENOMEM, ESRCH]
  simp [h1, h2, h3, h4, h5, pure, Except.pure]

/-- Claim C22. A call of `process_vm_readv` that transfers two of the four bytes
asked for and leaves `errno` at 0 is none of the cases of the `switch` in
`read_memory_to`: the function returns, with the buffer half filled, although
the count differs from the length. -/
theorem read_memory_to_accepts_partial_transfer :
    read_memory_to (fun _ _ _ => { ret := 2, errno := 0, buffer := [0x12, 0x34, 0, 0] }) 1000 0x1000 4
      = Except.ok [0x12, 0x34, 0, 0] := by
  rfl

/-! ## Return to the watcher on a failure -/

theorem handle_tick_refresh_fails (print_lines : ItemList → List String) (V : ViewMethods)
    (memory : MemoryReader) (delay_elapsed : Bool) (self : ItemReaderBaseState)
    (p : AddressList) (e : Exn) (h : V.load_addresses memory [] = (p, some e)) :
    (ItemReaderBaseState.handle_tick print_lines V memory delay_elapsed self).m_new_state
      = some AppStateClass.PsobbProcessWatcher := by
  unfold ItemReaderBaseState.handle_tick
  simp only [h]
  rfl

theorem handle_tick_decode_fails (print_lines : ItemList → List String) (V : ViewMethods)
    (memory : MemoryReader) (delay_elapsed : Bool) (self : ItemReaderBaseState)
    (p : AddressList) (e : Exn) (h : V.load_addresses memory [] = (p, Option.none))
    (hne : std_equal p
      (ItemReaderBaseState.tick_delay print_lines delay_elapsed self).m_old_pointers = false)
    (hi : V.load_items memory p = Except.error e) :
    (ItemReaderBaseState.handle_tick print_lines V memory delay_elapsed self).m_new_state
      = some AppStateClass.PsobbProcessWatcher := by
  unfold ItemReaderBaseState.handle_tick
  simp only [h, hne, hi]
  rfl

theorem update_item_list_refresh_fails (print_lines : ItemList → List String) (V : ViewMethods)
    (memory : MemoryReader) (self : ItemReaderBaseState)
    (p : AddressList) (e : Exn) (he : e ≠ Exn.PermissionError)
    (h : V.load_addresses memory [] = (p, some e)) :
    (ItemReaderBaseState.update_item_list print_lines V (some memory) self).1.m_new_state
      = some AppStateClass.PsobbProcessWatcher ∧
    (ItemReaderBaseState.update_item_list print_lines V (some memory) self).2 = Option.none := by
  unfold ItemReaderBaseState.update_item_list
  simp only [h, he, if_false]
  constructor <;> first | rfl | trivial

theorem update_item_list_decode_fails (print_lines : ItemList → List String) (V : ViewMethods)
    (memory : MemoryReader) (self : ItemReaderBaseState)
    (p : AddressList) (e : Exn) (he : e ≠ Exn.PermissionError)
    (h : V.load_addresses memory [] = (p, Option.none))
    (hi : V.load_items memory p = Except.error e) :
    (ItemReaderBaseState.update_item_list print_lines V (some memory) self).1.m_new_state
      = some AppStateClass.PsobbProcessWatcher ∧
    (ItemReaderBaseState.update_item_list print_lines V (some memory) self).2 = Option.none := by
  unfold ItemReaderBaseState.update_item_list
  simp only [h, hi, he, if_false]
  constructor <;> first | rfl | trivial

/-- Claim C23. Let a view of any of the three classes refresh its address list
or decode its records, and let that fail with an exception `e` other than
`PermissionError`. In `ItemReaderBaseState::handle_tick` (where decoding runs
when the list has changed) the new state of the view is the watcher; in
`update_item_list` the new state is the watcher and no exception leaves the
method. -/
theorem failure_returns_to_watcher (S : Surroundings) (c : ReaderStateClass)
    (memory : MemoryReader) (delay_elapsed : Bool) (self : ItemReaderBaseState) (e : Exn)
    (he : e ≠ Exn.PermissionError) :
    (∀ p, (view_methods S.host S.env c).load_addresses memory [] = (p, some e) →
      (ItemReaderBaseState.handle_tick S.print_lines (view_methods S.host S.env c) memory
          delay_elapsed self).m_new_state = some AppStateClass.PsobbProcessWatcher ∧
      (ItemReaderBaseState.update_item_list S.print_lines (view_methods S.host S.env c)
          (some memory) self).1.m_new_state = some AppStateClass.PsobbProcessWatcher ∧
      (ItemReaderBaseState.update_item_list S.print_lines (view_methods S.host S.env c)
          (some memory) self).2 = Option.none) ∧
    (∀ p, (view_methods S.host S.env c).load_addresses memory [] = (p, Option.none) →
      (view_methods S.host S.env c).load_items memory p = Except.error e →
      (std_equal p (ItemReaderBaseState.tick_delay S.print_lines delay_elapsed
          self).m_old_pointers = false →
        (ItemReaderBaseState.handle_tick S.print_lines (view_methods S.host S.env c) memory
          delay_elapsed self).m_new_state = some AppStateClass.PsobbProcessWatcher) ∧
      (ItemReaderBaseState.update_item_list S.print_lines (view_methods S.host S.env c)
          (some memory) self).1.m_new_state = some AppStateClass.PsobbProcessWatcher ∧
      (ItemReaderBaseState.update_item_list S.print_lines (view_methods S.host S.env c)
          (some memory) self).2 = Option.none) := by
  constructor
  · intro p h
    exact ⟨handle_tick_refresh_fails _ _ _ _ _ p e h,
      update_item_list_refresh_fails _ _ _ _ p e he h⟩
  · intro p h hi
    exact ⟨fun hne => handle_tick_decode_fails _ _ _ _ _ p e h hne hi,
      update_item_list_decode_fails _ _ _ _ p e he h hi⟩

/-- The held view over a memory in which every read fails with `runtime_error`:
the refresh fails, and both methods select the watcher. -/
theorem failure_returns_to_watcher_witness :
    Exn.runtime_error ≠ Exn.PermissionError ∧
    (ItemReaderBaseState.handle_tick (sample_surroundings zero_process).print_lines
        (view_methods k_little_endian sample_extern ReaderStateClass.InventoryViewState)
        unreadable_memory false {}).m_new_state = some AppStateClass.PsobbProcessWatcher ∧
    (ItemReaderBaseState.update_item_list (sample_surroundings zero_process).print_lines
        (view_methods k_little_endian sample_extern ReaderStateClass.InventoryViewState)
        (some unreadable_memory) {}).1.m_new_state = some AppStateClass.PsobbProcessWatcher :=
  ⟨by decide,
   ((failure_returns_to_watcher (sample_surroundings zero_process)
      ReaderStateClass.InventoryViewState unreadable_memory false {} Exn.runtime_error
      (by decide)).1 [] rfl).1,
   ((failure_returns_to_watcher (sample_surroundings zero_process)
      ReaderStateClass.InventoryViewState unreadable_memory false {} Exn.runtime_error
      (by decide)).1 [] rfl).2.1⟩

/-! ## Permission denied in a view -/

/-- Claim C24. The held view is shown and the target process refuses every read
with `EPERM`. In a pass without periodic refresh, `handle_tick` catches the
`PermissionError` like any other exception: the next state is the watcher, whose
`m_has_permission` is still true. In a pass with the periodic refresh, and in a
pass in which the key `right` is handled, `update_item_list` throws the
`PermissionError` again and nothing in `main` catches it. -/
theorem permission_denied_in_a_view :
    (∃ app, main_pass (sample_surroundings permission_denied) quiet_pass held_view_app
        = LoopResult.running app ∧
      app.state_ptr = AppStateClass.PsobbProcessWatcher ∧
      app.statemap.watcher.m_has_permission = true) ∧
    main_pass (sample_surroundings permission_denied)
        { quiet_pass with update_elapsed := true } held_view_app
      = LoopResult.uncaught (Thrown.exn Exn.PermissionError) ∧
    main_pass (sample_surroundings permission_denied)
        { quiet_pass with keys := [Event.special SpecialKey.right] } held_view_app
      = LoopResult.uncaught (Thrown.exn Exn.PermissionError) := by
  refine ⟨⟨_, rfl, rfl, rfl⟩, ?_, ?_⟩
  · rfl
  · rfl

/-! ## The watcher without permission -/

theorem set_view_watcher (statemap : AppStateMap) (c : ReaderStateClass) (v : ReaderView) :
    (statemap.set_view c v).watcher = statemap.watcher := by
  cases c <;> rfl

theorem view_set_view_same (statemap : AppStateMap) (c : ReaderStateClass) (v : ReaderView) :
    (statemap.set_view c v).view c = v := by
  cases c <;> rfl

theorem view_set_view_other (statemap : AppStateMap) (c d : ReaderStateClass) (v : ReaderView)
    (h : d ≠ c) : (statemap.set_view c v).view d = statemap.view d := by
  cases c <;> cases d <;> first | rfl | exact absurd rfl h

theorem main_catch_ne_running (t : Thrown) (app : App) : main_catch t ≠ LoopResult.running app := by
  cases t <;> simp [main_catch]

theorem update_bad_permission_message_has_permission (S : Surroundings)
    (self : PsobbProcessWatcher) :
    (PsobbProcessWatcher.update_bad_permission_message S self).m_has_permission
      = self.m_has_permission := by
  unfold PsobbProcessWatcher.update_bad_permission_message
  split <;> rfl

theorem watcher_handle_tick_keeps_denied (S : Surroundings) (pgrep : Option String)
    (statemap : AppStateMap) (h : statemap.watcher.m_has_permission = false) :
    (PsobbProcessWatcher.handle_tick S pgrep statemap).1.watcher.m_has_permission = false := by
  unfold PsobbProcessWatcher.handle_tick
  cases pgrep with
  | none => exact h
  | some contents =>
    simp only []
    cases hp : S.string_to_number_multibase contents with
    | none => exact h
    | some pid =>
      simp only []
      generalize ReaderView.setup S ReaderStateClass.BankViewState
        (some (ReaderSource.ProcessMemoryReader pid)) _ = r
      obtain ⟨bank, e⟩ := r
      cases e with
      | none => exact h
      | some e =>
        by_cases he : e = Exn.PermissionError
        · simp only [he, if_true]
          exact update_bad_permission_message_has_permission S _
        · simp only [he, if_false]
          exact h

theorem change_state_and_setup_watcher (S : Surroundings) (c : ReaderStateClass) (id : Int)
    (statemap : AppStateMap) :
    (change_state_and_setup S c id statemap).1.watcher = statemap.watcher := by
  unfold change_state_and_setup
  cases change_state_to_id id with
  | error t => rfl
  | ok selected =>
    simp only []
    rw [set_view_watcher, set_view_watcher]

theorem reader_handle_event_left (S : Surroundings) (c : ReaderStateClass)
    (statemap : AppStateMap) :
    ReaderView.handle_event S c (Event.special SpecialKey.left) statemap
      = change_state_and_setup S c
        (to_int32 ((S.GetTypeId c + 18446744073709551615) % 18446744073709551616)) statemap :=
  rfl

theorem reader_handle_event_right (S : Surroundings) (c : ReaderStateClass)
    (statemap : AppStateMap) :
    ReaderView.handle_event S c (Event.special SpecialKey.right) statemap
      = change_state_and_setup S c
        (to_int32 ((S.GetTypeId c + 1) % 18446744073709551616)) statemap :=
  rfl

theorem reader_handle_event_watcher (S : Surroundings) (c : ReaderStateClass) (event : Event)
    (statemap : AppStateMap) :
    (ReaderView.handle_event S c event statemap).1.watcher = statemap.watcher := by
  cases event with
  | empty => rfl
  | text e => rfl
  | special sp =>
    cases sp with
    | up => exact set_view_watcher _ _ _
    | down => exact set_view_watcher _ _ _
    | page_up => exact set_view_watcher _ _ _
    | page_down => exact set_view_watcher _ _ _
    | left =>
      rw [reader_handle_event_left]
      exact change_state_and_setup_watcher _ _ _ _
    | right =>
      rw [reader_handle_event_right]
      exact change_state_and_setup_watcher _ _ _ _
    | escape => rfl
    | backspace => rfl
    | enter => rfl
    | delete_ => rfl
    | home => rfl
    | end_ => rfl
    | no_special_key => rfl

theorem handle_event_keeps_denied (S : Surroundings) (state_ptr : AppStateClass) (event : Event)
    (statemap : AppStateMap) (h : statemap.watcher.m_has_permission = false) :
    (AppState.handle_event S state_ptr event statemap).1.watcher.m_has_permission = false := by
  unfold AppState.handle_event
  cases state_ptr.reader_state with
  | none => exact h
  | some c =>
    simp only []
    rw [reader_handle_event_watcher]; exact h

theorem handle_events_keeps_denied (S : Surroundings) (state_ptr : AppStateClass)
    (keys : List Event) :
    ∀ statemap : AppStateMap, statemap.watcher.m_has_permission = false →
      (handle_events S state_ptr keys statemap).1.watcher.m_has_permission = false := by
  induction keys with
  | nil => intro statemap h; exact h
  | cons event rest ih =>
    intro statemap h
    have h1 := handle_event_keeps_denied S state_ptr event statemap h
    unfold handle_events
    generalize AppState.handle_event S state_ptr event statemap = r at h1
    obtain ⟨m, t⟩ := r
    cases t with
    | some t => exact h1
    | none => exact ih m h1

theorem handle_tick_keeps_denied (S : Surroundings) (input : PassInput)
    (state_ptr : AppStateClass) (statemap m : AppStateMap) (t : Option Thrown)
    (h : statemap.watcher.m_has_permission = false)
    (ht : AppState.handle_tick S input state_ptr statemap = some (m, t)) :
    m.watcher.m_has_permission = false := by
  unfold AppState.handle_tick at ht
  cases hc : state_ptr.reader_state with
  | none =>
    simp only [hc, Option.some.injEq] at ht
    have := watcher_handle_tick_keeps_denied S input.pgrep statemap h
    rw [ht] at this
    exact this
  | some c =>
    simp only [hc] at ht
    cases hv : ReaderView.handle_tick S c input.delay_elapsed input.update_elapsed
        (statemap.view c) with
    | none => simp [hv] at ht
    | some r =>
      obtain ⟨self, e⟩ := r
      simp only [hv, Option.some.injEq, Prod.mk.injEq] at ht
      rw [← ht.1, set_view_watcher]; exact h

theorem handle_resize_keeps_denied (S : Surroundings) (gsize : GridSize)
    (state_ptr : AppStateClass) (statemap : AppStateMap)
    (h : statemap.watcher.m_has_permission = false) :
    (AppState.handle_resize S gsize state_ptr statemap).watcher.m_has_permission = false := by
  unfold AppState.handle_resize
  cases state_ptr.reader_state with
  | none =>
    simp only [PsobbProcessWatcher.handle_resize]
    rw [update_bad_permission_message_has_permission]; exact h
  | some c =>
    simp only []
    rw [set_view_watcher]; exact h

theorem get_new_state_keeps_denied (state_ptr : AppStateClass) (statemap : AppStateMap)
    (h : statemap.watcher.m_has_permission = false) :
    (AppState.get_new_state state_ptr statemap).2.watcher.m_has_permission = false := by
  unfold AppState.get_new_state
  cases state_ptr.reader_state with
  | none => exact h
  | some c =>
    simp only []
    rw [set_view_watcher]; exact h

theorem main_pass_keeps_denied (S : Surroundings) (input : PassInput) (app app1 : App)
    (h : app.statemap.watcher.m_has_permission = false)
    (hr : main_pass S input app = LoopResult.running app1) :
    app1.statemap.watcher.m_has_permission = false := by
  unfold main_pass at hr
  cases ht : AppState.handle_tick S input app.state_ptr app.statemap with
  | none => simp [ht] at hr
  | some r =>
    obtain ⟨m1, t1⟩ := r
    have h1 := handle_tick_keeps_denied S input app.state_ptr app.statemap m1 t1 h ht
    cases t1 with
    | some t =>
      simp only [ht] at hr
      exact absurd hr (main_catch_ne_running t app1)
    | none =>
      simp only [ht] at hr
      have h2 : ∀ r : AppStateMap × Option Thrown,
          r = (match AppState.update_style app.state_ptr m1 with
            | UpdateStyle.k_continuous_updates => handle_events S app.state_ptr input.keys m1
            | UpdateStyle.k_until_next_event =>
              AppState.handle_event S app.state_ptr (input.keys.headD Event.empty) m1) →
          r.1.watcher.m_has_permission = false := by
        intro r hr2
        cases hs : AppState.update_style app.state_ptr m1 with
        | k_continuous_updates =>
          rw [hs] at hr2
          rw [hr2]; exact handle_events_keeps_denied S _ _ m1 h1
        | k_until_next_event =>
          rw [hs] at hr2
          rw [hr2]; exact handle_event_keeps_denied S _ _ m1 h1
      generalize hg : (match AppState.update_style app.state_ptr m1 with
            | UpdateStyle.k_continuous_updates => handle_events S app.state_ptr input.keys m1
            | UpdateStyle.k_until_next_event =>
              AppState.handle_event S app.state_ptr (input.keys.headD Event.empty) m1) = handled
        at hr
      have h3 := h2 handled hg.symm
      obtain ⟨m2, t2⟩ := handled
      cases t2 with
      | some t =>
        simp only [] at hr
        exact absurd hr (main_catch_ne_running t app1)
      | none =>
        simp only [] at hr
        have h4 : (if input.update_size = true then
            AppState.handle_resize S input.grid app.state_ptr m2 else m2).watcher.m_has_permission
              = false := by
          split
          · exact handle_resize_keeps_denied S _ _ m2 h3
          · exact h3
        generalize (if input.update_size = true then
            AppState.handle_resize S input.grid app.state_ptr m2 else m2) = m3 at hr h4
        have h5 := get_new_state_keeps_denied app.state_ptr m3 h4
        generalize AppState.get_new_state app.state_ptr m3 = g at hr h5
        obtain ⟨ptr, m4⟩ := g
        cases ptr with
        | none =>
          simp only [LoopResult.running.injEq] at hr
          rw [← hr]; exact h5
        | some ptr =>
          simp only [LoopResult.running.injEq] at hr
          rw [← hr]; exact handle_resize_keeps_denied S _ _ m4 h5
/-- Claim C25, as stated, fails. The first pass of `main` with a target process
that refuses every read ends with the watcher in its mode without permission.
In the next pass the process answers, with zeros: the tick of the watcher looks
the process up, makes a reader for it and sets up the stored view, which reads
and decodes, and the stored view is the state of the pass after. -/
theorem degraded_watcher_resumes :
    main_pass (sample_surroundings permission_denied) found_pass
        (main_start (sample_surroundings permission_denied) { width := 80, height := 24 })
      = LoopResult.running degraded_app ∧
    degraded_app.statemap.watcher.m_has_permission = false ∧
    ∃ app, main_pass (sample_surroundings zero_process) found_pass degraded_app
        = LoopResult.running app ∧
      app.state_ptr = AppStateClass.BankViewState ∧
      app.statemap.bank.m_reader = some (ReaderSource.ProcessMemoryReader 1000) ∧
      app.statemap.bank.m_header_string = "--- Bank  -1 / 200 ---" := by
  refine ⟨rfl, rfl, _, rfl, rfl, rfl, rfl⟩
theorem watcher_handle_tick_found (S : Surroundings) (contents : String) (pid : Int)
    (statemap : AppStateMap) (hp : S.string_to_number_multibase contents = some pid) :
    (PsobbProcessWatcher.handle_tick S (some contents) statemap).1.bank
      = (ReaderView.setup S ReaderStateClass.BankViewState
          (some (ReaderSource.ProcessMemoryReader pid)) statemap.bank).1 ∧
    ((ReaderView.setup S ReaderStateClass.BankViewState
          (some (ReaderSource.ProcessMemoryReader pid)) statemap.bank).2 = Option.none →
      (PsobbProcessWatcher.handle_tick S (some contents) statemap).1.watcher.m_new_state
        = some AppStateClass.BankViewState ∧
      (PsobbProcessWatcher.handle_tick S (some contents) statemap).2 = Option.none) ∧
    ((ReaderView.setup S ReaderStateClass.BankViewState
          (some (ReaderSource.ProcessMemoryReader pid)) statemap.bank).2
        = some Exn.PermissionError →
      (PsobbProcessWatcher.handle_tick S (some contents) statemap).1.watcher.m_new_state
        = some AppStateClass.PsobbProcessWatcher ∧
      (PsobbProcessWatcher.handle_tick S (some contents) statemap).2 = Option.none) := by
  unfold PsobbProcessWatcher.handle_tick
  simp only [hp]
  generalize ReaderView.setup S ReaderStateClass.BankViewState
    (some (ReaderSource.ProcessMemoryReader pid)) statemap.bank = r
  obtain ⟨bank, e⟩ := r
  cases e with
  | none => simp
  | some e =>
    by_cases he : e = Exn.PermissionError
    · simp [he]
    · simp [he]

/-- Claim C25, amended. Once `m_has_permission` is false it is false after every
later pass of the loop of `main`, and the watcher then waits for a key before
each pass. A tick of the watcher looks the process up all the same: when the
lookup yields a process id, the stored view is set up with a reader of that
process; the stored view is the new state when the set-up throws nothing, and
the watcher itself when it throws `PermissionError`. -/
theorem has_permission_stays_false (S : Surroundings) (input : PassInput) (app : App)
    (h : app.statemap.watcher.m_has_permission = false) :
    (∀ app1, main_pass S input app = LoopResult.running app1 →
      app1.statemap.watcher.m_has_permission = false) ∧
    AppState.update_style AppStateClass.PsobbProcessWatcher app.statemap
      = UpdateStyle.k_until_next_event ∧
    (∀ contents pid, S.string_to_number_multibase contents = some pid →
      (PsobbProcessWatcher.handle_tick S (some contents) app.statemap).1.bank
        = (ReaderView.setup S ReaderStateClass.BankViewState
            (some (ReaderSource.ProcessMemoryReader pid)) app.statemap.bank).1 ∧
      ((ReaderView.setup S ReaderStateClass.BankViewState
            (some (ReaderSource.ProcessMemoryReader pid)) app.statemap.bank).2 = Option.none →
        (PsobbProcessWatcher.handle_tick S (some contents) app.statemap).1.watcher.m_new_state
          = some AppStateClass.BankViewState ∧
        (PsobbProcessWatcher.handle_tick S (some contents) app.statemap).2 = Option.none) ∧
      ((ReaderView.setup S ReaderStateClass.BankViewState
            (some (ReaderSource.ProcessMemoryReader pid)) app.statemap.bank).2
          = some Exn.PermissionError →
        (PsobbProcessWatcher.handle_tick S (some contents) app.statemap).1.watcher.m_new_state
          = some AppStateClass.PsobbProcessWatcher ∧
        (PsobbProcessWatcher.handle_tick S (some contents) app.statemap).2 = Option.none)) := by
  refine ⟨fun app1 hr => main_pass_keeps_denied S input app app1 h hr, ?_, ?_⟩
  · simp [AppState.update_style, AppStateClass.reader_state,
      PsobbProcessWatcher.update_style, h]
  · intro contents pid hp
    exact watcher_handle_tick_found S contents pid app.statemap hp

/-- The watcher without permission of the sample, in a pass in which the process
1000 is found and refuses every read again: the flag stays false and the
watcher stays selected. -/
theorem has_permission_stays_false_witness :
    degraded_app.statemap.watcher.m_has_permission = false ∧
    (∀ app1, main_pass (sample_surroundings permission_denied) found_pass degraded_app
        = LoopResult.running app1 → app1.statemap.watcher.m_has_permission = false) ∧
    main_pass (sample_surroundings permission_denied) found_pass degraded_app
      = LoopResult.running degraded_app :=
  ⟨rfl,
   (has_permission_stays_false (sample_surroundings permission_denied) found_pass
      degraded_app rfl).1,
   rfl⟩

/-! ## Navigation between the views -/

theorem update_item_list_m_reader (S : Surroundings) (c : ReaderStateClass) (self : ReaderView) :
    (ReaderView.update_item_list S c self).1.m_reader = self.m_reader := by
  unfold ReaderView.update_item_list
  generalize ItemReaderBaseState.update_item_list S.print_lines (view_methods S.host S.env c)
    (self.m_reader.map (ReaderSource.reader S)) self.toItemReaderBaseState = r
  obtain ⟨base, e⟩ := r
  rfl

theorem setup_m_reader (S : Surroundings) (c : ReaderStateClass) (source : Option ReaderSource)
    (self : ReaderView) : (ReaderView.setup S c source self).1.m_reader = source := by
  unfold ReaderView.setup
  simp only []
  rw [update_item_list_m_reader]

theorem change_state_and_setup_selects (S : Surroundings) (c selected : ReaderStateClass)
    (id : Int) (statemap : AppStateMap) (hsel : change_state_to_id id = Except.ok selected)
    (hne : c ≠ selected) :
    ((change_state_and_setup S c id statemap).1.view c).m_new_state
      = some selected.toAppStateClass ∧
    ((change_state_and_setup S c id statemap).1.view selected).m_reader
      = (statemap.view c).m_reader := by
  unfold change_state_and_setup
  simp only [hsel]
  generalize hr : ReaderView.setup S selected (statemap.view c).m_reader
    ((statemap.set_view c _).view selected) = r
  have hm : r.1.m_reader = (statemap.view c).m_reader := by
    rw [← hr]; exact setup_m_reader _ _ _ _
  obtain ⟨target, e⟩ := r
  simp only []
  rw [view_set_view_other _ _ _ _ hne, view_set_view_same, view_set_view_same]
  exact ⟨rfl, hm⟩

theorem change_state_to_id_negative (id : Int) (h : id < 0) :
    change_state_to_id id = Except.ok ReaderStateClass.InventoryViewState := by
  unfold change_state_to_id
  simp only [h, if_true]
  rfl

theorem change_state_to_id_total (id : Int) : ∃ c, change_state_to_id id = Except.ok c := by
  by_cases h0 : id < 0
  · exact ⟨ReaderStateClass.InventoryViewState, change_state_to_id_negative id h0⟩
  · by_cases h3 : id ≥ 3
    · exact ⟨ReaderStateClass.BankViewState, by
        unfold change_state_to_id
        have : id ≥ ((ReaderStates.length : Nat) : Int) := h3
        simp only [h0, this, if_true, if_false]; rfl⟩
    · have h : id = 0 ∨ id = 1 ∨ id = 2 := by omega
      rcases h with rfl | rfl | rfl
      · exact ⟨_, rfl⟩
      · exact ⟨_, rfl⟩
      · exact ⟨_, rfl⟩

/-- Claim C26. Let the views be numbered by their position in `ReaderStates`.
From the view with the number `i`, the key `right` selects the view with the
number `(i + 1) mod 3` and the key `left` the view with the number
`(i + 2) mod 3`, which is `(i - 1) mod 3`; the view selected is set up with the
reader of the view that handles the key. The number -1 is taken for 2 and the
number 3 for 0, and `change_state_to_id` rejects no number. Hence `left` undoes
`right` and conversely, `right` three times leads back, and every view is
reached from every view by at most two keys `right`. -/
theorem view_navigation_is_cyclic (S : Surroundings) (statemap : AppStateMap)
    (hid : numbered_by_position S.GetTypeId) :
    ∃ next previous : ReaderStateClass → ReaderStateClass,
      (∀ c,
        S.GetTypeId (next c) = (S.GetTypeId c + 1) % 3 ∧
        S.GetTypeId (previous c) = (S.GetTypeId c + 2) % 3 ∧
        ((ReaderView.handle_event S c (Event.special SpecialKey.right) statemap).1.view
          c).m_new_state = some (next c).toAppStateClass ∧
        ((ReaderView.handle_event S c (Event.special SpecialKey.right) statemap).1.view
          (next c)).m_reader = (statemap.view c).m_reader ∧
        ((ReaderView.handle_event S c (Event.special SpecialKey.left) statemap).1.view
          c).m_new_state = some (previous c).toAppStateClass ∧
        ((ReaderView.handle_event S c (Event.special SpecialKey.left) statemap).1.view
          (previous c)).m_reader = (statemap.view c).m_reader ∧
        previous (next c) = c ∧ next (previous c) = c ∧ next (next (next c)) = c ∧
        (∀ d, d = c ∨ d = next c ∨ d = next (next c))) ∧
      change_state_to_id (-1) = change_state_to_id 2 ∧
      change_state_to_id 3 = change_state_to_id 0 ∧
      (∀ id, ∃ c, change_state_to_id id = Except.ok c) := by
  obtain ⟨h2, h1, h0⟩ := hid
  refine ⟨fun c => match c with
      | ReaderStateClass.InventoryViewState => ReaderStateClass.BankViewState
      | ReaderStateClass.FloorViewState => ReaderStateClass.InventoryViewState
      | ReaderStateClass.BankViewState => ReaderStateClass.FloorViewState,
    fun c => match c with
      | ReaderStateClass.InventoryViewState => ReaderStateClass.FloorViewState
      | ReaderStateClass.FloorViewState => ReaderStateClass.BankViewState
      | ReaderStateClass.BankViewState => ReaderStateClass.InventoryViewState,
    ?_, change_state_to_id_negative (-1) (by decide), rfl, change_state_to_id_total⟩
  intro c
  have e3 : to_int32 ((2 + 1) % 18446744073709551616) = 3 := by decide
  have e2 : to_int32 ((1 + 1) % 18446744073709551616) = 2 := by decide
  have e1 : to_int32 ((0 + 1) % 18446744073709551616) = 1 := by decide
  have p1 : to_int32 ((2 + 18446744073709551615) % 18446744073709551616) = 1 := by decide
  have p0 : to_int32 ((1 + 18446744073709551615) % 18446744073709551616) = 0 := by decide
  have pm : to_int32 ((0 + 18446744073709551615) % 18446744073709551616) = -1 := by decide
  cases c with
  | InventoryViewState =>
    simp only [h2, h0, h1]
    rw [reader_handle_event_right, reader_handle_event_left, h2, e3, p1]
    have hr := change_state_and_setup_selects S ReaderStateClass.InventoryViewState
      ReaderStateClass.BankViewState 3 statemap rfl (by decide)
    have hl := change_state_and_setup_selects S ReaderStateClass.InventoryViewState
      ReaderStateClass.FloorViewState 1 statemap rfl (by decide)
    refine ⟨by decide, by decide, hr.1, hr.2, hl.1, hl.2, trivial, trivial, trivial, ?_⟩
    intro d; cases d <;> simp
  | FloorViewState =>
    simp only [h2, h0, h1]
    rw [reader_handle_event_right, reader_handle_event_left, h1, e2, p0]
    have hr := change_state_and_setup_selects S ReaderStateClass.FloorViewState
      ReaderStateClass.InventoryViewState 2 statemap rfl (by decide)
    have hl := change_state_and_setup_selects S ReaderStateClass.FloorViewState
      ReaderStateClass.BankViewState 0 statemap rfl (by decide)
    refine ⟨by decide, by decide, hr.1, hr.2, hl.1, hl.2, trivial, trivial, trivial, ?_⟩
    intro d; cases d <;> simp
  | BankViewState =>
    simp only [h2, h0, h1]
    rw [reader_handle_event_right, reader_handle_event_left, h0, e1, pm]
    have hr := change_state_and_setup_selects S ReaderStateClass.BankViewState
      ReaderStateClass.FloorViewState 1 statemap rfl (by decide)
    have hl := change_state_and_setup_selects S ReaderStateClass.BankViewState
      ReaderStateClass.InventoryViewState (-1) statemap
      (change_state_to_id_negative (-1) (by decide)) (by decide)
    refine ⟨by decide, by decide, hr.1, hr.2, hl.1, hl.2, trivial, trivial, trivial, ?_⟩
    intro d; cases d <;> simp
/-- The numbering of the sample surroundings is the numbering by position, and
the statement holds for the state map in which the held view has a reader. -/
theorem view_navigation_is_cyclic_witness :
    numbered_by_position (sample_surroundings zero_process).GetTypeId ∧
    ∃ next previous : ReaderStateClass → ReaderStateClass,
      (∀ c,
        (sample_surroundings zero_process).GetTypeId (next c)
          = ((sample_surroundings zero_process).GetTypeId c + 1) % 3 ∧
        (sample_surroundings zero_process).GetTypeId (previous c)
          = ((sample_surroundings zero_process).GetTypeId c + 2) % 3 ∧
        ((ReaderView.handle_event (sample_surroundings zero_process) c
          (Event.special SpecialKey.right) held_view_app.statemap).1.view
          c).m_new_state = some (next c).toAppStateClass ∧
        ((ReaderView.handle_event (sample_surroundings zero_process) c
          (Event.special SpecialKey.right) held_view_app.statemap).1.view
          (next c)).m_reader = (held_view_app.statemap.view c).m_reader ∧
        ((ReaderView.handle_event (sample_surroundings zero_process) c
          (Event.special SpecialKey.left) held_view_app.statemap).1.view
          c).m_new_state = some (previous c).toAppStateClass ∧
        ((ReaderView.handle_event (sample_surroundings zero_process) c
          (Event.special SpecialKey.left) held_view_app.statemap).1.view
          (previous c)).m_reader = (held_view_app.statemap.view c).m_reader ∧
        previous (next c) = c ∧ next (previous c) = c ∧ next (next (next c)) = c ∧
        (∀ d, d = c ∨ d = next c ∨ d = next (next c))) ∧
      change_state_to_id (-1) = change_state_to_id 2 ∧
      change_state_to_id 3 = change_state_to_id 0 ∧
      (∀ id, ∃ c, change_state_to_id id = Except.ok c) :=
  ⟨⟨rfl, rfl, rfl⟩,
   view_navigation_is_cyclic (sample_surroundings zero_process) held_view_app.statemap
     ⟨rfl, rfl, rfl⟩⟩

/-! ## The quit signal -/

theorem change_state_and_setup_not_quit (S : Surroundings) (c : ReaderStateClass) (id : Int)
    (statemap : AppStateMap) :
    (change_state_and_setup S c id statemap).2 ≠ some Thrown.QuitAppException := by
  obtain ⟨selected, hsel⟩ := change_state_to_id_total id
  unfold change_state_and_setup
  simp only [hsel]
  generalize ReaderView.setup S selected _ _ = r
  obtain ⟨target, e⟩ := r
  cases e <;> simp

theorem watcher_handle_event_quit (event : Event) :
    PsobbProcessWatcher.handle_event event = some Thrown.QuitAppException ↔
      event = Event.special SpecialKey.escape := by
  cases event with
  | empty => simp [PsobbProcessWatcher.handle_event]
  | text e => simp [PsobbProcessWatcher.handle_event]
  | special sp => cases sp <;> simp [PsobbProcessWatcher.handle_event]

theorem reader_handle_event_quit (S : Surroundings) (c : ReaderStateClass) (event : Event)
    (statemap : AppStateMap) :
    (ReaderView.handle_event S c event statemap).2 = some Thrown.QuitAppException ↔
      event = Event.special SpecialKey.escape := by
  cases event with
  | empty => simp [ReaderView.handle_event]
  | text e => simp [ReaderView.handle_event]
  | special sp =>
    cases sp with
    | left =>
      rw [reader_handle_event_left]
      simp [change_state_and_setup_not_quit]
    | right =>
      rw [reader_handle_event_right]
      simp [change_state_and_setup_not_quit]
    | escape => simp [ReaderView.handle_event]
    | up => simp [ReaderView.handle_event]
    | down => simp [ReaderView.handle_event]
    | page_up => simp [ReaderView.handle_event]
    | page_down => simp [ReaderView.handle_event]
    | backspace => simp [ReaderView.handle_event]
    | enter => simp [ReaderView.handle_event]
    | delete_ => simp [ReaderView.handle_event]
    | home => simp [ReaderView.handle_event]
    | end_ => simp [ReaderView.handle_event]
    | no_special_key => simp [ReaderView.handle_event]

theorem handle_event_quit (S : Surroundings) (state_ptr : AppStateClass) (event : Event)
    (statemap : AppStateMap) :
    (AppState.handle_event S state_ptr event statemap).2 = some Thrown.QuitAppException ↔
      event = Event.special SpecialKey.escape := by
  unfold AppState.handle_event
  cases state_ptr.reader_state with
  | none => exact watcher_handle_event_quit event
  | some c => exact reader_handle_event_quit S c event statemap

theorem handle_events_quit (S : Surroundings) (state_ptr : AppStateClass) (keys : List Event) :
    ∀ statemap : AppStateMap,
      (handle_events S state_ptr keys statemap).2 = some Thrown.QuitAppException →
      Event.special SpecialKey.escape ∈ keys := by
  induction keys with
  | nil => intro statemap h; simp [handle_events] at h
  | cons event rest ih =>
    intro statemap h
    unfold handle_events at h
    have hq := handle_event_quit S state_ptr event statemap
    generalize AppState.handle_event S state_ptr event statemap = r at h hq
    obtain ⟨m, t⟩ := r
    cases t with
    | some t =>
      simp only [] at h
      have : event = Event.special SpecialKey.escape := hq.mp h
      rw [this]; exact List.mem_cons_self _ _
    | none =>
      simp only [] at h
      exact List.mem_cons_of_mem _ (ih m h)

theorem handle_tick_not_quit (S : Surroundings) (input : PassInput) (state_ptr : AppStateClass)
    (statemap : AppStateMap) (r : AppStateMap × Option Thrown)
    (h : AppState.handle_tick S input state_ptr statemap = some r) :
    r.2 ≠ some Thrown.QuitAppException := by
  unfold AppState.handle_tick at h
  cases hc : state_ptr.reader_state with
  | none =>
    simp only [hc, Option.some.injEq] at h
    rw [← h]
    unfold PsobbProcessWatcher.handle_tick
    cases input.pgrep with
    | none => simp
    | some contents =>
      simp only []
      cases S.string_to_number_multibase contents with
      | none => simp
      | some pid =>
        simp only []
        generalize ReaderView.setup S ReaderStateClass.BankViewState _ _ = q
        obtain ⟨bank, e⟩ := q
        cases e with
        | none => simp
        | some e =>
          by_cases he : e = Exn.PermissionError
          · simp [he]
          · simp [he]
  | some c =>
    simp only [hc] at h
    cases hv : ReaderView.handle_tick S c input.delay_elapsed input.update_elapsed
        (statemap.view c) with
    | none => simp [hv] at h
    | some q =>
      obtain ⟨self, e⟩ := q
      simp only [hv, Option.some.injEq] at h
      rw [← h]
      cases e <;> simp

theorem main_catch_returned (t : Thrown) (code : Int)
    (h : main_catch t = LoopResult.returned code) :
    t = Thrown.QuitAppException ∧ code = 0 := by
  cases t with
  | QuitAppException =>
    simp only [main_catch, LoopResult.returned.injEq] at h
    exact ⟨rfl, h.symm⟩
  | exn e => simp [main_catch] at h
  | impossible_branch => simp [main_catch] at h

theorem main_pass_returned (S : Surroundings) (input : PassInput) (app : App) (code : Int)
    (hr : main_pass S input app = LoopResult.returned code) :
    code = 0 ∧ Event.special SpecialKey.escape ∈ input.keys := by
  unfold main_pass at hr
  cases ht : AppState.handle_tick S input app.state_ptr app.statemap with
  | none => simp [ht] at hr
  | some r =>
    have hnq := handle_tick_not_quit S input app.state_ptr app.statemap r ht
    obtain ⟨m1, t1⟩ := r
    cases t1 with
    | some t =>
      simp only [ht] at hr
      have := main_catch_returned t code hr
      rw [this.1] at hnq
      exact absurd rfl hnq
    | none =>
      simp only [ht] at hr
      have h2 : ∀ r : AppStateMap × Option Thrown,
          r = (match AppState.update_style app.state_ptr m1 with
            | UpdateStyle.k_continuous_updates => handle_events S app.state_ptr input.keys m1
            | UpdateStyle.k_until_next_event =>
              AppState.handle_event S app.state_ptr (input.keys.headD Event.empty) m1) →
          r.2 = some Thrown.QuitAppException →
          Event.special SpecialKey.escape ∈ input.keys := by
        intro r hr2 hq
        cases hs : AppState.update_style app.state_ptr m1 with
        | k_continuous_updates =>
          rw [hs] at hr2
          rw [hr2] at hq
          exact handle_events_quit S _ _ m1 hq
        | k_until_next_event =>
          rw [hs] at hr2
          rw [hr2] at hq
          have he := (handle_event_quit S _ _ m1).mp hq
          cases hk : input.keys with
          | nil => rw [hk] at he; simp at he
          | cons k rest =>
            rw [hk] at he
            simp only [List.headD_cons] at he
            rw [he]; exact List.mem_cons_self _ _
      generalize hg : (match AppState.update_style app.state_ptr m1 with
            | UpdateStyle.k_continuous_updates => handle_events S app.state_ptr input.keys m1
            | UpdateStyle.k_until_next_event =>
              AppState.handle_event S app.state_ptr (input.keys.headD Event.empty) m1) = handled
        at hr
      have h3 := h2 handled hg.symm
      obtain ⟨m2, t2⟩ := handled
      cases t2 with
      | some t =>
        simp only [] at hr
        have := main_catch_returned t code hr
        exact ⟨this.2, h3 (by rw [this.1])⟩
      | none =>
        simp only [] at hr
        generalize AppState.get_new_state app.state_ptr _ = g at hr
        obtain ⟨ptr, m4⟩ := g
        cases ptr <;> simp at hr

theorem main_pass_escape (S : Surroundings) (input : PassInput) (app : App)
    (statemap : AppStateMap) (rest : List Event)
    (ht : AppState.handle_tick S input app.state_ptr app.statemap = some (statemap, Option.none))
    (hk : input.keys = Event.special SpecialKey.escape :: rest) :
    main_pass S input app = LoopResult.returned 0 := by
  have hq := (handle_event_quit S app.state_ptr (Event.special SpecialKey.escape) statemap).mpr rfl
  unfold main_pass
  simp only [ht, hk, List.headD_cons]
  cases AppState.update_style app.state_ptr statemap with
  | k_continuous_updates =>
    simp only []
    unfold handle_events
    generalize AppState.handle_event S app.state_ptr (Event.special SpecialKey.escape)
      statemap = r at hq
    obtain ⟨m, t⟩ := r
    simp only [] at hq
    rw [hq]
    rfl
  | k_until_next_event =>
    simp only []
    generalize AppState.handle_event S app.state_ptr (Event.special SpecialKey.escape)
      statemap = r at hq
    obtain ⟨m, t⟩ := r
    simp only [] at hq
    rw [hq]
    rfl

/-- Claim C27. In every state, the watcher (with or without permission) and the
three views, the handling of an event throws `QuitAppException` exactly when the
event is the key `escape`; no tick throws it. The handler in `main` turns it
into the return value 0 and turns nothing else into a return value: a pass of
the loop in which the tick throws nothing and the first key is `escape` makes
`main` return 0, and a pass makes `main` return only with the value 0 and only
when `escape` is among its keys. -/
theorem quit_only_on_escape (S : Surroundings) (state_ptr : AppStateClass) (event : Event)
    (statemap : AppStateMap) (input : PassInput) (app : App) :
    ((AppState.handle_event S state_ptr event statemap).2 = some Thrown.QuitAppException ↔
      event = Event.special SpecialKey.escape) ∧
    (∀ r, AppState.handle_tick S input state_ptr statemap = some r →
      r.2 ≠ some Thrown.QuitAppException) ∧
    main_catch Thrown.QuitAppException = LoopResult.returned 0 ∧
    (∀ t code, main_catch t = LoopResult.returned code →
      t = Thrown.QuitAppException ∧ code = 0) ∧
    (∀ statemap1 rest,
      AppState.handle_tick S input app.state_ptr app.statemap = some (statemap1, Option.none) →
      input.keys = Event.special SpecialKey.escape :: rest →
      main_pass S input app = LoopResult.returned 0) ∧
    (∀ code, main_pass S input app = LoopResult.returned code →
      code = 0 ∧ Event.special SpecialKey.escape ∈ input.keys) :=
  ⟨handle_event_quit S state_ptr event statemap,
   fun r h => handle_tick_not_quit S input state_ptr statemap r h,
   rfl,
   main_catch_returned,
   fun statemap1 rest ht hk => main_pass_escape S input app statemap1 rest ht hk,
   fun code h => main_pass_returned S input app code h⟩

/-! ## Order of the records -/

theorem revt_u32_three_bytes (c : Nat) (h : c < 16777216) :
    revt_u32 c = reverse_three_bytes c * 256 := by
  rw [revt_u32_eq, revt_u16_eq, revt_u16_eq]
  unfold reverse_three_bytes
  have e1 : c % 65536 % 256 = c % 256 := by omega
  have e2 : c % 65536 / 256 % 256 = c / 256 % 256 := by omega
  have e3 : c / 65536 % 65536 % 256 = c / 65536 := by omega
  have e4 : c / 65536 % 65536 / 256 % 256 = 0 := by omega
  have e5 : c / 65536 % 256 = c / 65536 := by omega
  rw [e1, e2, e3, e4, e5]
  generalize c % 256 = b0
  generalize c / 256 % 256 = b1
  generalize c / 65536 = b2
  omega

theorem reverse_three_bytes_lt (c : Nat) (h : c % 256 < 128) :
    reverse_three_bytes c * 256 < 2147483648 := by
  unfold reverse_three_bytes
  have h1 : c / 256 % 256 < 256 := Nat.mod_lt _ (by decide)
  have h2 : c / 65536 % 256 < 256 := Nat.mod_lt _ (by decide)
  generalize c % 256 = b0 at h
  generalize c / 256 % 256 = b1 at h1
  generalize c / 65536 % 256 = b2 at h2
  omega

theorem to_int32_small (x : Nat) (h : x < 2147483648) : to_int32 x = (x : Int) := by
  unfold to_int32
  have : x % 4294967296 = x := Nat.mod_eq_of_lt (by omega)
  rw [this, if_pos h]

theorem order_compare_to_small (x y : Nat) (hx : x < 2147483648) (hy : y < 2147483648) :
    to_int32 ((((x : Int) - (y : Int)) % 4294967296).toNat) = (x : Int) - (y : Int) := by
  unfold to_int32
  by_cases hxy : y ≤ x
  · have e : ((((x : Int) - (y : Int)) % 4294967296).toNat) = x - y := by omega
    rw [e]
    have e2 : (x - y) % 4294967296 = x - y := Nat.mod_eq_of_lt (by omega)
    rw [e2, if_pos (by omega)]
    omega
  · have e : ((((x : Int) - (y : Int)) % 4294967296).toNat) = 4294967296 + x - y := by omega
    rw [e]
    have e2 : (4294967296 + x - y) % 4294967296 = 4294967296 + x - y :=
      Nat.mod_eq_of_lt (by omega)
    rw [e2, if_neg (by omega)]
    omega

theorem item_lt_little (a b : Item) (ha : a.fullcode < 16777216) (hb : b.fullcode < 16777216)
    (hca : a.fullcode % 256 < 128) (hcb : b.fullcode % 256 < 128) :
    Item.lt k_little_endian a b = true ↔
      reverse_three_bytes a.fullcode < reverse_three_bytes b.fullcode := by
  have hA := reverse_three_bytes_lt a.fullcode hca
  have hB := reverse_three_bytes_lt b.fullcode hcb
  unfold Item.lt Item.order_compare_to process_endian_u32 get_machine_endianness
  simp only [decide_eq_true_eq]
  rw [if_neg (by decide), if_neg (by decide), revt_u32_three_bytes _ ha,
    revt_u32_three_bytes _ hb, to_int32_small _ hA, to_int32_small _ hB,
    order_compare_to_small _ _ hA hB]
  omega

theorem item_lt_big (a b : Item) (ha : a.fullcode < 16777216) (hb : b.fullcode < 16777216) :
    Item.lt k_big_endian a b = true ↔ a.fullcode < b.fullcode := by
  unfold Item.lt Item.order_compare_to process_endian_u32 get_machine_endianness
  simp only [decide_eq_true_eq]
  rw [if_pos trivial, if_pos trivial, to_int32_small a.fullcode (by omega),
    to_int32_small b.fullcode (by omega),
    order_compare_to_small a.fullcode b.fullcode (by omega) (by omega)]
  omega

/-- Claim C28, as stated, fails. The records with the codes 0x000006 and
0x000105 have the class bytes 6 and 5: on a big-endian host the first is less
than the second, although its code read with the class byte first is the
greater, and a little-endian host does not put the first before the second. The
records with the codes 0x000005 and 0x0000FF: on a little-endian host the first
is not less than the second, although its code read with the class byte first is
the smaller. -/
theorem item_order_is_not_big_endian_code :
    (Item.lt k_big_endian (code_item 0x000006) (code_item 0x000105) = true ∧
      Item.lt k_little_endian (code_item 0x000006) (code_item 0x000105) = false ∧
      reverse_three_bytes 0x000105 < reverse_three_bytes 0x000006) ∧
    (Item.lt k_little_endian (code_item 0x000005) (code_item 0x0000FF) = false ∧
      reverse_three_bytes 0x000005 < reverse_three_bytes 0x0000FF) := by
  decide

/-- Claim C28, amended. For two records with 24-bit codes: on a little-endian
host, when both class bytes are below 0x80, `a < b` holds exactly when the code
of `a`, read with the class byte as the most significant byte, is less than the
code of `b` read the same way; on a big-endian host `a < b` holds exactly when
the code of `a` as stored is less than the code of `b` as stored, the class byte
being the least significant byte there. -/
theorem item_lt_on_each_host (a b : Item) (ha : a.fullcode < 16777216)
    (hb : b.fullcode < 16777216) :
    (a.fullcode % 256 < 128 → b.fullcode % 256 < 128 →
      (Item.lt k_little_endian a b = true ↔
        reverse_three_bytes a.fullcode < reverse_three_bytes b.fullcode)) ∧
    (Item.lt k_big_endian a b = true ↔ a.fullcode < b.fullcode) :=
  ⟨fun hca hcb => item_lt_little a b ha hb hca hcb, item_lt_big a b ha hb⟩

/-- The records with the codes 0x000100 and 0x010101, a weapon and a frame. -/
theorem item_lt_on_each_host_witness :
    (code_item 0x000100).fullcode < 16777216 ∧ (code_item 0x010101).fullcode < 16777216 ∧
    (Item.lt k_little_endian (code_item 0x000100) (code_item 0x010101) = true ↔
      reverse_three_bytes 0x000100 < reverse_three_bytes 0x010101) ∧
    (Item.lt k_big_endian (code_item 0x000100) (code_item 0x010101) = true ↔
      (0x000100 : Nat) < 0x010101) :=
  ⟨by decide, by decide,
   (item_lt_on_each_host (code_item 0x000100) (code_item 0x010101) (by decide)
      (by decide)).1 (by decide) (by decide),
   (item_lt_on_each_host (code_item 0x000100) (code_item 0x010101) (by decide)
      (by decide)).2⟩

/-! ## The views sort the records -/

theorem sorted_insert_perm {α : Type} (comp : α → α → Bool) (x : α) (l : List α) :
    (sorted_insert comp x l).Perm (x :: l) := by
  induction l with
  | nil => exact List.Perm.refl _
  | cons y ys ih =>
    unfold sorted_insert
    split
    · exact ((List.Perm.cons y ih).trans (List.Perm.swap x y ys))
    · exact List.Perm.refl _

theorem std_sort_perm {α : Type} (comp : α → α → Bool) (l : List α) :
    (std_sort comp l).Perm l := by
  induction l with
  | nil => exact List.Perm.refl _
  | cons x xs ih =>
    unfold std_sort
    exact (sorted_insert_perm comp x _).trans (List.Perm.cons x ih)

theorem sorted_insert_sorted {α : Type} (comp : α → α → Bool) (key : α → Nat) (x : α)
    (l : List α) (h : ∀ y ∈ l, comp y x = true ↔ key y < key x)
    (hl : l.Pairwise (fun a b => key a ≤ key b)) :
    (sorted_insert comp x l).Pairwise (fun a b => key a ≤ key b) := by
  induction l with
  | nil => exact List.pairwise_singleton _ _
  | cons y ys ih =>
    have hy := h y (List.mem_cons_self _ _)
    have hys : ∀ z ∈ ys, comp z x = true ↔ key z < key x :=
      fun z hz => h z (List.mem_cons_of_mem _ hz)
    rw [List.pairwise_cons] at hl
    unfold sorted_insert
    by_cases hc : comp y x = true
    · rw [if_pos hc]
      have hlt := hy.mp hc
      rw [List.pairwise_cons]
      refine ⟨?_, ih hys hl.2⟩
      intro z hz
      have hz2 := (sorted_insert_perm comp x ys).subset hz
      rcases List.mem_cons.mp hz2 with rfl | hz3
      · omega
      · exact hl.1 z hz3
    · rw [if_neg hc]
      have hge : ¬ key y < key x := fun hlt => hc (hy.mpr hlt)
      rw [List.pairwise_cons]
      refine ⟨?_, List.pairwise_cons.mpr hl⟩
      intro z hz
      rcases List.mem_cons.mp hz with rfl | hz3
      · omega
      · have := hl.1 z hz3
        omega

theorem std_sort_sorted {α : Type} (comp : α → α → Bool) (key : α → Nat) (l : List α)
    (h : ∀ x ∈ l, ∀ y ∈ l, comp y x = true ↔ key y < key x) :
    (std_sort comp l).Pairwise (fun a b => key a ≤ key b) := by
  induction l with
  | nil => exact List.Pairwise.nil
  | cons x xs ih =>
    unfold std_sort
    apply sorted_insert_sorted comp key x
    · intro y hy
      have hy2 := (std_sort_perm comp xs).subset hy
      exact h x (List.mem_cons_self _ _) y (List.mem_cons_of_mem _ hy2)
    · exact ih (fun a ha b hb =>
        h a (List.mem_cons_of_mem _ ha) b (List.mem_cons_of_mem _ hb))

/-- On a little-endian host, a list of records with 24-bit codes and class bytes
below 0x80 comes out of the sort of the views as a permutation of itself in
ascending order of the code read with the class byte first. -/
theorem std_sort_by_big_endian_code (rv : ItemList)
    (h : ∀ item ∈ rv, item.fullcode < 16777216 ∧ item.fullcode % 256 < 128) :
    (std_sort (lhs_code_lt_rhs k_little_endian) rv).Perm rv ∧
    (std_sort (lhs_code_lt_rhs k_little_endian) rv).Pairwise
      (fun a b => reverse_three_bytes a.fullcode ≤ reverse_three_bytes b.fullcode) := by
  refine ⟨std_sort_perm _ _, ?_⟩
  apply std_sort_sorted (lhs_code_lt_rhs k_little_endian)
    (fun item => reverse_three_bytes item.fullcode)
  intro x hx y hy
  exact item_lt_little y x (h y hy).1 (h x hx).1 (h y hy).2 (h x hx).2

theorem load_items_generic (load : Except Exn ItemList) (hdr : ItemList → Except Exn String)
    (sort : ItemList → ItemList) (items : ItemList) (header : String) :
    (load >>= fun rv => hdr (sort rv) >>= fun h => pure (sort rv, h))
        = Except.ok (items, header) ↔
      ∃ rv, load = Except.ok rv ∧ items = sort rv ∧ hdr items = Except.ok header := by
  cases load with
  | error e =>
    constructor
    · intro h; cases h
    · rintro ⟨rv, h, _⟩; cases h
  | ok rv =>
    simp only [bind, Except.bind, pure, Except.pure, Except.ok.injEq, exists_eq_left']
    cases hh : hdr (sort rv) with
    | error e =>
      constructor
      · intro h; cases h
      · rintro ⟨h1, h2⟩
        rw [h1, hh] at h2
        cases h2
    | ok hd =>
      simp only [Except.ok.injEq, Prod.mk.injEq]
      constructor
      · rintro ⟨h1, h2⟩
        refine ⟨h1.symm, ?_⟩
        rw [← h1, hh, h2]
      · rintro ⟨h1, h2⟩
        rw [h1, hh] at h2
        exact ⟨h1.symm, Except.ok.inj h2⟩

/-- The list that `InventoryViewState::load_items` returns is the sorted list of
`load_inventory`, and it returns one exactly when `load_inventory` does and the
count fits the header line. -/
theorem inventory_load_items_eq (host : EndiannessEnum) (env : Extern) (memory : MemoryReader)
    (addresses : AddressList) (items : ItemList) (header : String) :
    InventoryViewState.load_items host env memory addresses = Except.ok (items, header) ↔
      ∃ rv, load_inventory host env memory addresses = Except.ok rv ∧
        items = std_sort (lhs_code_lt_rhs host) rv ∧
        setup_header_line "--- Inventory " (to_int32 items.length) 2 " / 30 ---"
          = Except.ok header :=
  load_items_generic (load_inventory host env memory addresses)
    (fun rv => setup_header_line "--- Inventory " (to_int32 rv.length) 2 " / 30 ---")
    (std_sort (lhs_code_lt_rhs host)) items header

/-- The list that `BankViewState::load_items` returns is the sorted list of
`load_bank`, and it returns one exactly when `load_bank` does and the count fits
the header line. -/
theorem bank_load_items_eq (host : EndiannessEnum) (env : Extern) (memory : MemoryReader)
    (addresses : AddressList) (items : ItemList) (header : String) :
    BankViewState.load_items host env memory addresses = Except.ok (items, header) ↔
      ∃ rv, load_bank host env memory addresses = Except.ok rv ∧
        items = std_sort (lhs_code_lt_rhs host) rv ∧
        setup_header_line "--- Bank "
          (to_int32 ((items.length + 18446744073709551615) % 18446744073709551616)) 3
          " / 200 ---" = Except.ok header :=
  load_items_generic (load_bank host env memory addresses)
    (fun rv => setup_header_line "--- Bank "
      (to_int32 ((rv.length + 18446744073709551615) % 18446744073709551616)) 3 " / 200 ---")
    (std_sort (lhs_code_lt_rhs host)) items header

theorem load_gen_loop_in_order (loadf : LoadItemFunc) (host : EndiannessEnum)
    (memory : MemoryReader) (fullcode_offset : Address) :
    ∀ (addresses : AddressList) (rv items : ItemList),
      load_gen_loop loadf host memory fullcode_offset addresses rv = Except.ok items →
      ∃ decoded, items = rv ++ decoded ∧
        List.Forall₂
          (fun addr item =>
            load_gen_body loadf host memory fullcode_offset addr = Except.ok item)
          addresses decoded := by
  intro addresses
  induction addresses with
  | nil =>
    intro rv items h
    simp only [load_gen_loop, pure, Except.pure, Except.ok.injEq] at h
    exact ⟨[], by rw [← h, List.append_nil], List.Forall₂.nil⟩
  | cons a rest ih =>
    intro rv items h
    cases hbody : load_gen_body loadf host memory fullcode_offset a with
    | error e => simp [load_gen_loop, hbody, bind, Except.bind] at h
    | ok item =>
      simp only [load_gen_loop, hbody, bind, Except.bind] at h
      obtain ⟨decoded, h1, h2⟩ := ih (rv ++ [item]) items h
      refine ⟨item :: decoded, ?_, List.Forall₂.cons hbody h2⟩
      rw [h1, List.append_assoc]
      rfl

/-- The function `load_inventory` returns the records in the order of the address
list: record `i` is the one decoded at address `i`. -/
theorem load_inventory_in_order (host : EndiannessEnum) (env : Extern) (memory : MemoryReader)
    (addresses : AddressList) (rv : ItemList)
    (h : load_inventory host env memory addresses = Except.ok rv) :
    List.Forall₂
      (fun addr item =>
        load_gen_body (fun item => item.load_from host env) host memory k_item_code_offset addr
          = Except.ok item)
      addresses rv := by
  unfold load_inventory load_gen at h
  obtain ⟨decoded, h1, h2⟩ := load_gen_loop_in_order _ host memory _ addresses [] rv h
  rw [h1]
  exact h2

/-- The function `load_bank` returns the records in the order of the address
list, followed by the record of the meseta when the base pointer is not null. -/
theorem load_bank_in_order (host : EndiannessEnum) (env : Extern) (memory : MemoryReader)
    (addresses : AddressList) (rv : ItemList)
    (h : load_bank host env memory addresses = Except.ok rv) :
    ∃ decoded tail, rv = decoded ++ tail ∧ tail.length ≤ 1 ∧
      (∀ item ∈ tail, ∃ m, item = { derived := ItemClass.Meseta m }) ∧
      List.Forall₂
        (fun addr item =>
          load_gen_body (fun item => item.load_from_bank host env) host memory 0 addr
            = Except.ok item)
        addresses decoded := by
  unfold load_bank at h
  cases hg : load_gen (fun item => item.load_from_bank host env) host memory addresses 0 with
  | error e => simp [hg, bind, Except.bind] at h
  | ok decoded =>
    have hdec : List.Forall₂
        (fun addr item =>
          load_gen_body (fun item => item.load_from_bank host env) host memory 0 addr
            = Except.ok item)
        addresses decoded := by
      unfold load_gen at hg
      obtain ⟨d, h1, h2⟩ := load_gen_loop_in_order _ host memory _ addresses [] decoded hg
      rw [h1]
      exact h2
    cases hp : load_bank_ptr host memory with
    | error e => simp [hg, hp, bind, Except.bind] at h
    | ok bank_ptr =>
      by_cases h0 : bank_ptr = 0
      · simp only [hg, hp, bind, Except.bind, h0, ne_eq, not_true_eq_false, if_false, pure,
          Except.pure, Except.ok.injEq] at h
        exact ⟨decoded, [], by rw [← h, List.append_nil], by simp, by simp, hdec⟩
      · simp only [hg, hp, bind, Except.bind, h0, ne_eq, not_false_eq_true, if_true] at h
        cases hq : memory.read_i32 host ((bank_ptr + 4) % 4294967296) with
        | error e => simp [hq] at h
        | ok q =>
          simp only [hq, pure, Except.pure, Except.ok.injEq] at h
          refine ⟨decoded, [{ derived := ItemClass.Meseta (Meseta.set_quantity {} q) }],
            h.symm, by simp, ?_, hdec⟩
          intro item hi
          rw [List.mem_singleton] at hi
          exact ⟨_, hi⟩

/-- Claim C29. The sample memory holds two records, with the class bytes 0x05 and
0xFF. On the little-endian host `load_inventory` returns them in the order of
the address list, and `InventoryViewState::load_items` returns the record with
the class byte 0xFF first: the record that follows it has the strictly smaller
code 0x050000, read with the class byte first. -/
theorem load_items_misorders_high_class :
    load_inventory k_little_endian sample_extern unknown_class_memory [0x1000, 0x2000]
      = Except.ok [code_item 0x000005, code_item 0x0000FF] ∧
    InventoryViewState.load_items k_little_endian sample_extern unknown_class_memory
        [0x1000, 0x2000]
      = Except.ok ([code_item 0x0000FF, code_item 0x000005], "--- Inventory  2 / 30 ---") ∧
    reverse_three_bytes 0x000005 < reverse_three_bytes 0x0000FF := by
  refine ⟨rfl, rfl, by decide⟩

/-! ## Name and rarity of a record -/

theorem set_fullcode_and_kills_info (host : EndiannessEnum) (env : Extern) (self r : Item)
    (fullcode : Nat) (addr : Address) (memory : MemoryReader)
    (h : self.set_fullcode_and_kills host env fullcode addr memory = Except.ok r) :
    r.name = (get_item_info host env fullcode).name ∧
    r.rarity = (get_item_info host env fullcode).rarity ∧ r.fullcode = fullcode := by
  unfold Item.set_fullcode_and_kills at h
  simp only [bind, Except.bind, pure, Except.pure] at h
  split at h
  · cases hk : memory.read_u16 host (addr_add addr 0xE8) with
    | error e => simp [hk] at h
    | ok k =>
      simp only [hk, Except.ok.injEq] at h
      subst h
      exact ⟨rfl, rfl, rfl⟩
  · simp only [Except.ok.injEq] at h
    subst h
    exact ⟨rfl, rfl, rfl⟩

theorem load_level_and_type_name (host : EndiannessEnum) (self t : Tech) (memory : MemoryReader)
    (leveladdr typeaddr : Address) (s : String)
    (h : self.load_level_and_type host memory leveladdr typeaddr = Except.ok (t, s)) :
    s = t.type.to_string := by
  unfold Tech.load_level_and_type at h
  simp only [bind, Except.bind, pure, Except.pure] at h
  cases hw : memory.read_u32 host leveladdr with
  | error e => simp [hw] at h
  | ok w =>
    simp only [hw] at h
    cases hc : memory.read_u8 typeaddr with
    | error e => simp [hc] at h
    | ok code =>
      simp only [hc] at h
      cases ht : get_tech_type (code : Int) with
      | error e => simp [ht] at h
      | ok type =>
        simp only [ht, Except.ok.injEq, Prod.mk.injEq] at h
        rw [← h.1, ← h.2]

/-- What a field loader leaves of the members of the base class: `x` is the record
before the call and the result differs from it in the derived part only, or, for
a technique disk, in the derived part and the name. -/
theorem field_loader_keeps (x r : Item)
    (h : (∃ d, r = { x with derived := d } ∧ ∀ t, d ≠ ItemClass.Tech t) ∨
      (∃ t, r = { x with derived := ItemClass.Tech t, name := t.type.to_string })) :
    r.rarity = x.rarity ∧ r.fullcode = x.fullcode ∧
    ((∀ t, r.derived ≠ ItemClass.Tech t) → r.name = x.name) ∧
    (∀ t, r.derived = ItemClass.Tech t → r.name = t.type.to_string) := by
  rcases h with ⟨d, rfl, hd⟩ | ⟨t, rfl⟩
  · exact ⟨rfl, rfl, fun _ => rfl, fun t ht => absurd ht (hd t)⟩
  · refine ⟨rfl, rfl, fun hn => absurd rfl (hn t), ?_⟩
    intro t2 ht2
    simp only [ItemClass.Tech.injEq] at ht2
    rw [← ht2]

theorem load_from__shape (host : EndiannessEnum) (env : Extern) (self r : Item)
    (addr : Address) (memory : MemoryReader)
    (h : self.load_from_ host env addr memory = Except.ok r) :
    (∃ d, r = { self with derived := d } ∧ ∀ t, d ≠ ItemClass.Tech t) ∨
      (∃ t, r = { self with derived := ItemClass.Tech t, name := t.type.to_string }) := by
  unfold Item.load_from_ at h
  cases hd : self.derived with
  | Weapon w =>
    simp only [hd, bind, Except.bind, pure, Except.pure] at h
    cases hl : w.load_from_ addr memory with
    | error e => simp [hl] at h
    | ok v =>
      simp only [hl, Except.ok.injEq] at h
      exact Or.inl ⟨_, h.symm, fun t => by simp⟩
  | EsWeapon w =>
    simp only [hd, bind, Except.bind, pure, Except.pure] at h
    cases hl : w.load_from_ host addr memory with
    | error e => simp [hl] at h
    | ok v =>
      simp only [hl, Except.ok.injEq] at h
      exact Or.inl ⟨_, h.symm, fun t => by simp⟩
  | Frame f =>
    simp only [hd, bind, Except.bind, pure, Except.pure] at h
    cases hl : f.load_from_ host env self.fullcode addr memory with
    | error e => simp [hl] at h
    | ok v =>
      simp only [hl, Except.ok.injEq] at h
      exact Or.inl ⟨_, h.symm, fun t => by simp⟩
  | Barrier b =>
    simp only [hd, bind, Except.bind, pure, Except.pure] at h
    cases hl : b.load_from_ host env self.fullcode addr memory with
    | error e => simp [hl] at h
    | ok v =>
      simp only [hl, Except.ok.injEq] at h
      exact Or.inl ⟨_, h.symm, fun t => by simp⟩
  | Unit =>
    simp only [hd, pure, Except.pure, Except.ok.injEq] at h
    exact Or.inl ⟨ItemClass.Unit, by rw [← h, ← hd], fun t => by simp⟩
  | Mag m =>
    simp only [hd, bind, Except.bind, pure, Except.pure] at h
    cases hl : m.load_from_ host env addr memory with
    | error e => simp [hl] at h
    | ok v =>
      simp only [hl, Except.ok.injEq] at h
      exact Or.inl ⟨_, h.symm, fun t => by simp⟩
  | Tool t =>
    simp only [hd, bind, Except.bind, pure, Except.pure] at h
    cases hl : t.load_from_ host addr memory with
    | error e => simp [hl] at h
    | ok v =>
      simp only [hl, Except.ok.injEq] at h
      exact Or.inl ⟨_, h.symm, fun t => by simp⟩
  | Tech t =>
    simp only [hd, bind, Except.bind, pure, Except.pure] at h
    cases hl : t.load_from_ host addr memory with
    | error e => simp [hl] at h
    | ok v =>
      obtain ⟨t2, s⟩ := v
      simp only [hl, Except.ok.injEq] at h
      have hs := load_level_and_type_name host t t2 memory _ _ s hl
      exact Or.inr ⟨t2, by rw [← h, hs]⟩
  | Meseta m =>
    simp only [hd, bind, Except.bind, pure, Except.pure] at h
    cases hl : m.load_from_ host addr memory with
    | error e => simp [hl] at h
    | ok v =>
      simp only [hl, Except.ok.injEq] at h
      exact Or.inl ⟨_, h.symm, fun t => by simp⟩
  | TotallyUnknownItem =>
    simp only [hd, pure, Except.pure, Except.ok.injEq] at h
    exact Or.inl ⟨ItemClass.TotallyUnknownItem, by rw [← h, ← hd], fun t => by simp⟩

theorem load_from__keeps (host : EndiannessEnum) (env : Extern) (self r : Item)
    (addr : Address) (memory : MemoryReader)
    (h : self.load_from_ host env addr memory = Except.ok r) :
    r.rarity = self.rarity ∧ r.fullcode = self.fullcode ∧
    ((∀ t, r.derived ≠ ItemClass.Tech t) → r.name = self.name) ∧
    (∀ t, r.derived = ItemClass.Tech t → r.name = t.type.to_string) :=
  field_loader_keeps self r (load_from__shape host env self r addr memory h)

theorem load_from_bank__shape (host : EndiannessEnum) (env : Extern) (self r : Item)
    (addr : Address) (memory : MemoryReader)
    (h : self.load_from_bank_ host env addr memory = Except.ok r) :
    (∃ d, r = { self with derived := d } ∧ ∀ t, d ≠ ItemClass.Tech t) ∨
      (∃ t, r = { self with derived := ItemClass.Tech t, name := t.type.to_string }) := by
  unfold Item.load_from_bank_ at h
  cases hd : self.derived with
  | Weapon w =>
    simp only [hd, bind, Except.bind, pure, Except.pure] at h
    cases hl : w.load_from_bank_ addr memory with
    | error e => simp [hl] at h
    | ok v =>
      simp only [hl, Except.ok.injEq] at h
      exact Or.inl ⟨_, h.symm, fun t => by simp⟩
  | EsWeapon w =>
    simp only [hd, bind, Except.bind, pure, Except.pure] at h
    cases hl : w.load_from_bank_ host addr memory with
    | error e => simp [hl] at h
    | ok v =>
      simp only [hl, Except.ok.injEq] at h
      exact Or.inl ⟨_, h.symm, fun t => by simp⟩
  | Frame f =>
    simp only [hd, bind, Except.bind, pure, Except.pure] at h
    cases hl : f.load_from_bank_ host env self.fullcode addr memory with
    | error e => simp [hl] at h
    | ok v =>
      simp only [hl, Except.ok.injEq] at h
      exact Or.inl ⟨_, h.symm, fun t => by simp⟩
  | Barrier b =>
    simp only [hd, bind, Except.bind, pure, Except.pure] at h
    cases hl : b.load_from_bank_ host env self.fullcode addr memory with
    | error e => simp [hl] at h
    | ok v =>
      simp only [hl, Except.ok.injEq] at h
      exact Or.inl ⟨_, h.symm, fun t => by simp⟩
  | Unit =>
    simp only [hd, pure, Except.pure, Except.ok.injEq] at h
    exact Or.inl ⟨ItemClass.Unit, by rw [← h, ← hd], fun t => by simp⟩
  | Mag m =>
    simp only [hd, bind, Except.bind, pure, Except.pure] at h
    cases hl : m.load_from_bank_ host addr memory with
    | error e => simp [hl] at h
    | ok v =>
      simp only [hl, Except.ok.injEq] at h
      exact Or.inl ⟨_, h.symm, fun t => by simp⟩
  | Tool t =>
    simp only [hd, bind, Except.bind, pure, Except.pure] at h
    cases hl : t.load_from_bank_ addr memory with
    | error e => simp [hl] at h
    | ok v =>
      simp only [hl, Except.ok.injEq] at h
      exact Or.inl ⟨_, h.symm, fun t => by simp⟩
  | Tech t =>
    simp only [hd, bind, Except.bind, pure, Except.pure] at h
    cases hl : t.load_from_bank_ host addr memory with
    | error e => simp [hl] at h
    | ok v =>
      obtain ⟨t2, s⟩ := v
      simp only [hl, Except.ok.injEq] at h
      have hs := load_level_and_type_name host t t2 memory _ _ s hl
      exact Or.inr ⟨t2, by rw [← h, hs]⟩
  | Meseta m =>
    simp only [hd, bind, Except.bind, pure, Except.pure] at h
    cases hl : m.load_from_bank_ host addr memory with
    | error e => simp [hl] at h
    | ok v =>
      simp only [hl, Except.ok.injEq] at h
      exact Or.inl ⟨_, h.symm, fun t => by simp⟩
  | TotallyUnknownItem =>
    simp only [hd, pure, Except.pure, Except.ok.injEq] at h
    exact Or.inl ⟨ItemClass.TotallyUnknownItem, by rw [← h, ← hd], fun t => by simp⟩

theorem load_from_bank__keeps (host : EndiannessEnum) (env : Extern) (self r : Item)
    (addr : Address) (memory : MemoryReader)
    (h : self.load_from_bank_ host env addr memory = Except.ok r) :
    r.rarity = self.rarity ∧ r.fullcode = self.fullcode ∧
    ((∀ t, r.derived ≠ ItemClass.Tech t) → r.name = self.name) ∧
    (∀ t, r.derived = ItemClass.Tech t → r.name = t.type.to_string) :=
  field_loader_keeps self r (load_from_bank__shape host env self r addr memory h)

theorem decoded_record_info (host : EndiannessEnum) (env : Extern) (item : Item)
    (h : decoded_record host env item) :
    item.rarity = (get_item_info host env item.fullcode).rarity ∧
    ((∀ t, item.derived ≠ ItemClass.Tech t) →
      item.name = (get_item_info host env item.fullcode).name) ∧
    (∀ t, item.derived = ItemClass.Tech t → item.name = t.type.to_string) := by
  obtain ⟨self, addr, memory, h | h⟩ := h
  · unfold Item.load_from at h
    simp only [bind, Except.bind] at h
    cases hw : memory.read_u32 host (addr_add addr k_item_code_offset) with
    | error e => simp [hw] at h
    | ok w =>
      simp only [hw] at h
      cases hs : self.set_fullcode_and_kills host env (w &&& 0xFFFFFF) addr memory with
      | error e => simp [hs] at h
      | ok x =>
        simp only [hs] at h
        obtain ⟨n1, n2, n3⟩ := set_fullcode_and_kills_info host env self x _ addr memory hs
        obtain ⟨k1, k2, k3, k4⟩ := load_from__keeps host env x item addr memory h
        rw [k1, k2, n2, n3]
        refine ⟨rfl, fun hn => ?_, k4⟩
        rw [k3 hn, n1]
  · unfold Item.load_from_bank at h
    simp only [bind, Except.bind] at h
    cases hw : memory.read_u32 host addr with
    | error e => simp [hw] at h
    | ok w =>
      simp only [hw] at h
      cases hs : self.set_fullcode_and_kills host env (w &&& 0xFFFFFF) addr memory with
      | error e => simp [hs] at h
      | ok x =>
        simp only [hs] at h
        obtain ⟨n1, n2, n3⟩ := set_fullcode_and_kills_info host env self x _ addr memory hs
        obtain ⟨k1, k2, k3, k4⟩ := load_from_bank__keeps host env x item addr memory h
        rw [k1, k2, n2, n3]
        refine ⟨rfl, fun hn => ?_, k4⟩
        rw [k3 hn, n1]

/-- Claim C30, as stated, fails. The sample memory holds two technique disks with
the same code 0x000203; both are decoded, the first has the name Foie and the
second the name Resta, and the table has no name for the code. -/
theorem technique_disks_differ_in_name :
    ∃ a b, load_inventory k_little_endian sample_extern two_techs_memory [0x1000, 0x2000]
        = Except.ok [a, b] ∧
      a.fullcode = b.fullcode ∧ a.name = "Foie" ∧ b.name = "Resta" ∧
      (get_item_info k_little_endian sample_extern a.fullcode).name = "<unknown item>" :=
  ⟨_, _, rfl, rfl, rfl, rfl, rfl⟩

/-- Claim C30, amended. For two decoded records of any kind with the same code,
from any memory and any address: the rarities are equal, and each is the rarity
that the table lookup returns for the code; the names are equal and are the name
that the lookup returns (the name of the unknown item when the table has no
entry) unless a record is a technique disk, whose name is the name of its spell
kind. -/
theorem rarity_and_name_from_code (host : EndiannessEnum) (env : Extern) (a b : Item)
    (ha : decoded_record host env a) (hb : decoded_record host env b)
    (hcode : a.fullcode = b.fullcode) :
    a.rarity = b.rarity ∧
    a.rarity = (get_item_info host env a.fullcode).rarity ∧
    ((∀ t, a.derived ≠ ItemClass.Tech t) → (∀ t, b.derived ≠ ItemClass.Tech t) →
      a.name = b.name ∧ a.name = (get_item_info host env a.fullcode).name) ∧
    (∀ t, a.derived = ItemClass.Tech t → a.name = t.type.to_string) ∧
    (∀ t, b.derived = ItemClass.Tech t → b.name = t.type.to_string) ∧
    (env.m_info_map (prepare_code host a.fullcode) = Option.none →
      (get_item_info host env a.fullcode).name = "<unknown item>" ∧
      (get_item_info host env a.fullcode).rarity = Rarity.common) := by
  obtain ⟨a1, a2, a3⟩ := decoded_record_info host env a ha
  obtain ⟨b1, b2, b3⟩ := decoded_record_info host env b hb
  refine ⟨by rw [a1, b1, hcode], a1, ?_, a3, b3, ?_⟩
  · intro hna hnb
    exact ⟨by rw [a2 hna, b2 hnb, hcode], a2 hna⟩
  · intro hnone
    unfold get_item_info
    simp only [hnone]
    constructor <;> first | rfl | trivial
/-- Two Sabers, one decoded in the live layout and one in the bank layout: they
differ in grind and attributes and have the same rarity and the same name. -/
theorem rarity_and_name_from_code_witness :
    decoded_record k_little_endian sample_extern live_saber ∧
    decoded_record k_little_endian sample_extern bank_saber ∧
    live_saber.fullcode = bank_saber.fullcode ∧
    live_saber ≠ bank_saber ∧
    live_saber.rarity = bank_saber.rarity ∧
    live_saber.name = bank_saber.name :=
  ⟨⟨{ derived := ItemClass.Weapon {} }, 0x1000, two_weapons_memory, Or.inl rfl⟩,
   ⟨{ derived := ItemClass.Weapon {} }, 0, bank_saber_memory, Or.inr rfl⟩,
   rfl, by decide,
   (rarity_and_name_from_code k_little_endian sample_extern live_saber bank_saber
     ⟨{ derived := ItemClass.Weapon {} }, 0x1000, two_weapons_memory, Or.inl rfl⟩
     ⟨{ derived := ItemClass.Weapon {} }, 0, bank_saber_memory, Or.inr rfl⟩ rfl).1,
   ((rarity_and_name_from_code k_little_endian sample_extern live_saber bank_saber
     ⟨{ derived := ItemClass.Weapon {} }, 0x1000, two_weapons_memory, Or.inl rfl⟩
     ⟨{ derived := ItemClass.Weapon {} }, 0, bank_saber_memory, Or.inr rfl⟩ rfl).2.2.1
     (fun t => by simp [live_saber]) (fun t => by simp [bank_saber])).1⟩

/-! ## The record of the meseta in the bank list -/

/-- The list of `load_bank`: the records decoded at the addresses in their order,
followed by the record of the meseta exactly when the base pointer is not null. -/
theorem load_bank_parts (host : EndiannessEnum) (env : Extern) (memory : MemoryReader)
    (addresses : AddressList) (rv : ItemList) (bank_ptr : Nat)
    (hp : load_bank_ptr host memory = Except.ok bank_ptr)
    (h : load_bank host env memory addresses = Except.ok rv) :
    ∃ decoded,
      List.Forall₂
        (fun addr item =>
          load_gen_body (fun item => item.load_from_bank host env) host memory 0 addr
            = Except.ok item)
        addresses decoded ∧
      ((bank_ptr = 0 ∧ rv = decoded) ∨
        (bank_ptr ≠ 0 ∧ ∃ q, memory.read_i32 host ((bank_ptr + 4) % 4294967296) = Except.ok q ∧
          rv = decoded ++ [{ derived := ItemClass.Meseta (Meseta.set_quantity {} q) }])) := by
  unfold load_bank at h
  cases hg : load_gen (fun item => item.load_from_bank host env) host memory addresses 0 with
  | error e => simp [hg, bind, Except.bind] at h
  | ok decoded =>
    have hdec : List.Forall₂
        (fun addr item =>
          load_gen_body (fun item => item.load_from_bank host env) host memory 0 addr
            = Except.ok item)
        addresses decoded := by
      unfold load_gen at hg
      obtain ⟨d, h1, h2⟩ := load_gen_loop_in_order _ host memory _ addresses [] decoded hg
      rw [h1]
      exact h2
    refine ⟨decoded, hdec, ?_⟩
    by_cases h0 : bank_ptr = 0
    · simp only [hg, hp, bind, Except.bind, h0, ne_eq, not_true_eq_false, if_false, pure,
        Except.pure, Except.ok.injEq] at h
      exact Or.inl ⟨h0, h.symm⟩
    · simp only [hg, hp, bind, Except.bind, h0, ne_eq, not_false_eq_true, if_true] at h
      cases hq : memory.read_i32 host ((bank_ptr + 4) % 4294967296) with
      | error e => simp [hq] at h
      | ok q =>
        simp only [hq, pure, Except.pure, Except.ok.injEq] at h
        exact Or.inr ⟨h0, q, rfl, h.symm⟩

/-- Claim C32. In a memory of zeros the bank base pointer reads as null, the address
refresh leaves the empty list, and `load_bank` succeeds on it with the empty list: no
record of the meseta is appended, and the length is the number of addresses, not one
more. The header of the bank view then shows the count -1. -/
theorem bank_list_without_meseta :
    update_bank_pointers k_little_endian zero_bank_memory [] = ([], Option.none) ∧
    load_bank_ptr k_little_endian zero_bank_memory = Except.ok 0 ∧
    load_bank k_little_endian sample_extern zero_bank_memory [] = Except.ok [] ∧
    BankViewState.load_items k_little_endian sample_extern zero_bank_memory []
      = Except.ok ([], "--- Bank  -1 / 200 ---") :=
  ⟨rfl, rfl, rfl, rfl⟩

/-- When `load_bank` succeeds and the bank base pointer is not null, its result is the
records decoded at the addresses followed by one record of the meseta, so its length
is the number of addresses plus one, and the header of the bank view is built with
the number of addresses. When the base pointer is null the result is the decoded
records alone. -/
theorem bank_list_meseta_with_base (host : EndiannessEnum) (env : Extern)
    (memory : MemoryReader) (addresses : AddressList) (rv : ItemList) (bank_ptr : Nat)
    (hp : load_bank_ptr host memory = Except.ok bank_ptr)
    (h : load_bank host env memory addresses = Except.ok rv)
    (hint : addresses.length < 2147483648) :
    (bank_ptr ≠ 0 →
      rv.length = addresses.length + 1 ∧
      (∃ decoded q,
        rv = decoded ++ [{ derived := ItemClass.Meseta (Meseta.set_quantity {} q) }] ∧
        memory.read_i32 host ((bank_ptr + 4) % 4294967296) = Except.ok q ∧
        List.Forall₂
          (fun addr item =>
            load_gen_body (fun item => item.load_from_bank host env) host memory 0 addr
              = Except.ok item)
          addresses decoded) ∧
      (∀ items header,
        BankViewState.load_items host env memory addresses = Except.ok (items, header) →
        setup_header_line "--- Bank " (addresses.length : Int) 3 " / 200 ---"
          = Except.ok header)) ∧
    (bank_ptr = 0 →
      rv.length = addresses.length ∧
      List.Forall₂
        (fun addr item =>
          load_gen_body (fun item => item.load_from_bank host env) host memory 0 addr
            = Except.ok item)
        addresses rv) := by
  obtain ⟨decoded, hdec, hcase⟩ := load_bank_parts host env memory addresses rv bank_ptr hp h
  have hlen : decoded.length = addresses.length := hdec.length_eq.symm
  constructor
  · intro hbase
    rcases hcase with ⟨h0, _⟩ | ⟨_, q, hq, hrv⟩
    · exact absurd h0 hbase
    · have hrvlen : rv.length = addresses.length + 1 := by
        rw [hrv, List.length_append, hlen]
        rfl
      refine ⟨hrvlen, ⟨decoded, q, hrv, hq, hdec⟩, ?_⟩
      intro items header hitems
      obtain ⟨rv2, hl, hsorted, hhdr⟩ :=
        (bank_load_items_eq host env memory addresses items header).1 hitems
      rw [h] at hl
      simp only [Except.ok.injEq] at hl
      have hil : items.length = addresses.length + 1 := by
        rw [hsorted, (std_sort_perm _ rv2).length_eq, ← hl, hrvlen]
      have e2 : (items.length + 18446744073709551615) % 18446744073709551616
          = addresses.length := by omega
      rw [e2, to_int32_small _ hint] at hhdr
      exact hhdr
  · intro h0
    rcases hcase with ⟨_, hrv⟩ | ⟨hbase, _⟩
    · rw [hrv]
      exact ⟨hlen, hdec⟩
    · exact absurd h0 hbase

/-- The sample bank has the base 0x221C and three slots of zeros: the list has the
three records and the record of the meseta, and the header shows the count 3. -/
theorem bank_list_meseta_with_base_sample :
    load_bank_ptr k_little_endian bank_sample_memory = Except.ok 0x221C ∧
    update_bank_pointers k_little_endian bank_sample_memory []
      = ([0x2224, 0x223C, 0x2254], Option.none) ∧
    (∃ rv, load_bank k_little_endian sample_extern bank_sample_memory [0x2224, 0x223C, 0x2254]
        = Except.ok rv ∧ rv.length = 3 + 1) ∧
    (∃ items, BankViewState.load_items k_little_endian sample_extern bank_sample_memory
        [0x2224, 0x223C, 0x2254] = Except.ok (items, "--- Bank   3 / 200 ---")) :=
  ⟨rfl, rfl,
   ⟨_, rfl,
    ((bank_list_meseta_with_base k_little_endian sample_extern bank_sample_memory
      [0x2224, 0x223C, 0x2254] _ 0x221C rfl rfl (by decide)).1 (by decide)).1⟩,
   ⟨_, rfl⟩⟩

/-! ## Order of the records of the floor -/

theorem load_gen_loop_of_decoded (loadf : LoadItemFunc) (host : EndiannessEnum)
    (memory : MemoryReader) (fullcode_offset : Address) :
    ∀ (addresses : AddressList) (rv decoded : ItemList),
      List.Forall₂
          (fun addr item =>
            load_gen_body loadf host memory fullcode_offset addr = Except.ok item)
          addresses decoded →
      load_gen_loop loadf host memory fullcode_offset addresses rv
        = Except.ok (rv ++ decoded) := by
  intro addresses
  induction addresses with
  | nil =>
    intro rv decoded h
    cases h
    simp only [load_gen_loop, List.append_nil]
    rfl
  | cons a rest ih =>
    intro rv decoded h
    cases h with
    | cons hbody htail =>
      simp only [load_gen_loop, hbody, bind, Except.bind]
      rw [ih _ _ htail, List.append_assoc]
      rfl

theorem load_floor_iff (host : EndiannessEnum) (env : Extern) (memory : MemoryReader)
    (addresses : AddressList) (rv : ItemList) :
    load_floor host env memory addresses = Except.ok rv ↔
      List.Forall₂
        (fun addr item =>
          load_gen_body (fun item => item.load_from host env) host memory k_item_code_offset
            addr = Except.ok item)
        addresses rv := by
  unfold load_floor load_gen
  constructor
  · intro h
    obtain ⟨decoded, h1, h2⟩ := load_gen_loop_in_order _ host memory _ addresses [] rv h
    rw [h1]
    exact h2
  · intro h
    exact load_gen_loop_of_decoded _ host memory _ addresses [] rv h

theorem floor_load_items_eq (host : EndiannessEnum) (env : Extern) (memory : MemoryReader)
    (addresses : AddressList) (items : ItemList) (header : String) :
    FloorViewState.load_items host env memory addresses = Except.ok (items, header) ↔
      ∃ rv, load_floor host env memory addresses = Except.ok rv ∧ items = rv.reverse ∧
        setup_header_line "--- Floor " (to_int32 items.length) 3
          (if items.length = 1 then " item ---" else " items ---") = Except.ok header :=
  load_items_generic (load_floor host env memory addresses)
    (fun rv => setup_header_line "--- Floor " (to_int32 rv.length) 3
      (if rv.length = 1 then " item ---" else " items ---"))
    List.reverse items header

theorem forall₂_getElem_opt {α β : Type} (R : α → β → Prop) :
    ∀ (l₁ : List α) (l₂ : List β), List.Forall₂ R l₁ l₂ →
      ∀ i, i < l₂.length → ∃ a b, l₁[i]? = some a ∧ l₂[i]? = some b ∧ R a b := by
  intro l₁ l₂ h
  induction h with
  | nil => intro i hi; cases hi
  | cons hab _ ih =>
    intro i hi
    cases i with
    | zero => exact ⟨_, _, List.getElem?_cons_zero, List.getElem?_cons_zero, hab⟩
    | succ j =>
      obtain ⟨a, b, h1, h2, h3⟩ := ih j (by simpa using hi)
      exact ⟨a, b, by simpa using h1, by simpa using h2, h3⟩

/-- Claim C40. The address list of the floor view is the reverse of the list that
`update_floor_pointers` leaves, and `FloorViewState::load_items` returns a record list
exactly when every address decodes and the header can be built; the list is then the
reverse of the records decoded at the addresses in their order. So record `i` of the
`n` shown is the one decoded at entry `n - 1 - i` of the address list of the view, and
for the address list of the view the records shown follow the order of the output of
`update_floor_pointers`. -/
theorem floor_view_reverses_twice (host : EndiannessEnum) (env : Extern)
    (memory : MemoryReader) :
    (∀ addresses out, update_floor_pointers host memory addresses = (out, Option.none) →
      FloorViewState.load_addresses host memory addresses = (out.reverse, Option.none)) ∧
    (∀ addresses items header,
      FloorViewState.load_items host env memory addresses = Except.ok (items, header) ↔
        (∃ rv, List.Forall₂
            (fun addr item =>
              load_gen_body (fun item => item.load_from host env) host memory
                k_item_code_offset addr = Except.ok item)
            addresses rv ∧ items = rv.reverse) ∧
        setup_header_line "--- Floor " (to_int32 items.length) 3
          (if items.length = 1 then " item ---" else " items ---") = Except.ok header) ∧
    (∀ addresses items header,
      FloorViewState.load_items host env memory addresses = Except.ok (items, header) →
      items.length = addresses.length ∧
      ∀ i, i < addresses.length → ∃ addr item,
        addresses[addresses.length - 1 - i]? = some addr ∧ items[i]? = some item ∧
        load_gen_body (fun item => item.load_from host env) host memory
          k_item_code_offset addr = Except.ok item) ∧
    (∀ out items header,
      FloorViewState.load_items host env memory out.reverse = Except.ok (items, header) →
      List.Forall₂
        (fun addr item =>
          load_gen_body (fun item => item.load_from host env) host memory
            k_item_code_offset addr = Except.ok item)
        out items) := by
  have key : ∀ addresses items header,
      FloorViewState.load_items host env memory addresses = Except.ok (items, header) →
      List.Forall₂
        (fun addr item =>
          load_gen_body (fun item => item.load_from host env) host memory
            k_item_code_offset addr = Except.ok item)
        addresses.reverse items := by
    intro addresses items header h
    obtain ⟨rv, h1, h2, _⟩ := (floor_load_items_eq host env memory addresses items header).1 h
    rw [h2]
    exact List.forall₂_reverse_iff.2 ((load_floor_iff host env memory addresses rv).1 h1)
  refine ⟨?_, ?_, ?_, ?_⟩
  · intro addresses out h
    unfold FloorViewState.load_addresses
    rw [h]
  · intro addresses items header
    rw [floor_load_items_eq]
    constructor
    · rintro ⟨rv, h1, h2, h3⟩
      exact ⟨⟨rv, (load_floor_iff host env memory addresses rv).1 h1, h2⟩, h3⟩
    · rintro ⟨⟨rv, h1, h2⟩, h3⟩
      exact ⟨rv, (load_floor_iff host env memory addresses rv).2 h1, h2, h3⟩
  · intro addresses items header h
    have hf := key addresses items header h
    have hlen : items.length = addresses.length := by
      rw [← hf.length_eq, List.length_reverse]
    refine ⟨hlen, ?_⟩
    intro i hi
    obtain ⟨a, b, h1, h2, h3⟩ := forall₂_getElem_opt _ _ _ hf i (by omega)
    refine ⟨a, b, ?_, h2, h3⟩
    rw [List.getElem?_reverse hi] at h1
    exact h1
  · intro out items header h
    have hf := key out.reverse items header h
    rw [List.reverse_reverse] at hf
    exact hf

/-- The sample floor: `update_floor_pointers` leaves the addresses 0x2000, 0x1000; the
view keeps 0x1000, 0x2000 and shows the record of 0x2000 first. -/
theorem floor_view_reverses_twice_witness :
    update_floor_pointers k_little_endian floor_memory [] = ([0x2000, 0x1000], Option.none) ∧
    FloorViewState.load_addresses k_little_endian floor_memory []
      = ([0x1000, 0x2000], Option.none) ∧
    FloorViewState.load_items k_little_endian sample_extern floor_memory [0x1000, 0x2000]
      = Except.ok ([code_item 6, code_item 5], "--- Floor   2 items ---") ∧
    List.Forall₂
      (fun addr item =>
        load_gen_body (fun item => item.load_from k_little_endian sample_extern)
          k_little_endian floor_memory k_item_code_offset addr = Except.ok item)
      [0x2000, 0x1000] [code_item 6, code_item 5] :=
  ⟨rfl,
   (floor_view_reverses_twice k_little_endian sample_extern floor_memory).1 []
     [0x2000, 0x1000] rfl,
   rfl,
   (floor_view_reverses_twice k_little_endian sample_extern floor_memory).2.2.2
     [0x2000, 0x1000] [code_item 6, code_item 5] "--- Floor   2 items ---" rfl⟩

/-! ## The header line -/

theorem toDigitsCore_length_lower (b : Nat) :
    ∀ (f n : Nat) (ds : List Char),
      ds.length + 1 ≤ (Nat.toDigitsCore b (f + 1) n ds).length := by
  intro f
  induction f with
  | zero =>
    intro n ds
    simp only [Nat.toDigitsCore]
    split <;> simp
  | succ k ih =>
    intro n ds
    rw [Nat.toDigitsCore]
    split
    · simp
    · have := ih (n / b) (Nat.digitChar (n % b) :: ds)
      rw [List.length_cons] at this
      omega

theorem int_text_length (n : Nat) :
    (toString (n : Int)).length = (Nat.toDigits 10 n).length := rfl

/-- The decimal text of a number from 100 on has at least three characters. -/
theorem text_length_of_hundred (n : Nat) (h : 100 ≤ n) : 3 ≤ (toString (n : Int)).length := by
  rw [int_text_length]
  obtain ⟨m, rfl⟩ : ∃ m, n = m + 100 := ⟨n - 100, by omega⟩
  unfold Nat.toDigits
  rw [Nat.toDigitsCore]
  rw [if_neg (by omega)]
  rw [Nat.toDigitsCore]
  rw [if_neg (by omega)]
  have := toDigitsCore_length_lower 10 (m + 98) ((m + 100) / 10 / 10)
    [Nat.digitChar ((m + 100) / 10 % 10), Nat.digitChar ((m + 100) % 10)]
  simpa using this

theorem setup_header_line_fails_iff (firstpart lastpart : String) (quantity padding : Int) :
    setup_header_line firstpart quantity padding lastpart = Except.error Exn.invalid_argument ↔
      ((toString quantity).length : Int) > padding := by
  unfold setup_header_line
  simp only []
  by_cases h : ((toString quantity).length : Int) > padding
  · rw [if_pos h]
    exact ⟨fun _ => h, fun _ => rfl⟩
  · rw [if_neg h]
    constructor
    · intro he; cases he
    · intro hp; exact absurd hp h

/-- Claim C33. The function `setup_header_line` throws `invalid_argument` exactly when
the decimal text of `quantity` has more characters than `padding`. Otherwise the
header is `firstpart`, then `padding` minus the number of characters spaces, then the
text, then `lastpart`, and the spaces and the text together have `padding`
characters. So `InventoryViewState::load_items`, which passes the padding 2, throws
`invalid_argument` for every list of 100 or more records that `load_inventory`
returns (the size being one that an `int` holds). -/
theorem header_line_fits_or_fails (firstpart lastpart : String) (quantity padding : Int)
    (host : EndiannessEnum) (env : Extern) (memory : MemoryReader) (addresses : AddressList)
    (rv : ItemList) (hload : load_inventory host env memory addresses = Except.ok rv)
    (h100 : 100 ≤ rv.length) (hint : rv.length < 2147483648) :
    (setup_header_line firstpart quantity padding lastpart
        = Except.error Exn.invalid_argument ↔
      ((toString quantity).length : Int) > padding) ∧
    (¬ ((toString quantity).length : Int) > padding →
      setup_header_line firstpart quantity padding lastpart
        = Except.ok (firstpart ++
            String.mk (List.replicate (padding - ((toString quantity).length : Int)).toNat ' ')
            ++ toString quantity ++ lastpart) ∧
      (((String.mk (List.replicate (padding - ((toString quantity).length : Int)).toNat ' ')
          ++ toString quantity).length : Nat) : Int) = padding) ∧
    InventoryViewState.load_items host env memory addresses
      = Except.error Exn.invalid_argument := by
  refine ⟨setup_header_line_fails_iff firstpart lastpart quantity padding, ?_, ?_⟩
  · intro h
    constructor
    · unfold setup_header_line
      simp only []
      rw [if_neg h]
      rfl
    · rw [String.length_append, String.length_mk, List.length_replicate]
      omega
  · have hlen : (std_sort (lhs_code_lt_rhs host) rv).length = rv.length :=
      (std_sort_perm _ rv).length_eq
    have hfail : setup_header_line "--- Inventory "
        (to_int32 (std_sort (lhs_code_lt_rhs host) rv).length) 2 " / 30 ---"
        = Except.error Exn.invalid_argument := by
      rw [setup_header_line_fails_iff, hlen, to_int32_small _ hint]
      have := text_length_of_hundred rv.length h100
      omega
    unfold InventoryViewState.load_items
    simp only [hload, bind, Except.bind, hfail]


theorem forall₂_replicate {α β : Type} (R : α → β → Prop) (a : α) (b : β) (h : R a b) :
    ∀ n, List.Forall₂ R (List.replicate n a) (List.replicate n b) := by
  intro n
  induction n with
  | zero => exact List.Forall₂.nil
  | succ k ih => exact List.Forall₂.cons h ih

/-- The Saber at 0x1000 of the memory with two weapons, listed a hundred times,
decodes to a hundred records. -/
theorem hundred_sabers :
    load_inventory k_little_endian sample_extern two_weapons_memory (List.replicate 100 0x1000)
      = Except.ok (List.replicate 100 live_saber) := by
  have hbody : load_gen_body (fun item => item.load_from k_little_endian sample_extern)
      k_little_endian two_weapons_memory k_item_code_offset 0x1000 = Except.ok live_saber := rfl
  unfold load_inventory load_gen
  rw [load_gen_loop_of_decoded _ k_little_endian two_weapons_memory k_item_code_offset
    (List.replicate 100 0x1000) [] (List.replicate 100 live_saber)
    (forall₂_replicate
      (fun addr item =>
        load_gen_body (fun item => item.load_from k_little_endian sample_extern)
          k_little_endian two_weapons_memory k_item_code_offset addr = Except.ok item)
      0x1000 live_saber hbody 100)]
  rfl

/-- A list of 100 records, the Saber at 0x1000 a hundred times: the header of the
inventory view cannot be built, while the count 7 gives a header with a field of two
characters. -/
theorem header_line_fits_or_fails_witness :
    load_inventory k_little_endian sample_extern two_weapons_memory (List.replicate 100 0x1000)
      = Except.ok (List.replicate 100 live_saber) ∧
    (setup_header_line "--- Inventory " 7 2 " / 30 ---"
        = Except.error Exn.invalid_argument ↔
      ((toString (7 : Int)).length : Int) > 2) ∧
    (¬ ((toString (7 : Int)).length : Int) > 2 →
      setup_header_line "--- Inventory " 7 2 " / 30 ---"
        = Except.ok ("--- Inventory " ++
            String.mk (List.replicate ((2 : Int) - ((toString (7 : Int)).length : Int)).toNat ' ')
            ++ toString (7 : Int) ++ " / 30 ---") ∧
      (((String.mk (List.replicate ((2 : Int) - ((toString (7 : Int)).length : Int)).toNat ' ')
          ++ toString (7 : Int)).length : Nat) : Int) = 2) ∧
    InventoryViewState.load_items k_little_endian sample_extern two_weapons_memory
        (List.replicate 100 0x1000)
      = Except.error Exn.invalid_argument :=
  ⟨hundred_sabers,
   header_line_fits_or_fails "--- Inventory " " / 30 ---" 7 2 k_little_endian sample_extern
     two_weapons_memory (List.replicate 100 0x1000) (List.replicate 100 live_saber)
     hundred_sabers (by simp) (by simp)⟩

/-! ## Defense and evasion of a frame and of a barrier -/

theorem load_def_stats_reads (host : EndiannessEnum) (env : Extern) (fullcode : Nat)
    (self : DefenseItem) (evp_addr dfp_addr : Address) (memory : MemoryReader) (x y : Nat)
    (hx : memory.read_u8 evp_addr = Except.ok x) (hy : memory.read_u8 dfp_addr = Except.ok y) :
    DefenseItem.load_def_stats host env fullcode self evp_addr dfp_addr memory
      = Except.ok { self with
          dfp := (x : Int), evp := (y : Int),
          mins_maxes := some (get_defense_item_info host env fullcode) } := by
  unfold DefenseItem.load_def_stats
  simp only [hx, hy, bind, Except.bind]
  rfl

/-- The stats a frame gets in the live layout: `dfp` is the byte at offset 0x1BA
and `evp` the byte at offset 0x1B9. -/
theorem frame_load_from__stats (host : EndiannessEnum) (env : Extern) (fullcode : Nat)
    (self : Frame) (addr : Address) (memory : MemoryReader) (s lo hi : Nat)
    (hs : memory.read_u8 (addr_add addr 0x1B8) = Except.ok s)
    (hlo : memory.read_u8 (addr_add addr 0x1B9) = Except.ok lo)
    (hhi : memory.read_u8 (addr_add addr 0x1BA) = Except.ok hi) :
    ∃ f, Frame.load_from_ host env fullcode self addr memory = Except.ok f ∧
      f.dfp = (hi : Int) ∧ f.evp = (lo : Int) := by
  unfold Frame.load_from_
  simp only [hs, bind, Except.bind]
  rw [load_def_stats_reads host env fullcode _ _ _ memory hi lo hhi hlo]
  exact ⟨_, rfl, rfl, rfl⟩

/-- The stats a barrier gets in the live layout: `dfp` is the byte at offset 0x1E5
and `evp` the byte at offset 0x1E4. -/
theorem barrier_load_from__stats (host : EndiannessEnum) (env : Extern) (fullcode : Nat)
    (self : Barrier) (addr : Address) (memory : MemoryReader) (lo hi : Nat)
    (hlo : memory.read_u8 (addr_add addr 0x1E4) = Except.ok lo)
    (hhi : memory.read_u8 (addr_add addr 0x1E5) = Except.ok hi) :
    ∃ b, Barrier.load_from_ host env fullcode self addr memory = Except.ok b ∧
      b.dfp = (hi : Int) ∧ b.evp = (lo : Int) := by
  unfold Barrier.load_from_
  rw [load_def_stats_reads host env fullcode _ _ _ memory hi lo hhi hlo]
  exact ⟨_, rfl, rfl, rfl⟩

/-- Claim C34, evaluated at the failing input. The frame at 0x1000 holds 5 at
offset 0x1B9 (`k_dfp_offset`) and 7 at offset 0x1BA (`k_evp_offset`); the record
decoded has `dfp` 7 and `evp` 5. The barrier at 0x2000 holds 5 at offset 0x1E4 and 7 at
offset 0x1E5 and its record has `dfp` 7 and `evp` 5 as well. -/
theorem defense_stats_are_swapped :
    defense_memory.read_u8 (addr_add 0x1000 0x1B9) = Except.ok 5 ∧
    defense_memory.read_u8 (addr_add 0x1000 0x1BA) = Except.ok 7 ∧
    defense_memory.read_u8 (addr_add 0x2000 0x1E4) = Except.ok 5 ∧
    defense_memory.read_u8 (addr_add 0x2000 0x1E5) = Except.ok 7 ∧
    load_inventory k_little_endian sample_extern defense_memory [0x1000, 0x2000]
      = Except.ok
        [{ fullcode := 0x000101
           derived := ItemClass.Frame
            { dfp := 7, evp := 5
              mins_maxes := some (get_defense_item_info k_little_endian sample_extern 0x000101) } },
         { fullcode := 0x000201
           derived := ItemClass.Barrier
            { dfp := 7, evp := 5
              mins_maxes := some (get_defense_item_info k_little_endian sample_extern 0x000201) } }] :=
  ⟨rfl, rfl, rfl, rfl, rfl⟩

/-! ## Stores of the attribute loop -/

/-- A round that is skipped changes nothing; any other round stores at the subscript
of `Weapon.load_attributes_subscript`. -/
theorem load_attributes_round_subscript (attributes : List Nat) (self : Weapon) (idx : Nat) :
    (Weapon.load_attributes_subscript attributes idx = Option.none →
      Weapon.load_attributes_round attributes self idx = self) ∧
    (∀ i, Weapon.load_attributes_subscript attributes idx = some i →
      (Weapon.load_attributes_round attributes self idx).m_attributes
        = array_store self.m_attributes i (to_int8 (buffer_byte attributes (idx + 1)))) := by
  constructor
  · intro hn
    unfold Weapon.load_attributes_subscript at hn
    unfold Weapon.load_attributes_round
    by_cases h : buffer_byte attributes idx ≥ 6
    · rw [if_pos h]
    · rw [if_neg h] at hn; cases hn
  · intro i hi
    unfold Weapon.load_attributes_subscript at hi
    unfold Weapon.load_attributes_round
    by_cases h : buffer_byte attributes idx ≥ 6
    · rw [if_pos h] at hi; cases hi
    · rw [if_neg h] at hi
      cases hi
      rw [if_neg h]
      by_cases ha : to_int8 (buffer_byte attributes (idx + 1)) ≠ 0
      · simp only [ha, ne_eq, not_false_eq_true, if_true]
      · simp only [ha, if_false]

/-- Every subscript of a store is between -1 and 4; it is -1 exactly for the id 0. -/
theorem load_attributes_subscript_range (attributes : List Nat) (idx : Nat) (i : Int)
    (h : Weapon.load_attributes_subscript attributes idx = some i) :
    -1 ≤ i ∧ i ≤ 4 ∧ (i = -1 ↔ buffer_byte attributes idx = 0) := by
  unfold Weapon.load_attributes_subscript at h
  by_cases h6 : buffer_byte attributes idx ≥ 6
  · rw [if_pos h6] at h; cases h
  · rw [if_neg h6] at h
    cases h
    omega

/-- Claim C35, evaluated at the failing input. The attribute block of a weapon
without attributes is six zero bytes: no round of the loop of `Weapon::load_attributes`
is skipped, since the id 0 is below 6, and each of the three stores has the subscript
-1, which is not an index of the five-element array. -/
theorem attribute_store_below_the_array :
    zero_bank_memory.read (addr_add 0x1000 WeaponBase.k_stats_offset) 6
      = Except.ok [0, 0, 0, 0, 0, 0] ∧
    Weapon.load_attributes_subscripts [0, 0, 0, 0, 0, 0] = [-1, -1, -1] ∧
    (∃ w, Weapon.load_attributes {} (addr_add 0x1000 WeaponBase.k_stats_offset)
      zero_bank_memory = Except.ok w) := by
  refine ⟨rfl, by decide, ⟨_, rfl⟩⟩

/-! ## The line offset of a view -/

/-- In a view with at least one line, `scroll` leaves the offset on a line. -/
theorem scroll_in_range (self : ItemReaderBaseState) (step : Int)
    (h : self.m_item_strings ≠ []) :
    0 ≤ (self.scroll step).m_line_offset ∧
    (self.scroll step).m_line_offset < ((self.scroll step).m_item_strings.length : Int) := by
  have hlen : 0 < self.m_item_strings.length := List.length_pos.2 h
  unfold ItemReaderBaseState.scroll
  simp only []
  by_cases h1 : self.m_line_offset + step < 0
  · rw [if_pos h1]
    simp only []
    omega
  · rw [if_neg h1]
    by_cases h2 : self.m_line_offset + step ≥ (self.m_item_strings.length : Int)
    · rw [if_pos h2]
      simp only []
      omega
    · rw [if_neg h2]
      simp only []
      omega

/-- In a view without lines, `scroll` with a step that is not negative leaves the
offset -1, when the offset was not negative. -/
theorem scroll_empty (self : ItemReaderBaseState) (step : Int)
    (h : self.m_item_strings = []) (h0 : 0 ≤ self.m_line_offset) (hs : 0 ≤ step) :
    (self.scroll step).m_line_offset = -1 := by
  unfold ItemReaderBaseState.scroll
  simp only [h, List.length_nil]
  rw [if_neg (by omega), if_pos (by omega)]
  rfl

/-- The method `update_item_strings` keeps an offset that is not negative between 0
and the number of lines, and keeps a negative offset as it is. -/
theorem update_item_strings_offset (print_lines : ItemList → List String)
    (self : ItemReaderBaseState) :
    (0 ≤ self.m_line_offset →
      0 ≤ (ItemReaderBaseState.update_item_strings print_lines self).m_line_offset ∧
      (ItemReaderBaseState.update_item_strings print_lines self).m_line_offset
        ≤ ((ItemReaderBaseState.update_item_strings print_lines self).m_item_strings.length
            : Int)) ∧
    (self.m_line_offset < 0 →
      (ItemReaderBaseState.update_item_strings print_lines self).m_line_offset
        = self.m_line_offset) := by
  unfold ItemReaderBaseState.update_item_strings
  simp only []
  constructor
  · intro h
    omega
  · intro h
    omega

/-- Claim C36, evaluated at the failing input. A floor view that holds no record has
no line and the offset 0. The key `down` leaves the offset -1, and so do `page_down`
with the page step 0 and `down` after a record-list update that left no line; a later
`update_item_strings` keeps the offset -1 whatever the lines are. -/
theorem scroll_on_empty_view_goes_negative :
    ((ReaderView.handle_event (sample_surroundings permission_denied)
        ReaderStateClass.FloorViewState (Event.special SpecialKey.down) {}).1.view
      ReaderStateClass.FloorViewState).m_line_offset = -1 ∧
    ((ReaderView.handle_event (sample_surroundings permission_denied)
        ReaderStateClass.FloorViewState (Event.special SpecialKey.page_down) {}).1.view
      ReaderStateClass.FloorViewState).m_line_offset = -1 ∧
    (ItemReaderBaseState.scroll
      (ItemReaderBaseState.update_item_strings (sample_surroundings permission_denied).print_lines
        {}) 1).m_line_offset = -1 ∧
    (∀ print_lines : ItemList → List String,
      (ItemReaderBaseState.update_item_strings print_lines
        (ItemReaderBaseState.scroll {} 1)).m_line_offset = -1) := by
  refine ⟨by decide, by decide, by decide, ?_⟩
  intro print_lines
  exact (update_item_strings_offset print_lines (ItemReaderBaseState.scroll {} 1)).2
    (by decide)

/-! ## The comparison of two records as an ordering -/

theorem item_lt_irrefl (host : EndiannessEnum) (a : Item) : Item.lt host a a = false := by
  unfold Item.lt Item.order_compare_to
  simp only [sub_self]
  decide

/-- On a little-endian host the comparison is a strict weak ordering of the records
whose class bytes are below 0x80. -/
theorem item_lt_little_strict_weak (a b c : Item)
    (ha : a.fullcode < 16777216) (hb : b.fullcode < 16777216) (hc : c.fullcode < 16777216)
    (hca : a.fullcode % 256 < 128) (hcb : b.fullcode % 256 < 128)
    (hcc : c.fullcode % 256 < 128) :
    (Item.lt k_little_endian a b = true → Item.lt k_little_endian b a = false) ∧
    (Item.lt k_little_endian a b = true → Item.lt k_little_endian b c = true →
      Item.lt k_little_endian a c = true) ∧
    ((Item.lt k_little_endian a b = false ∧ Item.lt k_little_endian b a = false) ↔
      reverse_three_bytes a.fullcode = reverse_three_bytes b.fullcode) := by
  have hab := item_lt_little a b ha hb hca hcb
  have hba := item_lt_little b a hb ha hcb hca
  have hbc := item_lt_little b c hb hc hcb hcc
  have hac := item_lt_little a c ha hc hca hcc
  refine ⟨?_, ?_, ?_⟩
  · intro h
    cases hx : Item.lt k_little_endian b a with
    | false => rfl
    | true =>
      have h1 := hab.1 h
      have h2 := hba.1 hx
      omega
  · intro h1 h2
    exact hac.2 (Nat.lt_trans (hab.1 h1) (hbc.1 h2))
  · constructor
    · rintro ⟨h1, h2⟩
      have n1 : ¬ reverse_three_bytes a.fullcode < reverse_three_bytes b.fullcode := by
        intro hlt; rw [hab.2 hlt] at h1; cases h1
      have n2 : ¬ reverse_three_bytes b.fullcode < reverse_three_bytes a.fullcode := by
        intro hlt; rw [hba.2 hlt] at h2; cases h2
      omega
    · intro heq
      constructor
      · cases hx : Item.lt k_little_endian a b with
        | false => rfl
        | true => have := hab.1 hx; omega
      · cases hx : Item.lt k_little_endian b a with
        | false => rfl
        | true => have := hba.1 hx; omega

/-- On a big-endian host the comparison is a strict weak ordering of the records
with 24-bit codes. -/
theorem item_lt_big_strict_weak (a b c : Item)
    (ha : a.fullcode < 16777216) (hb : b.fullcode < 16777216) (hc : c.fullcode < 16777216) :
    (Item.lt k_big_endian a b = true → Item.lt k_big_endian b a = false) ∧
    (Item.lt k_big_endian a b = true → Item.lt k_big_endian b c = true →
      Item.lt k_big_endian a c = true) ∧
    ((Item.lt k_big_endian a b = false ∧ Item.lt k_big_endian b a = false) ↔
      a.fullcode = b.fullcode) := by
  have hab := item_lt_big a b ha hb
  have hba := item_lt_big b a hb ha
  have hbc := item_lt_big b c hb hc
  have hac := item_lt_big a c ha hc
  refine ⟨?_, ?_, ?_⟩
  · intro h
    cases hx : Item.lt k_big_endian b a with
    | false => rfl
    | true =>
      have h1 := hab.1 h
      have h2 := hba.1 hx
      omega
  · intro h1 h2
    exact hac.2 (Nat.lt_trans (hab.1 h1) (hbc.1 h2))
  · constructor
    · rintro ⟨h1, h2⟩
      have n1 : ¬ a.fullcode < b.fullcode := by
        intro hlt; rw [hab.2 hlt] at h1; cases h1
      have n2 : ¬ b.fullcode < a.fullcode := by
        intro hlt; rw [hba.2 hlt] at h2; cases h2
      omega
    · intro heq
      constructor
      · cases hx : Item.lt k_big_endian a b with
        | false => rfl
        | true => have := hab.1 hx; omega
      · cases hx : Item.lt k_big_endian b a with
        | false => rfl
        | true => have := hba.1 hx; omega

/-- Claim C37, evaluated at the failing inputs, on a little-endian host. The records
with the codes 0x000000 and 0x000080 (class bytes 0x00 and 0x80) are each less than the
other, so the comparison is not asymmetric. The records with the codes 0x000000,
0x000060 and 0x0000C0 form a cycle: the first is less than the second, the second less
than the third and the third less than the first, while the first is not less than the
third, so the comparison is not transitive. -/
theorem item_lt_is_not_an_ordering :
    (Item.lt k_little_endian (code_item 0x000000) (code_item 0x000080) = true ∧
      Item.lt k_little_endian (code_item 0x000080) (code_item 0x000000) = true) ∧
    (Item.lt k_little_endian (code_item 0x000000) (code_item 0x000060) = true ∧
      Item.lt k_little_endian (code_item 0x000060) (code_item 0x0000C0) = true ∧
      Item.lt k_little_endian (code_item 0x0000C0) (code_item 0x000000) = true ∧
      Item.lt k_little_endian (code_item 0x000000) (code_item 0x0000C0) = false) := by
  decide

/-! ## Bounds of the name array -/

theorem object_value_be_2 (buf : List Nat) :
    object_value k_big_endian 2 buf = buffer_byte buf 1 + 256 * buffer_byte buf 0 := by
  have h0 := buffer_byte_lt buf 0
  have h1 := buffer_byte_lt buf 1
  simp only [object_value, List.range, List.range.loop, List.map, List.reverse_cons,
    List.reverse_nil, List.nil_append, List.cons_append, le_value]
  omega

theorem group_letter_range (g c : Nat) (h : group_letter g = some c) :
    'A'.toNat ≤ c ∧ c ≤ 'Z'.toNat := by
  unfold group_letter at h
  have hA : 'A'.toNat = 65 := rfl
  have hZ : 'Z'.toNat = 90 := rfl
  rw [hA] at h
  rw [hA, hZ]
  by_cases hg : 1 ≤ g ∧ g ≤ 26
  · rw [if_pos hg] at h
    cases h
    omega
  · rw [if_neg hg] at h
    cases h

/-- The loop of `parse_esrank_name` over three words given by their bytes: the array
holds the letters of the groups followed by zeros and the position is the number of
letters. -/
theorem esrank_fold (l0 h0 l1 h1 l2 h2 : Nat) :
    [l0 % 256 + 256 * (h0 % 256), l1 % 256 + 256 * (h1 % 256),
        l2 % 256 + 256 * (h2 % 256)].foldl parse_esrank_name_round
      (([0, 0, 0, 0, 0, 0, 0, 0, 0], 0), true)
    = ((name_array
          (((five_bit_groups (swapped_word (l0 % 256) (h0 % 256)) ++
            five_bit_groups (swapped_word (l1 % 256) (h1 % 256)) ++
            five_bit_groups (swapped_word (l2 % 256) (h2 % 256))).drop 1).filterMap
            group_letter),
        (((five_bit_groups (swapped_word (l0 % 256) (h0 % 256)) ++
            five_bit_groups (swapped_word (l1 % 256) (h1 % 256)) ++
            five_bit_groups (swapped_word (l2 % 256) (h2 % 256))).drop 1).filterMap
            group_letter).length), false) := by
  simp only [List.foldl_cons, List.foldl_nil]
  rw [parse_esrank_name_round_first, parse_esrank_name_round_next,
    parse_esrank_name_round_next, ← List.foldl_append, ← List.foldl_append]
  have hinit : (([0, 0, 0, 0, 0, 0, 0, 0, 0] : List Nat), 0)
      = (name_array [], ([] : List Nat).length) := rfl
  rw [hinit, foldl_add_char]
  · rfl
  · intro t ht
    simp only [List.mem_append] at ht
    rcases ht with ht | ht | ht
    · exact five_bit_groups_lt _ t (List.mem_of_mem_drop ht)
    · exact five_bit_groups_lt _ t ht
    · exact five_bit_groups_lt _ t ht
  · simp [five_bit_groups]

/-- On either host the loop of `parse_esrank_name` ends with an array of letters
followed by zeros and with the position at the number of letters, at most 8. -/
theorem esrank_fold_shape (host : EndiannessEnum) (buf : List Nat) :
    ∃ letters : List Nat,
      [object_value host 2 buf, object_value host 2 (buf.drop 2),
          object_value host 2 (buf.drop 4)].foldl parse_esrank_name_round
        (([0, 0, 0, 0, 0, 0, 0, 0, 0], 0), true)
        = ((name_array letters, letters.length), false) ∧
      letters.length ≤ 8 ∧ ∀ c ∈ letters, 'A'.toNat ≤ c ∧ c ≤ 'Z'.toNat := by
  have hshape : ∀ gs : List Nat, gs.length = 9 →
      ((gs.drop 1).filterMap group_letter).length ≤ 8 ∧
      ∀ c ∈ (gs.drop 1).filterMap group_letter, 'A'.toNat ≤ c ∧ c ≤ 'Z'.toNat := by
    intro gs hgs
    constructor
    · refine Nat.le_trans (List.length_filterMap_le _ _) ?_
      rw [List.length_drop, hgs]
    · intro c hc
      rw [List.mem_filterMap] at hc
      obtain ⟨g, _, hg⟩ := hc
      exact group_letter_range g c hg
  cases host with
  | k_little_endian =>
    simp only [object_value_le_2, buffer_byte_drop]
    unfold buffer_byte
    rw [esrank_fold]
    exact ⟨_, rfl, hshape _ (by simp [five_bit_groups])⟩
  | k_big_endian =>
    simp only [object_value_be_2, buffer_byte_drop]
    unfold buffer_byte
    rw [esrank_fold]
    exact ⟨_, rfl, hshape _ (by simp [five_bit_groups])⟩

/-- Claim C38. On either host and for any six bytes read, `parse_esrank_name` returns
an array of 9 characters that consists of at most 8 letters, each from `A` to `Z`,
followed by zeros: the loop stores letter `k` at position `k` and ends with the
position at the number of letters, so every store is at a position below 8 and the
last element is 0. -/
theorem parse_esrank_name_in_bounds (host : EndiannessEnum) (memory : MemoryReader)
    (addr : Address) (buf : List Nat) (hread : memory.read addr 6 = Except.ok buf) :
    ∃ rv letters : List Nat,
      parse_esrank_name host addr memory = Except.ok rv ∧
      ([object_value host 2 buf, object_value host 2 (buf.drop 2),
          object_value host 2 (buf.drop 4)].foldl parse_esrank_name_round
        (([0, 0, 0, 0, 0, 0, 0, 0, 0], 0), true)).1 = (rv, letters.length) ∧
      rv = letters ++ List.replicate (9 - letters.length) 0 ∧
      letters.length ≤ 8 ∧
      (∀ c ∈ letters, 'A'.toNat ≤ c ∧ c ≤ 'Z'.toNat) ∧
      rv.length = 9 ∧ rv[8]? = some 0 := by
  obtain ⟨letters, hfold, hlen, hrange⟩ := esrank_fold_shape host buf
  refine ⟨name_array letters, letters, ?_, ?_, rfl, hlen, hrange, ?_, ?_⟩
  · simp only [parse_esrank_name, hread, bind, Except.bind, pure, Except.pure, hfold]
  · rw [hfold]
  · unfold name_array
    rw [List.length_append, List.length_replicate]
    omega
  · unfold name_array
    rw [List.getElem?_append_right (by omega)]
    rw [List.getElem?_replicate]
    rw [if_pos (by omega)]

/-- The six bytes 04 21 04 21 04 21 decode to eight letters `A`, the longest name, and
the last element of the array is 0. -/
theorem parse_esrank_name_in_bounds_witness :
    full_name_memory.read 0 6 = Except.ok [0x04, 0x21, 0x04, 0x21, 0x04, 0x21] ∧
    parse_esrank_name k_little_endian 0 full_name_memory
      = Except.ok [65, 65, 65, 65, 65, 65, 65, 65, 0] ∧
    ∃ rv letters : List Nat,
      parse_esrank_name k_little_endian 0 full_name_memory = Except.ok rv ∧
      ([object_value k_little_endian 2 [0x04, 0x21, 0x04, 0x21, 0x04, 0x21],
          object_value k_little_endian 2 ([0x04, 0x21, 0x04, 0x21, 0x04, 0x21].drop 2),
          object_value k_little_endian 2
            ([0x04, 0x21, 0x04, 0x21, 0x04, 0x21].drop 4)].foldl parse_esrank_name_round
        (([0, 0, 0, 0, 0, 0, 0, 0, 0], 0), true)).1 = (rv, letters.length) ∧
      rv = letters ++ List.replicate (9 - letters.length) 0 ∧
      letters.length ≤ 8 ∧
      (∀ c ∈ letters, 'A'.toNat ≤ c ∧ c ≤ 'Z'.toNat) ∧
      rv.length = 9 ∧ rv[8]? = some 0 :=
  ⟨rfl, rfl,
   parse_esrank_name_in_bounds k_little_endian full_name_memory 0
     [0x04, 0x21, 0x04, 0x21, 0x04, 0x21] rfl⟩

/-! ## A tick that fails keeps the records -/

theorem tick_delay_items (print_lines : ItemList → List String) (delay_elapsed : Bool)
    (self : ItemReaderBaseState) :
    (ItemReaderBaseState.tick_delay print_lines delay_elapsed self).m_items = self.m_items ∧
    (ItemReaderBaseState.tick_delay print_lines delay_elapsed self).m_old_pointers
      = self.m_old_pointers := by
  cases delay_elapsed <;> exact ⟨rfl, rfl⟩

/-- Claim C39. In `ItemReaderBaseState::handle_tick`, when `load_addresses` throws, or
when it returns a list that differs from the previous one and `load_items` throws, the
state after the tick has the `m_items` and the `m_old_pointers` it had before the tick
(and the watcher is asked for). In every other case, that is when the tick completes
without an exception, `m_old_pointers` equals `m_pointers` after the tick. -/
theorem failed_tick_keeps_records (print_lines : ItemList → List String) (V : ViewMethods)
    (memory : MemoryReader) (delay_elapsed : Bool) (self : ItemReaderBaseState) :
    (∀ p e, V.load_addresses memory [] = (p, some e) →
      (ItemReaderBaseState.handle_tick print_lines V memory delay_elapsed self).m_items
        = self.m_items ∧
      (ItemReaderBaseState.handle_tick print_lines V memory delay_elapsed self).m_old_pointers
        = self.m_old_pointers ∧
      (ItemReaderBaseState.handle_tick print_lines V memory delay_elapsed self).m_new_state
        = some AppStateClass.PsobbProcessWatcher) ∧
    (∀ p e, V.load_addresses memory [] = (p, Option.none) →
      std_equal p self.m_old_pointers = false →
      V.load_items memory p = Except.error e →
      (ItemReaderBaseState.handle_tick print_lines V memory delay_elapsed self).m_items
        = self.m_items ∧
      (ItemReaderBaseState.handle_tick print_lines V memory delay_elapsed self).m_old_pointers
        = self.m_old_pointers ∧
      (ItemReaderBaseState.handle_tick print_lines V memory delay_elapsed self).m_new_state
        = some AppStateClass.PsobbProcessWatcher) ∧
    (∀ p, V.load_addresses memory [] = (p, Option.none) →
      (std_equal p self.m_old_pointers = true ∨ ∃ r, V.load_items memory p = Except.ok r) →
      (ItemReaderBaseState.handle_tick print_lines V memory delay_elapsed self).m_old_pointers
        = (ItemReaderBaseState.handle_tick print_lines V memory delay_elapsed self).m_pointers ∧
      (ItemReaderBaseState.handle_tick print_lines V memory delay_elapsed self).m_pointers
        = p) := by
  have hd := tick_delay_items print_lines delay_elapsed self
  refine ⟨?_, ?_, ?_⟩
  · intro p e h
    unfold ItemReaderBaseState.handle_tick
    simp only [h]
    exact ⟨hd.1, hd.2, rfl⟩
  · intro p e h hne hi
    rw [← hd.2] at hne
    unfold ItemReaderBaseState.handle_tick
    simp only [h, hne, hi]
    exact ⟨hd.1, hd.2, rfl⟩
  · intro p h hor
    unfold ItemReaderBaseState.handle_tick
    simp only [h]
    cases heq : std_equal p
        (ItemReaderBaseState.tick_delay print_lines delay_elapsed self).m_old_pointers with
    | true =>
      simp only [Bool.not_true]
      exact ⟨((std_equal_iff_eq _ _).1 heq).symm, rfl⟩
    | false =>
      rw [hd.2] at heq
      rcases hor with ht | ⟨r, hr⟩
      · rw [ht] at heq; cases heq
      · simp only [hr, Bool.not_false]
        exact ⟨rfl, rfl⟩

/-- The sample view over the memory with two weapons: the second weapon does not
decode, so a tick with a fresh address list fails in `load_items` and the view keeps
its records and its previous address list. -/
theorem failed_tick_keeps_records_witness :
    (sample_view [0x1000, 0x2000]).load_addresses two_weapons_memory []
      = ([0x1000, 0x2000], Option.none) ∧
    std_equal [0x1000, 0x2000] [0x1000] = false ∧
    (sample_view [0x1000, 0x2000]).load_items two_weapons_memory [0x1000, 0x2000]
      = Except.error Exn.invalid_argument ∧
    (ItemReaderBaseState.handle_tick (fun _ => []) (sample_view [0x1000, 0x2000])
        two_weapons_memory false
        { m_items := [live_saber], m_old_pointers := [0x1000] }).m_items = [live_saber] ∧
    (ItemReaderBaseState.handle_tick (fun _ => []) (sample_view [0x1000, 0x2000])
        two_weapons_memory false
        { m_items := [live_saber], m_old_pointers := [0x1000] }).m_old_pointers = [0x1000] ∧
    (ItemReaderBaseState.handle_tick (fun _ => []) (sample_view [0x1000, 0x2000])
        two_weapons_memory false
        { m_items := [live_saber], m_old_pointers := [0x1000] }).m_new_state
      = some AppStateClass.PsobbProcessWatcher :=
  ⟨rfl, rfl, rfl,
   (failed_tick_keeps_records (fun _ => []) (sample_view [0x1000, 0x2000])
     two_weapons_memory false { m_items := [live_saber], m_old_pointers := [0x1000] }).2.1
     [0x1000, 0x2000] Exn.invalid_argument rfl rfl rfl⟩

/-! ## The kill counter of a record -/

theorem field_loader_kills (x r : Item)
    (h : (∃ d, r = { x with derived := d } ∧ ∀ t, d ≠ ItemClass.Tech t) ∨
      (∃ t, r = { x with derived := ItemClass.Tech t, name := t.type.to_string })) :
    r.kills = x.kills := by
  rcases h with ⟨d, rfl, _⟩ | ⟨t, rfl⟩ <;> rfl

theorem make_item_fresh (host : EndiannessEnum) (memory : MemoryReader) (addr : Address)
    (x : Item) (h : make_item host memory addr = Except.ok x) : x.kills = -1 := by
  unfold make_item at h
  cases hread : memory.read_u32 host addr with
  | error e => simp [hread, bind, Except.bind] at h
  | ok w =>
    simp only [hread, bind, Except.bind] at h
    repeat' split at h
    all_goals
      simp only [pure, Except.pure, Except.ok.injEq] at h
      rw [← h]

theorem object_value_2_lt (host : EndiannessEnum) (buf : List Nat) :
    object_value host 2 buf < 65536 := by
  have h0 := buffer_byte_lt buf 0
  have h1 := buffer_byte_lt buf 1
  cases host with
  | k_little_endian => rw [object_value_le_2]; omega
  | k_big_endian => rw [object_value_be_2]; omega

theorem read_u16_lt (host : EndiannessEnum) (memory : MemoryReader) (addr : Address) (k : Nat)
    (h : memory.read_u16 host addr = Except.ok k) : k < 65536 := by
  unfold MemoryReader.read_u16 MemoryReader.read_datum at h
  cases hb : memory.read addr 2 with
  | error e => simp [hb, bind, Except.bind] at h
  | ok buf =>
    simp only [hb, bind, Except.bind, pure, Except.pure, Except.ok.injEq] at h
    rw [← h]
    exact object_value_2_lt host buf

/-- What `Item::set_fullcode_and_kills` does to the member `kills`: without a counter
in the table entry the method reads nothing and keeps the member, with a counter it
stores the 16-bit value read at offset 0xE8. -/
theorem set_fullcode_and_kills_kills (host : EndiannessEnum) (env : Extern) (self : Item)
    (fullcode : Nat) (addr : Address) (memory : MemoryReader) :
    ((get_item_info host env fullcode).has_kill_counter = false →
      self.set_fullcode_and_kills host env fullcode addr memory
        = Except.ok { self with
            name := (get_item_info host env fullcode).name,
            rarity := (get_item_info host env fullcode).rarity,
            fullcode := fullcode }) ∧
    ((get_item_info host env fullcode).has_kill_counter = true →
      ∀ r, self.set_fullcode_and_kills host env fullcode addr memory = Except.ok r →
        ∃ k, memory.read_u16 host (addr_add addr 0xE8) = Except.ok k ∧
          r.kills = (k : Int)) := by
  constructor
  · intro hno
    unfold Item.set_fullcode_and_kills
    simp only [hno, bind, Except.bind, pure, Except.pure]
    rfl
  · intro hyes r h
    unfold Item.set_fullcode_and_kills at h
    simp only [hyes, bind, Except.bind, pure, Except.pure, if_true] at h
    cases hk : memory.read_u16 host (addr_add addr 0xE8) with
    | error e => simp [hk] at h
    | ok k =>
      simp only [hk, Except.ok.injEq] at h
      exact ⟨k, rfl, by rw [← h]⟩

theorem addr_add_ne_counter (addr k : Nat) (hk : k < 18446744073709551616) (hne : k ≠ 0xE8) :
    addr_add addr k ≠ addr_add addr 0xE8 := by
  intro h
  have h2 : (addr + k) % 18446744073709551616 = (addr + 0xE8) % 18446744073709551616 := h
  omega

theorem addr_ne_counter (addr : Nat) : addr ≠ addr_add addr 0xE8 := by
  intro h
  have h2 : addr = (addr + 0xE8) % 18446744073709551616 := h
  omega

theorem read_off_counter (memory memory' : MemoryReader) (addr : Address)
    (hag : same_reads_except memory memory' (addr_add addr 0xE8)) (k n : Nat)
    (hk : k < 18446744073709551616) (hne : k ≠ 0xE8) :
    memory'.read (addr_add addr k) n = memory.read (addr_add addr k) n :=
  hag _ n (addr_add_ne_counter addr k hk hne)

theorem load_from__off_counter (host : EndiannessEnum) (env : Extern) (self : Item)
    (addr : Address) (memory memory' : MemoryReader)
    (hag : same_reads_except memory memory' (addr_add addr 0xE8)) :
    self.load_from_ host env addr memory' = self.load_from_ host env addr memory := by
  have r := read_off_counter memory memory' addr hag
  unfold Item.load_from_
  cases self.derived <;>
    simp only [Weapon.load_from_, WeaponBase.load_from_, WeaponBase.load_grind_and_special,
      Weapon.load_attributes, EsWeapon.load_from_, parse_esrank_name, Frame.load_from_,
      Barrier.load_from_, DefenseItem.load_def_stats, Mag.load_from_, Mag.load_stats,
      Tool.load_from_, Tech.load_from_, Tech.load_level_and_type, Meseta.load_from_,
      MemoryReader.read_u8, MemoryReader.read_u32, MemoryReader.read_datum,
      r 0x1F5 1 (by decide) (by decide), r 0x1F6 1 (by decide) (by decide),
      r WeaponBase.k_stats_offset 6 (by decide) (by decide),
      r EsWeapon.k_name_offset 6 (by decide) (by decide),
      r 0x1B8 1 (by decide) (by decide), r 0x1B9 1 (by decide) (by decide),
      r 0x1BA 1 (by decide) (by decide), r 0x1E4 1 (by decide) (by decide),
      r 0x1E5 1 (by decide) (by decide), r 0x1C0 8 (by decide) (by decide),
      r 0x1B4 4 (by decide) (by decide), r Tool.k_count_offset 4 (by decide) (by decide),
      r k_item_code_offset 4 (by decide) (by decide), r 0x108 1 (by decide) (by decide),
      r 0x100 4 (by decide) (by decide)]

theorem load_from_bank__off_counter (host : EndiannessEnum) (env : Extern) (self : Item)
    (addr : Address) (memory memory' : MemoryReader)
    (hag : same_reads_except memory memory' (addr_add addr 0xE8)) :
    self.load_from_bank_ host env addr memory' = self.load_from_bank_ host env addr memory := by
  have r := read_off_counter memory memory' addr hag
  have r0 : ∀ n, memory'.read addr n = memory.read addr n :=
    fun n => hag _ n (addr_ne_counter addr)
  unfold Item.load_from_bank_
  cases self.derived <;>
    simp only [Weapon.load_from_bank_, WeaponBase.load_from_bank_,
      WeaponBase.load_grind_and_special,
      Weapon.load_attributes, EsWeapon.load_from_bank_, parse_esrank_name,
      Frame.load_from_bank_,
      Barrier.load_from_bank_, DefenseItem.load_def_stats, Mag.load_from_bank_, Mag.load_stats,
      Tool.load_from_bank_, Tech.load_from_bank_, Tech.load_level_and_type,
      Meseta.load_from_bank_,
      MemoryReader.read_u8, MemoryReader.read_u32, MemoryReader.read_datum, r0,
      r 0x3 1 (by decide) (by decide), r 0x4 1 (by decide) (by decide),
      r 6 6 (by decide) (by decide), r 5 1 (by decide) (by decide),
      r 8 1 (by decide) (by decide), r 6 1 (by decide) (by decide),
      r 4 8 (by decide) (by decide), r 20 1 (by decide) (by decide),
      r 12 4 (by decide) (by decide)]

theorem make_item_off_counter (host : EndiannessEnum)
    (memory memory' : MemoryReader) (a : Address)
    (ha : memory'.read a 4 = memory.read a 4) :
    make_item host memory' a = make_item host memory a := by
  unfold make_item
  simp only [MemoryReader.read_u32, MemoryReader.read_datum, ha]

theorem read_u32_same (host : EndiannessEnum) (memory memory' : MemoryReader) (a : Address)
    (ha : memory'.read a 4 = memory.read a 4) :
    memory'.read_u32 host a = memory.read_u32 host a := by
  simp only [MemoryReader.read_u32, MemoryReader.read_datum, ha]

/-- The steps of the decode of a record in the live layout. -/
theorem load_gen_body_live_parts (host : EndiannessEnum) (env : Extern) (memory : MemoryReader)
    (addr : Address) (item : Item)
    (h : load_gen_body (fun item => item.load_from host env) host memory k_item_code_offset
      addr = Except.ok item) :
    ∃ x w y, make_item host memory (addr_add addr k_item_code_offset) = Except.ok x ∧
      memory.read_u32 host (addr_add addr k_item_code_offset) = Except.ok w ∧
      x.set_fullcode_and_kills host env (w &&& 0xFFFFFF) addr memory = Except.ok y ∧
      y.load_from_ host env addr memory = Except.ok item := by
  unfold load_gen_body at h
  cases hm : make_item host memory (addr_add addr k_item_code_offset) with
  | error e => simp [hm, bind, Except.bind] at h
  | ok x =>
    simp only [hm, bind, Except.bind, Item.load_from] at h
    cases hw : memory.read_u32 host (addr_add addr k_item_code_offset) with
    | error e => simp [hw] at h
    | ok w =>
      simp only [hw] at h
      cases hs : x.set_fullcode_and_kills host env (w &&& 0xFFFFFF) addr memory with
      | error e => simp [hs] at h
      | ok y =>
        simp only [hs] at h
        exact ⟨x, w, y, rfl, rfl, hs, h⟩

/-- The steps of the decode of a record in the bank layout. -/
theorem load_gen_body_bank_parts (host : EndiannessEnum) (env : Extern) (memory : MemoryReader)
    (addr : Address) (item : Item)
    (h : load_gen_body (fun item => item.load_from_bank host env) host memory 0 addr
      = Except.ok item) :
    ∃ x w y, make_item host memory (addr_add addr 0) = Except.ok x ∧
      memory.read_u32 host addr = Except.ok w ∧
      x.set_fullcode_and_kills host env (w &&& 0xFFFFFF) addr memory = Except.ok y ∧
      y.load_from_bank_ host env addr memory = Except.ok item := by
  unfold load_gen_body at h
  cases hm : make_item host memory (addr_add addr 0) with
  | error e => simp [hm, bind, Except.bind] at h
  | ok x =>
    simp only [hm, bind, Except.bind, Item.load_from_bank] at h
    cases hw : memory.read_u32 host addr with
    | error e => simp [hw] at h
    | ok w =>
      simp only [hw] at h
      cases hs : x.set_fullcode_and_kills host env (w &&& 0xFFFFFF) addr memory with
      | error e => simp [hs] at h
      | ok y =>
        simp only [hs] at h
        exact ⟨x, w, y, rfl, rfl, hs, h⟩

/-- The member `kills` of a record that went through `set_fullcode_and_kills` as a
fresh object and then through a field loader. -/
theorem kills_of_parts (host : EndiannessEnum) (env : Extern) (memory : MemoryReader)
    (addr : Address) (x y item : Item) (code : Nat) (hx : x.kills = -1)
    (hs : x.set_fullcode_and_kills host env code addr memory = Except.ok y)
    (hk : item.kills = y.kills) (hf : item.fullcode = y.fullcode) :
    (item.kills = -1 ↔ (get_item_info host env item.fullcode).has_kill_counter = false) ∧
    ((get_item_info host env item.fullcode).has_kill_counter = true →
      ∃ k, memory.read_u16 host (addr_add addr 0xE8) = Except.ok k ∧
        item.kills = (k : Int) ∧ k < 65536) ∧
    item.fullcode = code := by
  have hinfo := set_fullcode_and_kills_info host env x y code addr memory hs
  have hkk := set_fullcode_and_kills_kills host env x code addr memory
  have hcode : item.fullcode = code := by rw [hf, hinfo.2.2]
  rw [hcode]
  cases hc : (get_item_info host env code).has_kill_counter with
  | false =>
    have hy := hkk.1 hc
    rw [hs] at hy
    simp only [Except.ok.injEq] at hy
    have hyk : y.kills = x.kills := by rw [hy]
    refine ⟨⟨fun _ => rfl, fun _ => by rw [hk, hyk, hx]⟩, fun hne => (by cases hne), rfl⟩
  | true =>
    obtain ⟨k, hread, hyk⟩ := hkk.2 hc y hs
    have hlt := read_u16_lt host memory _ k hread
    refine ⟨⟨fun h1 => ?_, fun hne => (by cases hne)⟩,
      fun _ => ⟨k, hread, by rw [hk, hyk], hlt⟩, rfl⟩
    rw [hk, hyk] at h1
    omega

theorem load_gen_body_live_off_counter (host : EndiannessEnum) (env : Extern)
    (memory memory' : MemoryReader) (addr : Address) (w : Nat)
    (hag : same_reads_except memory memory' (addr_add addr 0xE8))
    (hw : memory.read_u32 host (addr_add addr k_item_code_offset) = Except.ok w)
    (hno : (get_item_info host env (w &&& 0xFFFFFF)).has_kill_counter = false) :
    load_gen_body (fun item => item.load_from host env) host memory' k_item_code_offset addr
      = load_gen_body (fun item => item.load_from host env) host memory k_item_code_offset
          addr := by
  have hr : memory'.read (addr_add addr k_item_code_offset) 4
      = memory.read (addr_add addr k_item_code_offset) 4 :=
    read_off_counter memory memory' addr hag k_item_code_offset 4 (by decide) (by decide)
  have hw' : memory'.read_u32 host (addr_add addr k_item_code_offset) = Except.ok w := by
    rw [read_u32_same host memory memory' _ hr, hw]
  unfold load_gen_body
  rw [make_item_off_counter host memory memory' _ hr]
  cases hm : make_item host memory (addr_add addr k_item_code_offset) with
  | error e => rfl
  | ok x =>
    simp only [bind, Except.bind, Item.load_from, hw, hw']
    rw [(set_fullcode_and_kills_kills host env x (w &&& 0xFFFFFF) addr memory').1 hno,
      (set_fullcode_and_kills_kills host env x (w &&& 0xFFFFFF) addr memory).1 hno]
    exact load_from__off_counter host env _ addr memory memory' hag

theorem load_gen_body_bank_off_counter (host : EndiannessEnum) (env : Extern)
    (memory memory' : MemoryReader) (addr : Address) (w : Nat)
    (hag : same_reads_except memory memory' (addr_add addr 0xE8))
    (hw : memory.read_u32 host addr = Except.ok w)
    (hno : (get_item_info host env (w &&& 0xFFFFFF)).has_kill_counter = false) :
    load_gen_body (fun item => item.load_from_bank host env) host memory' 0 addr
      = load_gen_body (fun item => item.load_from_bank host env) host memory 0 addr := by
  have hr : memory'.read (addr_add addr 0) 4 = memory.read (addr_add addr 0) 4 :=
    read_off_counter memory memory' addr hag 0 4 (by decide) (by decide)
  have hr0 : memory'.read addr 4 = memory.read addr 4 := hag _ 4 (addr_ne_counter addr)
  have hw' : memory'.read_u32 host addr = Except.ok w := by
    rw [read_u32_same host memory memory' _ hr0, hw]
  unfold load_gen_body
  rw [make_item_off_counter host memory memory' _ hr]
  cases hm : make_item host memory (addr_add addr 0) with
  | error e => rfl
  | ok x =>
    simp only [bind, Except.bind, Item.load_from_bank, hw, hw']
    rw [(set_fullcode_and_kills_kills host env x (w &&& 0xFFFFFF) addr memory').1 hno,
      (set_fullcode_and_kills_kills host env x (w &&& 0xFFFFFF) addr memory).1 hno]
    exact load_from_bank__off_counter host env _ addr memory memory' hag

/-- Claim C31. For a record decoded at the address `addr`, in the live layout or in
the bank layout: the member `kills` is -1 exactly when the table entry of the code of
the record has no kill counter. When the entry has one, `kills` is the unsigned 16-bit
value read at `addr + 0xE8`, a number from 0 to 65535. When the entry has none, the
decode does not depend on what a read at `addr + 0xE8` gives: on every memory that
answers all other reads alike the same record is decoded. -/
theorem kill_counter_presence (host : EndiannessEnum) (env : Extern) (memory : MemoryReader)
    (addr : Address) (item : Item)
    (h : load_gen_body (fun item => item.load_from host env) host memory k_item_code_offset
        addr = Except.ok item ∨
      load_gen_body (fun item => item.load_from_bank host env) host memory 0 addr
        = Except.ok item) :
    (item.kills = -1 ↔ (get_item_info host env item.fullcode).has_kill_counter = false) ∧
    ((get_item_info host env item.fullcode).has_kill_counter = true →
      ∃ k, memory.read_u16 host (addr_add addr 0xE8) = Except.ok k ∧
        item.kills = (k : Int) ∧ k < 65536) ∧
    ((get_item_info host env item.fullcode).has_kill_counter = false →
      ∀ memory', same_reads_except memory memory' (addr_add addr 0xE8) →
        (load_gen_body (fun item => item.load_from host env) host memory k_item_code_offset
            addr = Except.ok item →
          load_gen_body (fun item => item.load_from host env) host memory'
            k_item_code_offset addr = Except.ok item) ∧
        (load_gen_body (fun item => item.load_from_bank host env) host memory 0 addr
            = Except.ok item →
          load_gen_body (fun item => item.load_from_bank host env) host memory' 0 addr
            = Except.ok item)) := by
  have hlive : ∀ hl : load_gen_body (fun item => item.load_from host env) host memory
      k_item_code_offset addr = Except.ok item,
      ((item.kills = -1 ↔ (get_item_info host env item.fullcode).has_kill_counter = false) ∧
        ((get_item_info host env item.fullcode).has_kill_counter = true →
          ∃ k, memory.read_u16 host (addr_add addr 0xE8) = Except.ok k ∧
            item.kills = (k : Int) ∧ k < 65536)) ∧
      ((get_item_info host env item.fullcode).has_kill_counter = false →
        ∀ memory', same_reads_except memory memory' (addr_add addr 0xE8) →
          load_gen_body (fun item => item.load_from host env) host memory'
            k_item_code_offset addr = Except.ok item) := by
    intro hl
    obtain ⟨x, w, y, hm, hw, hs, hf⟩ := load_gen_body_live_parts host env memory addr item hl
    have hshape := load_from__shape host env y item addr memory hf
    have hp := kills_of_parts host env memory addr x y item _
      (make_item_fresh host memory _ x hm) hs (field_loader_kills y item hshape)
      (field_loader_keeps y item hshape).2.1
    refine ⟨⟨hp.1, hp.2.1⟩, ?_⟩
    intro hno memory' hag
    rw [hp.2.2] at hno
    rw [load_gen_body_live_off_counter host env memory memory' addr w hag hw hno]
    exact hl
  have hbank : ∀ hb : load_gen_body (fun item => item.load_from_bank host env) host memory 0
      addr = Except.ok item,
      ((item.kills = -1 ↔ (get_item_info host env item.fullcode).has_kill_counter = false) ∧
        ((get_item_info host env item.fullcode).has_kill_counter = true →
          ∃ k, memory.read_u16 host (addr_add addr 0xE8) = Except.ok k ∧
            item.kills = (k : Int) ∧ k < 65536)) ∧
      ((get_item_info host env item.fullcode).has_kill_counter = false →
        ∀ memory', same_reads_except memory memory' (addr_add addr 0xE8) →
          load_gen_body (fun item => item.load_from_bank host env) host memory' 0 addr
            = Except.ok item) := by
    intro hb
    obtain ⟨x, w, y, hm, hw, hs, hf⟩ := load_gen_body_bank_parts host env memory addr item hb
    have hshape := load_from_bank__shape host env y item addr memory hf
    have hp := kills_of_parts host env memory addr x y item _
      (make_item_fresh host memory _ x hm) hs (field_loader_kills y item hshape)
      (field_loader_keeps y item hshape).2.1
    refine ⟨⟨hp.1, hp.2.1⟩, ?_⟩
    intro hno memory' hag
    rw [hp.2.2] at hno
    rw [load_gen_body_bank_off_counter host env memory memory' addr w hag hw hno]
    exact hb
  have hfirst : (item.kills = -1 ↔
        (get_item_info host env item.fullcode).has_kill_counter = false) ∧
      ((get_item_info host env item.fullcode).has_kill_counter = true →
        ∃ k, memory.read_u16 host (addr_add addr 0xE8) = Except.ok k ∧
          item.kills = (k : Int) ∧ k < 65536) := by
    rcases h with hl | hb
    · exact (hlive hl).1
    · exact (hbank hb).1
  exact ⟨hfirst.1, hfirst.2, fun hno memory' hag =>
    ⟨fun hl => (hlive hl).2 hno memory' hag, fun hb => (hbank hb).2 hno memory' hag⟩⟩

/-- The sealed sword of the sample memory has a counter in its table entry and its
record holds the 12345 read at 0x10E8. The Saber at 0x1000 of the memory with two
weapons has none and its record holds -1. -/
theorem kill_counter_presence_witness :
    load_gen_body (fun item => item.load_from k_little_endian sample_extern) k_little_endian
      sealed_sword_memory k_item_code_offset 0x1000 = Except.ok sealed_sword ∧
    (get_item_info k_little_endian sample_extern sealed_sword.fullcode).has_kill_counter
      = true ∧
    sealed_sword_memory.read_u16 k_little_endian (addr_add 0x1000 0xE8) = Except.ok 12345 ∧
    sealed_sword.kills = 12345 ∧
    (sealed_sword.kills = -1 ↔
      (get_item_info k_little_endian sample_extern sealed_sword.fullcode).has_kill_counter
        = false) :=
  ⟨rfl, rfl, rfl, rfl,
   (kill_counter_presence k_little_endian sample_extern sealed_sword_memory 0x1000
     sealed_sword (Or.inl rfl)).1⟩

end PsoItemReader
